import Mathlib

/-!
# LightSky: the game-state scheduler (`lsSubsystem`)

A shallow embedding of `src/src/lsSystem.cpp` (the state stack, its push/pop
operations, the per-frame update loop, hardware-event routing, `stop` and
`terminate`) together with the lifecycle tag of `src/lightsky/game/gameState.h`.

Modelling conventions.

* A game state is a heap object reached through a pointer.  Pointers are
  natural numbers, `0` is `nullptr`.  The heap is a total map from addresses to
  the two scheduler-visible fields of `lsGameState` (`pSystem`, `currentState`).
* The virtual methods of a state are a table `Callbacks` of functions on the
  `World` (scheduler fields + heap): a callback may do anything to the world,
  including what it could do by calling back into its parent system.
* `Sys` pairs the world with a `log`: the sequence of virtual calls and
  `delete`s performed by the scheduler operation itself.  Callbacks cannot edit
  the log.
* `unsigned` is 32 bits: arithmetic on loop indices is written with an explicit
  `% 2 ^ 32`.
* Indexing a vector out of range (and `back()` of an empty vector) is undefined
  behaviour, reported as `Fault.undefinedBehaviour`.  Loops whose termination
  depends on the callbacks take a fuel argument and report `Fault.outOfFuel`.
-/

namespace LightSky

/-! ## Data model -/

/-- Address of an `lsGameState` object. -/
abbrev Ptr := Nat

/-- The null pointer. -/
def nullptr : Ptr := 0

/-- Lifecycle tag, `enum game_state_t : unsigned` of `gameState.h`
(spelled `LS_GAME_*` in `lsSystem.cpp`). -/
inductive game_state_t
  | LS_GAME_INVALID
  | LS_GAME_PAUSED
  | LS_GAME_RUNNING
  | LS_GAME_STOPPED
  | LS_GAME_INIT
  deriving DecidableEq

open game_state_t

/-- Numeric value of each enumerator (`GAME_INVALID = (unsigned)-1`). -/
def game_state_t.toUnsigned : game_state_t → Nat
  | LS_GAME_INVALID => 2 ^ 32 - 1
  | LS_GAME_PAUSED => 0
  | LS_GAME_RUNNING => 1
  | LS_GAME_STOPPED => 2
  | LS_GAME_INIT => 3

/-- A C `float`, carried as an uninterpreted bit pattern: the scheduler only
stores tick times and hands them to callbacks. -/
structure float where
  bits : Nat
  deriving DecidableEq

/-- The literal `0.f`. -/
def float.zero : float := ⟨0⟩

/-- The scheduler-visible fields of a game state object. -/
structure lsGameState where
  /-- Back-reference `pSystem` (address of the parent subsystem, 0 if unset). -/
  pSystem : Ptr
  /-- Field `currentState`. -/
  currentState : game_state_t
  deriving DecidableEq

/-- Everything a callback can observe and change: the fields of the
`lsSubsystem` and the heap of game state objects. -/
structure World where
  /-- Address of the subsystem itself (`this`). -/
  self : Ptr
  prevTime : float
  tickTime : float
  /-- The vector `gameStack`, index 0 first. -/
  gameStack : List Ptr
  heap : Ptr → lsGameState

/-- Modelled from the spec: the body of `gameState::getState` (declared in
`gameState.h`; its definition, in `gameState_impl.h`, is not among the
sources).  A tag accessor: it returns the field `currentState`. -/
def lsGameState.getState (g : lsGameState) : game_state_t :=
  g.currentState

/-- Modelled from the spec: the body of `gameState::setState` (declared in
`gameState.h`; its definition is not among the sources).  A tag accessor: it
assigns the field `currentState` and nothing else. -/
def lsGameState.setState (g : lsGameState) (s : game_state_t) : lsGameState :=
  { g with currentState := s }

/-- Method `gameState::getState` called through pointer `p`
(`lsGameState.getState` of the object at `p`). -/
def World.getState (w : World) (p : Ptr) : game_state_t :=
  (w.heap p).currentState

/-- Method `gameState::setState` called through pointer `p`
(`lsGameState.setState` of the object at `p`). -/
def World.setState (w : World) (p : Ptr) (t : game_state_t) : World :=
  { w with heap := fun q => if q = p then { w.heap q with currentState := t } else w.heap q }

/-- Method `gameState::setParentSystem(*this)` called through pointer `p`. -/
def World.setParentSystem (w : World) (p : Ptr) : World :=
  { w with heap := fun q => if q = p then { w.heap q with pSystem := w.self } else w.heap q }

/-- Kind of an `SDL_Event` (`pEvent->type`).  The kinds the scheduler's
`switch` names are listed, with the controller and joystick kinds for which
`gameState.h` declares callbacks; every other value is `other`. -/
inductive SDL_EventType
  | SDL_QUIT
  | SDL_WINDOWEVENT
  | SDL_KEYUP
  | SDL_KEYDOWN
  | SDL_TEXTINPUT
  | SDL_MOUSEMOTION
  | SDL_MOUSEBUTTONUP
  | SDL_MOUSEBUTTONDOWN
  | SDL_MOUSEWHEEL
  | SDL_CONTROLLERDEVICEADDED
  | SDL_CONTROLLERDEVICEREMOVED
  | SDL_CONTROLLERDEVICEREMAPPED
  | SDL_CONTROLLERAXISMOTION
  | SDL_CONTROLLERBUTTONUP
  | SDL_CONTROLLERBUTTONDOWN
  | SDL_JOYDEVICEADDED
  | SDL_JOYDEVICEREMOVED
  | SDL_JOYAXISMOTION
  | SDL_JOYBALLMOTION
  | SDL_JOYBUTTONDOWN
  | SDL_JOYBUTTONUP
  | SDL_JOYHATMOTION
  | other (code : Nat)
  deriving DecidableEq

/-- An `SDL_Event`: its kind and its kind-specific payload (uninterpreted). -/
structure SDL_Event where
  type : SDL_EventType
  payload : Nat
  deriving DecidableEq

/-- The virtual methods of the game states, indexed by the address of the
object they are called on. -/
structure Callbacks where
  onStart : Ptr → World → Bool × World
  onStop : Ptr → World → World
  onRun : Ptr → float → World → World
  onPause : Ptr → float → World → World
  onWindowEvent : Ptr → SDL_Event → World → World
  onKeyboardUpEvent : Ptr → SDL_Event → World → World
  onKeyboardDownEvent : Ptr → SDL_Event → World → World
  onKeyboardTextEvent : Ptr → SDL_Event → World → World
  onMouseMoveEvent : Ptr → SDL_Event → World → World
  onMouseButtonUpEvent : Ptr → SDL_Event → World → World
  onMouseButtonDownEvent : Ptr → SDL_Event → World → World
  onMouseWheelEvent : Ptr → SDL_Event → World → World

/-- One entry of the log: a virtual method the scheduler called on the object
at `p`, or the `delete` of that object. -/
inductive Call
  | onStart (p : Ptr)
  | onStop (p : Ptr)
  | onRun (p : Ptr) (tickTime : float)
  | onPause (p : Ptr) (tickTime : float)
  | onWindowEvent (p : Ptr) (e : SDL_Event)
  | onKeyboardUpEvent (p : Ptr) (e : SDL_Event)
  | onKeyboardDownEvent (p : Ptr) (e : SDL_Event)
  | onKeyboardTextEvent (p : Ptr) (e : SDL_Event)
  | onMouseMoveEvent (p : Ptr) (e : SDL_Event)
  | onMouseButtonUpEvent (p : Ptr) (e : SDL_Event)
  | onMouseButtonDownEvent (p : Ptr) (e : SDL_Event)
  | onMouseWheelEvent (p : Ptr) (e : SDL_Event)
  | delete (p : Ptr)
  deriving DecidableEq

/-- The object a log entry concerns. -/
def Call.target : Call → Ptr
  | .onStart p => p
  | .onStop p => p
  | .onRun p _ => p
  | .onPause p _ => p
  | .onWindowEvent p _ => p
  | .onKeyboardUpEvent p _ => p
  | .onKeyboardDownEvent p _ => p
  | .onKeyboardTextEvent p _ => p
  | .onMouseMoveEvent p _ => p
  | .onMouseButtonUpEvent p _ => p
  | .onMouseButtonDownEvent p _ => p
  | .onMouseWheelEvent p _ => p
  | .delete p => p

/-- Log entries that are hardware-event callbacks. -/
def Call.isHardware : Call → Bool
  | .onWindowEvent _ _ => true
  | .onKeyboardUpEvent _ _ => true
  | .onKeyboardDownEvent _ _ => true
  | .onKeyboardTextEvent _ _ => true
  | .onMouseMoveEvent _ _ => true
  | .onMouseButtonUpEvent _ _ => true
  | .onMouseButtonDownEvent _ _ => true
  | .onMouseWheelEvent _ _ => true
  | _ => false

/-- Log entries that are `onStop` calls. -/
def Call.isOnStop : Call → Bool
  | .onStop _ => true
  | _ => false

/-- Log entries that are `onRun` or `onPause` calls. -/
def Call.isRunOrPause : Call → Bool
  | .onRun _ _ => true
  | .onPause _ _ => true
  | _ => false

/-- The scheduler together with the log of what it has called. -/
structure Sys where
  w : World
  log : List Call

/-- Ways an operation can fail to return. -/
inductive Fault
  | undefinedBehaviour
  | outOfFuel
  deriving DecidableEq

/-! ## Operations of `lsSubsystem` -/

/-- The tail of `popGameState(unsigned)`: "Only resume the last state if it was
paused. Leave it alone otherwise". -/
def resumeBack (w : World) : World :=
  match w.gameStack.getLast? with
  | some b => if w.getState b = LS_GAME_PAUSED then w.setState b LS_GAME_RUNNING else w
  | none => w

/-- Function `lsSubsystem::pushGameState`. -/
def pushGameState (cb : Callbacks) (pState : Ptr) (s : Sys) : Bool × Sys :=
  if pState = nullptr then (false, s)
  else
    let r := cb.onStart pState s.w
    let s1 : Sys := { w := r.2, log := s.log ++ [Call.onStart pState] }
    if !r.1 then (false, s1)
    else
      let w2 :=
        match s1.w.gameStack.getLast? with
        | some b => s1.w.setState b LS_GAME_PAUSED
        | none => s1.w
      let w3 := w2.setParentSystem pState
      let w4 := w3.setState pState LS_GAME_RUNNING
      (true, { w := { w4 with gameStack := w4.gameStack ++ [pState] }, log := s1.log })

/-- Function `lsSubsystem::popGameState(unsigned index)`.  The range check
exists only in builds that define `LS_DEBUG`. -/
def popGameState_index (LS_DEBUG : Bool) (cb : Callbacks) (index : Nat) (s : Sys) :
    Except Fault Sys :=
  if LS_DEBUG && decide (index ≥ s.w.gameStack.length) then .ok s
  else
    match s.w.gameStack[index]? with
    | none => .error .undefinedBehaviour
    | some p =>
      let w1 := cb.onStop p s.w
      match w1.gameStack[index]? with
      | none => .error .undefinedBehaviour
      | some q =>
        let w2 := { w1 with gameStack := w1.gameStack.eraseIdx index }
        .ok { w := resumeBack w2, log := s.log ++ [Call.onStop p, Call.delete q] }

/-- Function `lsSubsystem::popGameState()`; the argument `size() - 1` is
converted to `unsigned`. -/
def popGameState (LS_DEBUG : Bool) (cb : Callbacks) (s : Sys) : Except Fault Sys :=
  if s.w.gameStack.length > 0 then
    popGameState_index LS_DEBUG cb ((s.w.gameStack.length - 1) % 2 ^ 32) s
  else .ok s

/-- The loop of `lsSubsystem::updateGameStates`, entered with loop variable
`i`.  `i -= 1` and `++i` are 32-bit unsigned operations. -/
def updateLoop (LS_DEBUG : Bool) (cb : Callbacks) (tickTime : float) :
    Nat → Nat → Sys → Except Fault Sys
  | 0, _, _ => .error .outOfFuel
  | fuel + 1, i, s =>
    if i < s.w.gameStack.length then
      match s.w.gameStack[i]? with
      | none => .error .undefinedBehaviour
      | some p =>
        match s.w.getState p with
        | LS_GAME_RUNNING =>
          updateLoop LS_DEBUG cb tickTime fuel ((i + 1) % 2 ^ 32)
            { w := cb.onRun p tickTime s.w, log := s.log ++ [Call.onRun p tickTime] }
        | LS_GAME_STOPPED =>
          match popGameState_index LS_DEBUG cb i s with
          | .error f => .error f
          | .ok s1 =>
            updateLoop LS_DEBUG cb tickTime fuel (((i + 2 ^ 32 - 1) % 2 ^ 32 + 1) % 2 ^ 32) s1
        | LS_GAME_PAUSED =>
          updateLoop LS_DEBUG cb tickTime fuel ((i + 1) % 2 ^ 32)
            { w := cb.onPause p tickTime s.w, log := s.log ++ [Call.onPause p tickTime] }
        | _ => updateLoop LS_DEBUG cb tickTime fuel ((i + 1) % 2 ^ 32) s
    else .ok s

/-- Function `lsSubsystem::updateGameStates`. -/
def updateGameStates (LS_DEBUG : Bool) (cb : Callbacks) (fuel : Nat) (tickTime : float)
    (s : Sys) : Except Fault Sys :=
  updateLoop LS_DEBUG cb tickTime fuel 0 s

/-- Function `lsSubsystem::stop`. -/
def stop (s : Sys) : Sys :=
  { s with w := s.w.gameStack.foldl (fun w state => w.setState state LS_GAME_STOPPED)
                  { s.w with tickTime := float.zero } }

/-- Function `lsSubsystem::passHardwareEvents`. -/
def passHardwareEvents (cb : Callbacks) (pEvent : SDL_Event) (pState : Ptr) (s : Sys) : Sys :=
  match pEvent.type with
  | .SDL_QUIT => stop s
  | .SDL_WINDOWEVENT =>
    { w := cb.onWindowEvent pState pEvent s.w, log := s.log ++ [Call.onWindowEvent pState pEvent] }
  | .SDL_KEYUP =>
    { w := cb.onKeyboardUpEvent pState pEvent s.w,
      log := s.log ++ [Call.onKeyboardUpEvent pState pEvent] }
  | .SDL_KEYDOWN =>
    { w := cb.onKeyboardDownEvent pState pEvent s.w,
      log := s.log ++ [Call.onKeyboardDownEvent pState pEvent] }
  | .SDL_TEXTINPUT =>
    { w := cb.onKeyboardTextEvent pState pEvent s.w,
      log := s.log ++ [Call.onKeyboardTextEvent pState pEvent] }
  | .SDL_MOUSEMOTION =>
    { w := cb.onMouseMoveEvent pState pEvent s.w,
      log := s.log ++ [Call.onMouseMoveEvent pState pEvent] }
  | .SDL_MOUSEBUTTONUP =>
    { w := cb.onMouseButtonUpEvent pState pEvent s.w,
      log := s.log ++ [Call.onMouseButtonUpEvent pState pEvent] }
  | .SDL_MOUSEBUTTONDOWN =>
    { w := cb.onMouseButtonDownEvent pState pEvent s.w,
      log := s.log ++ [Call.onMouseButtonDownEvent pState pEvent] }
  | .SDL_MOUSEWHEEL =>
    { w := cb.onMouseWheelEvent pState pEvent s.w,
      log := s.log ++ [Call.onMouseWheelEvent pState pEvent] }
  | _ => s

/-- The event loop of `lsSubsystem::run`: `while (SDL_PollEvent(&pEvent))`
over the queue of pending events; each round reads `gameStack.back()`. -/
def pollEvents (cb : Callbacks) : List SDL_Event → Sys → Except Fault Sys
  | [], s => .ok s
  | pEvent :: queue, s =>
    match s.w.gameStack.getLast? with
    | none => .error .undefinedBehaviour
    | some pState => pollEvents cb queue (passHardwareEvents cb pEvent pState s)

/-- Function `lsSubsystem::run`, given the pending events, the clock reading
`(float)SDL_GetTicks()` and the float subtraction `fsub`. -/
def run (LS_DEBUG : Bool) (cb : Callbacks) (fuel : Nat) (fsub : float → float → float)
    (queue : List SDL_Event) (currTime : float) (s : Sys) : Except Fault Sys :=
  if s.w.gameStack.length = 0 then .ok s
  else
    match pollEvents cb queue s with
    | .error f => .error f
    | .ok s1 =>
      let tick := fsub currTime s1.w.prevTime
      let w2 := { s1.w with tickTime := tick, prevTime := currTime }
      updateGameStates LS_DEBUG cb fuel w2.tickTime { s1 with w := w2 }

/-- The loop of `lsSubsystem::popGameState(lsGameState* pState)`, entered with
loop variable `i`: the first entry equal to `pState` is popped by index. -/
def popPtrLoop (LS_DEBUG : Bool) (cb : Callbacks) (pState : Ptr) :
    Nat → Nat → Sys → Except Fault Sys
  | 0, _, _ => .error .outOfFuel
  | fuel + 1, i, s =>
    if i < s.w.gameStack.length then
      match s.w.gameStack[i]? with
      | none => .error .undefinedBehaviour
      | some q =>
        if q = pState then popGameState_index LS_DEBUG cb i s
        else popPtrLoop LS_DEBUG cb pState fuel ((i + 1) % 2 ^ 32) s
    else .ok s

/-- Function `lsSubsystem::popGameState(lsGameState* pState)`. -/
def popGameState_pState (LS_DEBUG : Bool) (cb : Callbacks) (fuel : Nat) (pState : Ptr)
    (s : Sys) : Except Fault Sys :=
  popPtrLoop LS_DEBUG cb pState fuel 0 s

/-- The loop `while (--i) { gameStack[i]->setState(LS_GAME_STOPPED); }` of
`lsSubsystem::terminate`, entered with loop variable `i`; `--i` is a 32-bit
unsigned decrement. -/
def terminateLoop : Nat → Nat → World → Except Fault World
  | 0, _, _ => .error .outOfFuel
  | fuel + 1, i, w =>
    if (i + 2 ^ 32 - 1) % 2 ^ 32 ≠ 0 then
      match w.gameStack[(i + 2 ^ 32 - 1) % 2 ^ 32]? with
      | none => .error .undefinedBehaviour
      | some p => terminateLoop fuel ((i + 2 ^ 32 - 1) % 2 ^ 32) (w.setState p LS_GAME_STOPPED)
    else .ok w

/-- Function `lsSubsystem::terminate`, as far as the scheduler state goes (the
SDL, context, display and random-generator teardown is outside the model).
`unsigned i = gameStack.size()` converts the size to 32 bits.  The vector is
cleared without any call on the states it held. -/
def terminate (fuel : Nat) (s : Sys) : Except Fault Sys :=
  if s.w.gameStack.length = 0 then .ok { s with w := { s.w with prevTime := float.zero } }
  else
    match terminateLoop fuel (s.w.gameStack.length % 2 ^ 32)
        { s.w with prevTime := float.zero } with
    | .error f => .error f
    | .ok w1 => .ok { s with w := { w1 with gameStack := [] } }

/-- Function `lsSubsystem::getGameState(unsigned index)`; the range check
exists only in builds that define `LS_DEBUG`. -/
def getGameState (LS_DEBUG : Bool) (index : Nat) (w : World) : Except Fault Ptr :=
  if LS_DEBUG && decide (index ≥ w.gameStack.length) then .ok nullptr
  else
    match w.gameStack[index]? with
    | none => .error .undefinedBehaviour
    | some p => .ok p

/-- The loop of `lsSubsystem::getGameStateIndex`, entered with loop variable
`i`; falling out of the loop returns `LS_GAME_INVALID`. -/
def getGameStateIndexLoop (pState : Ptr) : Nat → Nat → World → Except Fault Nat
  | 0, _, _ => .error .outOfFuel
  | fuel + 1, i, w =>
    if i < w.gameStack.length then
      match w.gameStack[i]? with
      | none => .error .undefinedBehaviour
      | some q =>
        if q = pState then .ok i
        else getGameStateIndexLoop pState fuel ((i + 1) % 2 ^ 32) w
    else .ok LS_GAME_INVALID.toUnsigned

/-- Function `lsSubsystem::getGameStateIndex`. -/
def getGameStateIndex (fuel : Nat) (pState : Ptr) (w : World) : Except Fault Nat :=
  getGameStateIndexLoop pState fuel 0 w

/-! ## `fbState` (src/fbState.cpp) -/

/-- The constant `TEST_MAX_KEYBORD_STATES` of `fbState.cpp`. -/
def TEST_MAX_KEYBORD_STATES : Nat := 512

/-- The part of an `fbState` object that `onKeyboardDownEvent` touches: the
`gameState` base (tag), the array `pKeyStates`, and SDL's relative mouse mode,
which the handler switches. -/
structure fbState where
  base : lsGameState
  pKeyStates : Nat → Bool
  relativeMouseMode : Bool

/-- Function `fbState::onKeyboardDownEvent`, for the key code `key`
(`e.keysym.sym`, a signed 32-bit integer).  `SDLK_SPACE` is SDL's key code of
the space bar, a constant of the SDL headers taken as a parameter. -/
def fbState.onKeyboardDownEvent (SDLK_SPACE : Int) (key : Int) (st : fbState) : fbState :=
  if key < 0 ∨ key.toNat ≥ TEST_MAX_KEYBORD_STATES then st
  else
    let st1 : fbState :=
      if key = SDLK_SPACE then
        if st.base.getState = LS_GAME_RUNNING then
          { st with base := st.base.setState LS_GAME_PAUSED, relativeMouseMode := false }
        else
          { st with base := st.base.setState LS_GAME_RUNNING, relativeMouseMode := true }
      else st
    { st1 with pKeyStates := fun k => if k = key.toNat then true else st1.pKeyStates k }

/-! ## Procedural meshes (src/src/draw/sceneNode.cpp) -/

/-- What a mesh loader does to the vertex buffer: its return value, the number
of vertices `initVertices` allocated, and the offsets (from `pVertices`) of the
vertices it wrote, in order: through `pVert` / `pCapVert` / `pVertices + i`,
and through `pSideVert`. -/
structure meshWrites where
  ok : Bool
  numVertices : Nat
  capWrites : List Nat
  sideWrites : List Nat
  deriving DecidableEq

/-- The conversion `(int)n` of a 32-bit unsigned value. -/
def toInt (n : Nat) : Int :=
  if n % 2 ^ 32 < 2 ^ 31 then (n % 2 ^ 32 : Nat) else ((n % 2 ^ 32 : Nat) : Int) - 2 ^ 32

/-- One vertex written through a running pointer: `*p = ...; ++p`.  The state
is the pointer (as an offset from `pVertices`) and the offsets written. -/
def putVertex (st : Nat × List Nat) : Nat × List Nat :=
  (st.1 + 1, st.2 ++ [st.1])

/-- Function `meshResource::loadPolygon`; `allocOk` is whether `new(nothrow)`
in `initVertices` returned memory.  The loop
`for (unsigned i = 0; i < numPoints; ++i)` writes `pVertices + i`. -/
def loadPolygon (allocOk : Bool) (numPoints : Nat) : meshWrites :=
  let numPoints1 := if numPoints < 3 then 3 else numPoints
  if !allocOk then ⟨false, 0, [], []⟩
  else ⟨true, numPoints1, List.range numPoints1, []⟩

/-- One round of the loop of `loadCylinder`: three vertices through
`pCapVert`, three through `pSideVert`. -/
def cylinderRound (st : (Nat × List Nat) × (Nat × List Nat)) :
    (Nat × List Nat) × (Nat × List Nat) :=
  (putVertex (putVertex (putVertex st.1)), putVertex (putVertex (putVertex st.2)))

/-- Function `meshResource::loadCylinder`.  The loop
`for (int i = -iNumSides; i < iNumSides; ++i)` makes `iNumSides - (-iNumSides)`
rounds; `numSides*12` and `numSides*6` are 32-bit unsigned products. -/
def loadCylinder (allocOk : Bool) (numSides : Nat) : meshWrites :=
  let numSides1 := if numSides < 2 then 2 else numSides
  if !allocOk then ⟨false, 0, [], []⟩
  else
    let iNumSides := toInt numSides1
    let r := cylinderRound^[(iNumSides - (-iNumSides)).toNat]
      ((0, []), ((numSides1 * 6) % 2 ^ 32, []))
    ⟨true, (numSides1 * 12) % 2 ^ 32, r.1.2, r.2.2⟩

/-- One round of the loop of `loadCone`: three vertices through `pCapVert`. -/
def coneRound (st : Nat × List Nat) : Nat × List Nat :=
  putVertex (putVertex (putVertex st))

/-- Function `meshResource::loadCone`. -/
def loadCone (allocOk : Bool) (numSides : Nat) : meshWrites :=
  let numSides1 := if numSides < 2 then 2 else numSides
  if !allocOk then ⟨false, 0, [], []⟩
  else
    let iNumSides := toInt numSides1
    let r := coneRound^[(iNumSides - (-iNumSides)).toNat] (0, [])
    ⟨true, (numSides1 * 6) % 2 ^ 32, r.2, []⟩

/-- One round of the inner loop of `loadSphere`: two vertices through `pVert`. -/
def sphereRound (st : Nat × List Nat) : Nat × List Nat :=
  putVertex (putVertex st)

/-- Function `meshResource::loadSphere`.  The outer loop
`for (int i = 0; i < iNumSides/2; ++i)` makes `iNumSides/2` rounds (C division),
the inner loop `for (int j = 0; j <= iNumSides; ++j)` makes `iNumSides + 1`. -/
def loadSphere (allocOk : Bool) (res : Nat) : meshWrites :=
  let res1 := if res % 2 = 1 then (res + 1) % 2 ^ 32 else res
  let totalVertCount := (res1 * ((res1 + 1) % 2 ^ 32)) % 2 ^ 32
  if !allocOk then ⟨false, 0, [], []⟩
  else
    let iNumSides := toInt res1
    let r := (sphereRound^[(iNumSides + 1).toNat])^[(Int.tdiv iNumSides 2).toNat] (0, [])
    ⟨true, totalVertCount, r.2, []⟩

/-! ## Vocabulary of the statements -/

/-- Two worlds agree on what the scheduler schedules by: the stack and every
lifecycle tag. -/
def World.sameSchedule (w w1 : World) : Prop :=
  w1.gameStack = w.gameStack ∧ ∀ q, w1.getState q = w.getState q

/-- The callbacks the update loop makes (`onStop`, `onRun`, `onPause`) leave
the stack as they found it. -/
def Callbacks.KeepsStack (cb : Callbacks) : Prop :=
  (∀ p w, (cb.onStop p w).gameStack = w.gameStack) ∧
  (∀ p dt w, (cb.onRun p dt w).gameStack = w.gameStack) ∧
  (∀ p dt w, (cb.onPause p dt w).gameStack = w.gameStack)

/-- The hardware-event callbacks leave the stack as they found it. -/
def Callbacks.EventsKeepStack (cb : Callbacks) : Prop :=
  (∀ p e w, (cb.onWindowEvent p e w).gameStack = w.gameStack) ∧
  (∀ p e w, (cb.onKeyboardUpEvent p e w).gameStack = w.gameStack) ∧
  (∀ p e w, (cb.onKeyboardDownEvent p e w).gameStack = w.gameStack) ∧
  (∀ p e w, (cb.onKeyboardTextEvent p e w).gameStack = w.gameStack) ∧
  (∀ p e w, (cb.onMouseMoveEvent p e w).gameStack = w.gameStack) ∧
  (∀ p e w, (cb.onMouseButtonUpEvent p e w).gameStack = w.gameStack) ∧
  (∀ p e w, (cb.onMouseButtonDownEvent p e w).gameStack = w.gameStack) ∧
  (∀ p e w, (cb.onMouseWheelEvent p e w).gameStack = w.gameStack)

/-- The callbacks the update loop makes (`onStop`, `onRun`, `onPause`) do not
themselves change any tag or the stack. -/
def Callbacks.Inert (cb : Callbacks) : Prop :=
  (∀ (p : Ptr) (w : World), w.sameSchedule (cb.onStop p w)) ∧
  (∀ (p : Ptr) (dt : float) (w : World), w.sameSchedule (cb.onRun p dt w)) ∧
  (∀ (p : Ptr) (dt : float) (w : World), w.sameSchedule (cb.onPause p dt w))

/-- What `popGameState(i)` does to a stack whose entry `i` is `p`, when `onStop`
leaves the stack alone. -/
def popEffect (cb : Callbacks) (i : Nat) (p : Ptr) (s : Sys) : Sys :=
  { w := resumeBack { cb.onStop p s.w with gameStack := (cb.onStop p s.w).gameStack.eraseIdx i },
    log := s.log ++ [Call.onStop p, Call.delete p] }

/-- The update loop unrolled along `rest`, the entries from index `i` on that
it has not visited yet.  It agrees with `updateLoop` when the callbacks leave
the stack alone (`updateLoop_eq_advance`). -/
def advance (cb : Callbacks) (tickTime : float) : List Ptr → Nat → Sys → Sys
  | [], _, s => s
  | p :: rest, i, s =>
    match s.w.getState p with
    | LS_GAME_RUNNING =>
      advance cb tickTime rest (i + 1)
        { w := cb.onRun p tickTime s.w, log := s.log ++ [Call.onRun p tickTime] }
    | LS_GAME_STOPPED => advance cb tickTime rest i (popEffect cb i p s)
    | LS_GAME_PAUSED =>
      advance cb tickTime rest (i + 1)
        { w := cb.onPause p tickTime s.w, log := s.log ++ [Call.onPause p tickTime] }
    | _ => advance cb tickTime rest (i + 1) s

/-- Pushing the states of a list one after the other, first to last; the flag
is the conjunction of the results of the pushes. -/
def pushAll (cb : Callbacks) (ps : List Ptr) (s : Sys) : Bool × Sys :=
  ps.foldl (fun r p => ((r.1 && (pushGameState cb p r.2).1), (pushGameState cb p r.2).2)) (true, s)

/-- The calls one visit of the update loop makes on the state at `p` when it
reads the tag `t` there (`delete` included). -/
def visitCalls (tickTime : float) (t : game_state_t) (p : Ptr) : List Call :=
  match t with
  | LS_GAME_RUNNING => [Call.onRun p tickTime]
  | LS_GAME_PAUSED => [Call.onPause p tickTime]
  | LS_GAME_STOPPED => [Call.onStop p, Call.delete p]
  | _ => []

/-- The tag the update loop reads at `p` when it reaches it, computed from the
tags `t` at the start of the call, for a stack `l` of distinct states: the
start tag, except that a PAUSED last element has been resumed by then if some
element below it was STOPPED (and so popped on the way). -/
def tagAtVisit (t : Ptr → game_state_t) (l : List Ptr) (p : Ptr) : game_state_t :=
  if l.getLast? = some p ∧ t p = LS_GAME_PAUSED ∧
      (l.dropLast.any fun q => decide (t q = LS_GAME_STOPPED)) = true
  then LS_GAME_RUNNING else t p

/-- The state at `p` stops itself when run: its `onRun` sets its own tag to
STOPPED and changes nothing else the scheduler schedules by; every other
callback of the update loop is inert. -/
def Callbacks.SelfStops (cb : Callbacks) (p : Ptr) : Prop :=
  (∀ (q : Ptr) (w : World), w.sameSchedule (cb.onStop q w)) ∧
  (∀ (q : Ptr) (dt : float) (w : World), w.sameSchedule (cb.onPause q dt w)) ∧
  (∀ (q : Ptr) (dt : float) (w : World), q ≠ p → w.sameSchedule (cb.onRun q dt w)) ∧
  (∀ (dt : float) (w : World), (cb.onRun p dt w).gameStack = w.gameStack ∧
    ∀ q, (cb.onRun p dt w).getState q = if q = p then LS_GAME_STOPPED else w.getState q)

/-- Every `onStart` leaves the stack and the tags as it found them. -/
def Callbacks.StartQuiet (cb : Callbacks) : Prop :=
  ∀ (p : Ptr) (w : World), w.sameSchedule (cb.onStart p w).2

/-- The call `passHardwareEvents` selects for an event routed to `pState`:
the `case` of its `switch`, if there is one that calls the state. -/
def callbackFor (pEvent : SDL_Event) (pState : Ptr) : Option Call :=
  match pEvent.type with
  | .SDL_WINDOWEVENT => some (Call.onWindowEvent pState pEvent)
  | .SDL_KEYUP => some (Call.onKeyboardUpEvent pState pEvent)
  | .SDL_KEYDOWN => some (Call.onKeyboardDownEvent pState pEvent)
  | .SDL_TEXTINPUT => some (Call.onKeyboardTextEvent pState pEvent)
  | .SDL_MOUSEMOTION => some (Call.onMouseMoveEvent pState pEvent)
  | .SDL_MOUSEBUTTONUP => some (Call.onMouseButtonUpEvent pState pEvent)
  | .SDL_MOUSEBUTTONDOWN => some (Call.onMouseButtonDownEvent pState pEvent)
  | .SDL_MOUSEWHEEL => some (Call.onMouseWheelEvent pState pEvent)
  | _ => none

/-- The scheduling invariant: the states on the stack are distinct, and a
state on the stack with tag RUNNING is the last one. -/
def World.oneRunning (w : World) : Prop :=
  w.gameStack.Nodup ∧
  ∀ p ∈ w.gameStack, w.getState p = LS_GAME_RUNNING → w.gameStack.getLast? = some p

/-- The systems reachable from an empty stack by pushes (of a state the
scheduler does not hold yet), the three forms of pop, `stop()` and
`updateGameStates`, each operation having returned. -/
inductive Reachable (LS_DEBUG : Bool) (cb : Callbacks) : Sys → Prop
  | empty (s : Sys) : s.w.gameStack = [] → Reachable LS_DEBUG cb s
  | push (s : Sys) (x : Ptr) : Reachable LS_DEBUG cb s → x ∉ s.w.gameStack →
      Reachable LS_DEBUG cb (pushGameState cb x s).2
  | pop (s s1 : Sys) : Reachable LS_DEBUG cb s → popGameState LS_DEBUG cb s = .ok s1 →
      Reachable LS_DEBUG cb s1
  | popIndex (s s1 : Sys) (index : Nat) : Reachable LS_DEBUG cb s →
      popGameState_index LS_DEBUG cb index s = .ok s1 → Reachable LS_DEBUG cb s1
  | popState (s s1 : Sys) (fuel : Nat) (pState : Ptr) : Reachable LS_DEBUG cb s →
      popGameState_pState LS_DEBUG cb fuel pState s = .ok s1 → Reachable LS_DEBUG cb s1
  | stopAll (s : Sys) : Reachable LS_DEBUG cb s → Reachable LS_DEBUG cb (stop s)
  | update (s s1 : Sys) (fuel : Nat) (tickTime : float) : Reachable LS_DEBUG cb s →
      updateGameStates LS_DEBUG cb fuel tickTime s = .ok s1 → Reachable LS_DEBUG cb s1

/-- The update loop of `updateLoop`, instrumented: next to the system it
returns `seen`, the states whose tag the loop has read (`gameStack[i]->getState()`),
in the order it read them. -/
def updateLoopTrace (LS_DEBUG : Bool) (cb : Callbacks) (tickTime : float) :
    Nat → Nat → Sys → List Ptr → Except Fault (Sys × List Ptr)
  | 0, _, _, _ => .error .outOfFuel
  | fuel + 1, i, s, seen =>
    if i < s.w.gameStack.length then
      match s.w.gameStack[i]? with
      | none => .error .undefinedBehaviour
      | some p =>
        match s.w.getState p with
        | LS_GAME_RUNNING =>
          updateLoopTrace LS_DEBUG cb tickTime fuel ((i + 1) % 2 ^ 32)
            { w := cb.onRun p tickTime s.w, log := s.log ++ [Call.onRun p tickTime] }
            (seen ++ [p])
        | LS_GAME_STOPPED =>
          match popGameState_index LS_DEBUG cb i s with
          | .error f => .error f
          | .ok s1 =>
            updateLoopTrace LS_DEBUG cb tickTime fuel
              (((i + 2 ^ 32 - 1) % 2 ^ 32 + 1) % 2 ^ 32) s1 (seen ++ [p])
        | LS_GAME_PAUSED =>
          updateLoopTrace LS_DEBUG cb tickTime fuel ((i + 1) % 2 ^ 32)
            { w := cb.onPause p tickTime s.w, log := s.log ++ [Call.onPause p tickTime] }
            (seen ++ [p])
        | _ => updateLoopTrace LS_DEBUG cb tickTime fuel ((i + 1) % 2 ^ 32) s (seen ++ [p])
    else .ok (s, seen)

/-- The tick time carried by a log entry (`onRun` and `onPause` only). -/
def Call.tickOf : Call → Option float
  | .onRun _ t => some t
  | .onPause _ t => some t
  | _ => none

/-- No callback of the run loop writes the scheduler's `prevTime` (a private
member of `lsSubsystem`). -/
def Callbacks.KeepsClock (cb : Callbacks) : Prop :=
  (∀ p w, (cb.onStop p w).prevTime = w.prevTime) ∧
  (∀ p dt w, (cb.onRun p dt w).prevTime = w.prevTime) ∧
  (∀ p dt w, (cb.onPause p dt w).prevTime = w.prevTime) ∧
  (∀ p e w, (cb.onWindowEvent p e w).prevTime = w.prevTime) ∧
  (∀ p e w, (cb.onKeyboardUpEvent p e w).prevTime = w.prevTime) ∧
  (∀ p e w, (cb.onKeyboardDownEvent p e w).prevTime = w.prevTime) ∧
  (∀ p e w, (cb.onKeyboardTextEvent p e w).prevTime = w.prevTime) ∧
  (∀ p e w, (cb.onMouseMoveEvent p e w).prevTime = w.prevTime) ∧
  (∀ p e w, (cb.onMouseButtonUpEvent p e w).prevTime = w.prevTime) ∧
  (∀ p e w, (cb.onMouseButtonDownEvent p e w).prevTime = w.prevTime) ∧
  (∀ p e w, (cb.onMouseWheelEvent p e w).prevTime = w.prevTime)

/-! ## Sample data -/

/-- A heap of freshly constructed states: `currentState = GAME_STOPPED` (the
member initialiser of `gameState.h`), no parent. -/
def freshHeap : Ptr → lsGameState := fun _ => ⟨0, LS_GAME_STOPPED⟩

/-- A subsystem at address 9000 holding the states of `l` with the given
tags, bottom first; every other object is fresh. -/
def sysOf (l : List (Ptr × game_state_t)) : Sys :=
  { w := { self := 9000, prevTime := float.zero, tickTime := float.zero,
           gameStack := l.map Prod.fst,
           heap := fun q => match l.lookup q with
             | some t => ⟨9000, t⟩
             | none => freshHeap q },
    log := [] }

/-- States whose callbacks are the no-op defaults of `gameState`, except that
`onStart` fails for the objects at addresses 100 and above. -/
def plainCallbacks : Callbacks :=
  { onStart := fun p w => (decide (p < 100), w)
    onStop := fun _ w => w
    onRun := fun _ _ w => w
    onPause := fun _ _ w => w
    onWindowEvent := fun _ _ w => w
    onKeyboardUpEvent := fun _ _ w => w
    onKeyboardDownEvent := fun _ _ w => w
    onKeyboardTextEvent := fun _ _ w => w
    onMouseMoveEvent := fun _ _ w => w
    onMouseButtonUpEvent := fun _ _ w => w
    onMouseButtonDownEvent := fun _ _ w => w
    onMouseWheelEvent := fun _ _ w => w }

/-- As `plainCallbacks`, but `onRun` of the object at `victim` sets that
object's own tag to STOPPED. -/
def selfStopCallbacks (victim : Ptr) : Callbacks :=
  { plainCallbacks with
    onRun := fun p _ w => if p = victim then w.setState p LS_GAME_STOPPED else w }

/-- A frame time of 16 ms (as an uninterpreted float). -/
def dt16 : float := ⟨16⟩

/-- As `plainCallbacks`, but `onKeyboardDownEvent` of the object at `victim`
sets that object's own tag to STOPPED. -/
def keyStopCallbacks (victim : Ptr) : Callbacks :=
  { plainCallbacks with
    onKeyboardDownEvent := fun p _ w => if p = victim then w.setState p LS_GAME_STOPPED else w }

/-- A key-down event (payload: the key code of the space bar). -/
def keyDownSpace : SDL_Event := ⟨.SDL_KEYDOWN, 32⟩

/-- A quit event. -/
def quitEvent : SDL_Event := ⟨.SDL_QUIT, 0⟩

/-- A freshly constructed `fbState` with the given tag: no key down. -/
def fbOf (t : game_state_t) : fbState :=
  { base := ⟨0, t⟩, pKeyStates := fun _ => false, relativeMouseMode := false }

/-- A stand-in for float subtraction in the samples. -/
def sampleSub (a b : float) : float := ⟨a.bits - b.bits⟩

/-- As `plainCallbacks`, but every object is an `fbState`: its
`onKeyboardDownEvent` is `fbState.onKeyboardDownEvent` (the payload of the
event being the key code, that of the space bar being 32), and leaves the
object with the tag that handler sets. -/
def fbCallbacks : Callbacks :=
  { plainCallbacks with
    onKeyboardDownEvent := fun p e w =>
      w.setState p (fbState.onKeyboardDownEvent 32 (e.payload : Int)
        { base := w.heap p, pKeyStates := fun _ => false,
          relativeMouseMode := false }).base.getState }

/-! ## Basic facts about the heap accessors -/

@[simp] theorem getState_setState (w : World) (p q : Ptr) (t : game_state_t) :
    (w.setState p t).getState q = if q = p then t else w.getState q := by
  unfold World.setState World.getState
  by_cases h : q = p <;> simp [h]

@[simp] theorem gameStack_setState (w : World) (p : Ptr) (t : game_state_t) :
    (w.setState p t).gameStack = w.gameStack := rfl

@[simp] theorem getState_setParentSystem (w : World) (p q : Ptr) :
    (w.setParentSystem p).getState q = w.getState q := by
  unfold World.setParentSystem World.getState
  by_cases h : q = p <;> simp [h]

@[simp] theorem gameStack_setParentSystem (w : World) (p : Ptr) :
    (w.setParentSystem p).gameStack = w.gameStack := rfl

@[simp] theorem getState_withStack (w : World) (l : List Ptr) (q : Ptr) :
    World.getState { w with gameStack := l } q = w.getState q := rfl

theorem gameStack_resumeBack (w : World) : (resumeBack w).gameStack = w.gameStack := by
  unfold resumeBack
  split
  · split <;> simp
  · rfl

/-- Tags after the resume-on-pop step, in terms of the last entry. -/
theorem getState_resumeBack (w : World) (q : Ptr) :
    (resumeBack w).getState q =
      if w.gameStack.getLast? = some q ∧ w.getState q = LS_GAME_PAUSED then LS_GAME_RUNNING
      else w.getState q := by
  unfold resumeBack
  cases hl : w.gameStack.getLast? with
  | none => simp
  | some b =>
    by_cases hb : w.getState b = LS_GAME_PAUSED
    · by_cases hq : q = b
      · subst hq; simp [hb]
      · have : b ≠ q := fun h => hq h.symm
        simp [hb, hq, this]
    · by_cases hq : q = b
      · subst hq; simp [hb]
      · have : b ≠ q := fun h => hq h.symm
        simp [hb, this]

/-! ## The update loop and its unrolling -/

theorem getElem?_at_length (pre rest : List Ptr) (p : Ptr) :
    (pre ++ p :: rest)[pre.length]? = some p := by
  rw [List.getElem?_append_right (le_refl _)]
  simp

theorem wrap_succ (i n : Nat) (hi : i < n) (hn : n < 2 ^ 32) : (i + 1) % 2 ^ 32 = i + 1 := by
  apply Nat.mod_eq_of_lt; omega

theorem wrap_pred_succ (i : Nat) (hi : i < 2 ^ 32) :
    ((i + 2 ^ 32 - 1) % 2 ^ 32 + 1) % 2 ^ 32 = i := by
  omega

theorem popGameState_index_eq_popEffect (dbg : Bool) (cb : Callbacks) (s : Sys)
    (pre rest : List Ptr) (p : Ptr) (hs : s.w.gameStack = pre ++ p :: rest)
    (hk : (cb.onStop p s.w).gameStack = s.w.gameStack) :
    popGameState_index dbg cb pre.length s = .ok (popEffect cb pre.length p s) := by
  unfold popGameState_index popEffect
  have hlt : ¬ (pre.length ≥ s.w.gameStack.length) := by simp [hs]
  have hget : s.w.gameStack[pre.length]? = some p := by rw [hs]; exact getElem?_at_length _ _ _
  simp [hlt, hget, hk]

theorem updateLoop_eq_advance (dbg : Bool) (cb : Callbacks) (dt : float)
    (hk : cb.KeepsStack) :
    ∀ (rest pre : List Ptr) (s : Sys) (fuel : Nat),
      s.w.gameStack = pre ++ rest → (pre ++ rest).length < 2 ^ 32 → rest.length < fuel →
      updateLoop dbg cb dt fuel pre.length s = .ok (advance cb dt rest pre.length s) := by
  intro rest
  induction rest with
  | nil =>
    intro pre s fuel hs _ hf
    cases fuel with
    | zero => omega
    | succ fuel => simp [updateLoop, advance, hs]
  | cons p rest ih =>
    intro pre s fuel hs hlen hf
    cases fuel with
    | zero => omega
    | succ fuel =>
      have hget : s.w.gameStack[pre.length]? = some p := by
        rw [hs]; exact getElem?_at_length _ _ _
      have hlt : pre.length < s.w.gameStack.length := by simp [hs]
      have hw : (pre.length + 1) % 2 ^ 32 = pre.length + 1 := by
        apply wrap_succ _ _ _ hlen; simp
      have hpl : (pre ++ [p]).length = pre.length + 1 := by simp
      have hf1 : rest.length < fuel := by simp at hf; omega
      have hlen1 : ((pre ++ [p]) ++ rest).length < 2 ^ 32 := by simpa using hlen
      rw [updateLoop, advance]
      simp only [hlt, if_true, hget, hw]
      cases ht : s.w.getState p with
      | LS_GAME_RUNNING =>
        simp only []
        rw [← hpl]
        apply ih (pre ++ [p]) _ fuel _ hlen1 hf1
        simp [hk.2.1, hs]
      | LS_GAME_PAUSED =>
        simp only []
        rw [← hpl]
        apply ih (pre ++ [p]) _ fuel _ hlen1 hf1
        simp [hk.2.2, hs]
      | LS_GAME_STOPPED =>
        simp only []
        rw [popGameState_index_eq_popEffect dbg cb s pre rest p hs (hk.1 p s.w)]
        simp only []
        have hi : pre.length < 2 ^ 32 := by simp at hlen; omega
        rw [wrap_pred_succ _ hi]
        apply ih pre _ fuel _ _ hf1
        · simp [popEffect, gameStack_resumeBack, hk.1, hs, List.eraseIdx_append_of_length_le]
        · simp at hlen ⊢; omega
      | LS_GAME_INVALID =>
        simp only []
        rw [← hpl]
        exact ih (pre ++ [p]) _ fuel (by simp [hs]) hlen1 hf1
      | LS_GAME_INIT =>
        simp only []
        rw [← hpl]
        exact ih (pre ++ [p]) _ fuel (by simp [hs]) hlen1 hf1

theorem plainCallbacks_inert : plainCallbacks.Inert :=
  ⟨fun _ _ => ⟨rfl, fun _ => rfl⟩, fun _ _ _ => ⟨rfl, fun _ => rfl⟩, fun _ _ _ => ⟨rfl, fun _ => rfl⟩⟩

theorem inert_keepsStack {cb : Callbacks} (h : cb.Inert) : cb.KeepsStack :=
  ⟨fun p w => (h.1 p w).1, fun p dt w => (h.2.1 p dt w).1, fun p dt w => (h.2.2 p dt w).1⟩

/-! ## Push -/

/-- The result of a push whose `onStart` succeeds, in closed form. -/
theorem pushGameState_started (cb : Callbacks) (x : Ptr) (s : Sys)
    (hx : x ≠ nullptr) (hstart : (cb.onStart x s.w).1 = true) :
    pushGameState cb x s =
      (true, { w := { ((match (cb.onStart x s.w).2.gameStack.getLast? with
                        | some b => (cb.onStart x s.w).2.setState b LS_GAME_PAUSED
                        | none => (cb.onStart x s.w).2).setParentSystem x).setState x
                          LS_GAME_RUNNING with
                      gameStack := (cb.onStart x s.w).2.gameStack ++ [x] },
               log := s.log ++ [Call.onStart x] }) := by
  unfold pushGameState
  simp only [hx, if_false, hstart, Bool.not_true]
  cases (cb.onStart x s.w).2.gameStack.getLast? <;> simp

/-- Stack and tags after a successful push with a quiet `onStart`. -/
theorem pushGameState_schedule (cb : Callbacks) (x : Ptr) (s : Sys)
    (hx : x ≠ nullptr) (hstart : (cb.onStart x s.w).1 = true)
    (hquiet : s.w.sameSchedule (cb.onStart x s.w).2) :
    (pushGameState cb x s).1 = true ∧
    (pushGameState cb x s).2.w.gameStack = s.w.gameStack ++ [x] ∧
    (∀ q, (pushGameState cb x s).2.w.getState q =
      if q = x then LS_GAME_RUNNING
      else if s.w.gameStack.getLast? = some q then LS_GAME_PAUSED
      else s.w.getState q) := by
  obtain ⟨hst, htag⟩ := hquiet
  rw [pushGameState_started cb x s hx hstart, hst]
  refine ⟨rfl, rfl, ?_⟩
  intro q
  by_cases hq : q = x
  · simp [hq]
  · cases hl : s.w.gameStack.getLast? with
    | none => simp [hq, htag]
    | some b =>
      by_cases hqb : q = b
      · simp [hq, hqb]
      · have : b ≠ q := fun h => hqb h.symm
        simp [hq, hqb, this, htag]

/-- C1: pushing a non-null state `x` that the scheduler does not hold yet and
whose `onStart` returns true (leaving stack and tags alone) returns true; the
new stack is the old one followed by `x`, one longer; `x` is last with tag
RUNNING; the previous last element has tag PAUSED whatever it had; every other
state keeps its tag. -/
theorem pushGameState_success (cb : Callbacks) (x : Ptr) (s : Sys)
    (hx : x ≠ nullptr) (hnew : x ∉ s.w.gameStack)
    (hstart : (cb.onStart x s.w).1 = true)
    (hquiet : s.w.sameSchedule (cb.onStart x s.w).2) :
    (pushGameState cb x s).1 = true ∧
    (pushGameState cb x s).2.w.gameStack = s.w.gameStack ++ [x] ∧
    (pushGameState cb x s).2.w.gameStack.length = s.w.gameStack.length + 1 ∧
    (pushGameState cb x s).2.w.gameStack.getLast? = some x ∧
    (pushGameState cb x s).2.w.getState x = LS_GAME_RUNNING ∧
    (∀ b, s.w.gameStack.getLast? = some b →
      (pushGameState cb x s).2.w.getState b = LS_GAME_PAUSED) ∧
    (∀ q, q ≠ x → s.w.gameStack.getLast? ≠ some q →
      (pushGameState cb x s).2.w.getState q = s.w.getState q) := by
  obtain ⟨hret, hstack, htags⟩ := pushGameState_schedule cb x s hx hstart hquiet
  refine ⟨hret, hstack, by simp [hstack], by simp [hstack], by simp [htags], ?_, ?_⟩
  · intro b hb
    have hbx : b ≠ x := by
      intro h; subst h
      exact hnew (List.mem_of_getLast?_eq_some hb)
    simp [htags, hb, hbx]
  · intro q hq hlast
    simp [htags, hq, hlast]

/-- Witness for C1: pushing state 2 on the stack `[1 : RUNNING]`. -/
theorem pushGameState_success_witness :
    (2 ≠ nullptr ∧ 2 ∉ (sysOf [(1, LS_GAME_RUNNING)]).w.gameStack) ∧
    (pushGameState plainCallbacks 2 (sysOf [(1, LS_GAME_RUNNING)])).1 = true ∧
    (pushGameState plainCallbacks 2 (sysOf [(1, LS_GAME_RUNNING)])).2.w.gameStack = [1, 2] ∧
    (pushGameState plainCallbacks 2 (sysOf [(1, LS_GAME_RUNNING)])).2.w.getState 2
      = LS_GAME_RUNNING ∧
    (pushGameState plainCallbacks 2 (sysOf [(1, LS_GAME_RUNNING)])).2.w.getState 1
      = LS_GAME_PAUSED := by
  have h := pushGameState_success plainCallbacks 2 (sysOf [(1, LS_GAME_RUNNING)])
    (by decide) (by decide) rfl ⟨rfl, fun _ => rfl⟩
  exact ⟨⟨by decide, by decide⟩, h.1, h.2.1, h.2.2.2.2.1, h.2.2.2.2.2.1 1 rfl⟩

/-- C2: pushing a non-null state whose `onStart` returns false (leaving stack
and tags alone) returns false, inserts nothing and changes no tag; the world
is exactly the one `onStart` left. -/
theorem pushGameState_refused (cb : Callbacks) (x : Ptr) (s : Sys)
    (hx : x ≠ nullptr) (hstart : (cb.onStart x s.w).1 = false)
    (hquiet : s.w.sameSchedule (cb.onStart x s.w).2) :
    (pushGameState cb x s).1 = false ∧
    (pushGameState cb x s).2.w = (cb.onStart x s.w).2 ∧
    (pushGameState cb x s).2.w.gameStack = s.w.gameStack ∧
    (pushGameState cb x s).2.w.gameStack.length = s.w.gameStack.length ∧
    (∀ q, (pushGameState cb x s).2.w.getState q = s.w.getState q) := by
  have hpush : pushGameState cb x s =
      (false, { w := (cb.onStart x s.w).2, log := s.log ++ [Call.onStart x] }) := by
    unfold pushGameState
    simp [hx, hstart]
  rw [hpush]
  refine ⟨rfl, rfl, hquiet.1, by simp [hquiet.1], hquiet.2⟩

/-- Witness for C2: state 100 refuses to start on the stack `[1 : RUNNING]`. -/
theorem pushGameState_refused_witness :
    (100 ≠ nullptr ∧ (plainCallbacks.onStart 100 (sysOf [(1, LS_GAME_RUNNING)]).w).1 = false) ∧
    (pushGameState plainCallbacks 100 (sysOf [(1, LS_GAME_RUNNING)])).1 = false ∧
    (pushGameState plainCallbacks 100 (sysOf [(1, LS_GAME_RUNNING)])).2.w.gameStack = [1] ∧
    (pushGameState plainCallbacks 100 (sysOf [(1, LS_GAME_RUNNING)])).2.w.getState 1
      = LS_GAME_RUNNING := by
  have h := pushGameState_refused plainCallbacks 100 (sysOf [(1, LS_GAME_RUNNING)])
    (by decide) rfl ⟨rfl, fun _ => rfl⟩
  exact ⟨⟨by decide, rfl⟩, h.1, h.2.2.1, h.2.2.2.2 1⟩

theorem pushAll_snoc (cb : Callbacks) (ps : List Ptr) (p : Ptr) (s : Sys) :
    pushAll cb (ps ++ [p]) s =
      (((pushAll cb ps s).1 && (pushGameState cb p (pushAll cb ps s).2).1),
        (pushGameState cb p (pushAll cb ps s).2).2) := by
  simp [pushAll, List.foldl_append]

/-- Stack and tags after pushing distinct, successfully starting states on an
empty stack. -/
theorem pushAll_schedule (cb : Callbacks) (s : Sys) (hempty : s.w.gameStack = []) :
    ∀ ps : List Ptr, ps.Nodup → (∀ p ∈ ps, p ≠ nullptr) →
      (∀ p ∈ ps, ∀ w : World, (cb.onStart p w).1 = true ∧ w.sameSchedule (cb.onStart p w).2) →
      (pushAll cb ps s).1 = true ∧ (pushAll cb ps s).2.w.gameStack = ps ∧
      ∀ q ∈ ps, (pushAll cb ps s).2.w.getState q =
        if ps.getLast? = some q then LS_GAME_RUNNING else LS_GAME_PAUSED := by
  intro ps
  induction ps using List.reverseRecOn with
  | nil => intro _ _ _; simp [pushAll, hempty]
  | append_singleton ps p ih =>
    intro hnd hnn hst
    have hnd1 : ps.Nodup ∧ p ∉ ps := by
      rw [List.nodup_append] at hnd
      refine ⟨hnd.1, fun h => ?_⟩
      exact hnd.2.2 h (List.mem_singleton_self p)
    obtain ⟨ih1, ih2, ih3⟩ := ih hnd1.1 (fun q hq => hnn q (List.mem_append_left _ hq))
      (fun q hq => hst q (List.mem_append_left _ hq))
    have hp := hst p (by simp) (pushAll cb ps s).2.w
    obtain ⟨h1, h2, h3⟩ := pushGameState_schedule cb p (pushAll cb ps s).2 (hnn p (by simp))
      hp.1 hp.2
    rw [pushAll_snoc]
    refine ⟨by simp [ih1, h1], by simp [h2, ih2], ?_⟩
    intro q hq
    simp only [h3, ih2, List.getLast?_concat, Option.some.injEq]
    by_cases hqp : q = p
    · simp [hqp]
    · have hqps : q ∈ ps := by
        rcases List.mem_append.1 hq with h | h
        · exact h
        · exact absurd (List.mem_singleton.1 h) hqp
      have hpq : ¬ p = q := fun h => hqp h.symm
      simp only [hqp, hpq, if_false]
      by_cases hl : ps.getLast? = some q
      · simp [hl]
      · simp [hl, ih3 q hqps]

/-- C3: starting from an empty stack, pushing `n ≥ 1` distinct non-null states
`P1..Pn` whose `onStart` always returns true (leaving stack and tags alone)
succeeds every time and leaves the stack `[P1, ..., Pn]` in push order, `Pn`
with tag RUNNING and each of `P1..Pn-1` with tag PAUSED. -/
theorem pushAll_from_empty (cb : Callbacks) (s : Sys) (ps : List Ptr)
    (hempty : s.w.gameStack = []) (hne : ps ≠ []) (hnd : ps.Nodup)
    (hnn : ∀ p ∈ ps, p ≠ nullptr)
    (hst : ∀ p ∈ ps, ∀ w : World,
      (cb.onStart p w).1 = true ∧ w.sameSchedule (cb.onStart p w).2) :
    (pushAll cb ps s).1 = true ∧
    (pushAll cb ps s).2.w.gameStack = ps ∧
    (pushAll cb ps s).2.w.getState (ps.getLast hne) = LS_GAME_RUNNING ∧
    (∀ q ∈ ps.dropLast, (pushAll cb ps s).2.w.getState q = LS_GAME_PAUSED) := by
  obtain ⟨h1, h2, h3⟩ := pushAll_schedule cb s hempty ps hnd hnn hst
  refine ⟨h1, h2, ?_, ?_⟩
  · rw [h3 _ (List.getLast_mem hne)]
    simp [List.getLast?_eq_getLast _ hne]
  · intro q hq
    have hqm : q ∈ ps := List.mem_of_mem_dropLast hq
    rw [h3 q hqm]
    have : ps.getLast? ≠ some q := by
      intro hl
      have hps : ps = ps.dropLast ++ [q] := by
        have := List.dropLast_append_getLast? q hl
        exact this.symm
      rw [hps, List.nodup_append] at hnd
      exact hnd.2.2 hq (List.mem_singleton_self q)
    simp [this]

/-- Witness for C3: pushing 1, 2, 3 on the empty stack. -/
theorem pushAll_from_empty_witness :
    ((sysOf []).w.gameStack = [] ∧ [1, 2, 3].Nodup) ∧
    (pushAll plainCallbacks [1, 2, 3] (sysOf [])).2.w.gameStack = [1, 2, 3] ∧
    (pushAll plainCallbacks [1, 2, 3] (sysOf [])).2.w.getState 3 = LS_GAME_RUNNING ∧
    (pushAll plainCallbacks [1, 2, 3] (sysOf [])).2.w.getState 1 = LS_GAME_PAUSED ∧
    (pushAll plainCallbacks [1, 2, 3] (sysOf [])).2.w.getState 2 = LS_GAME_PAUSED := by
  have h := pushAll_from_empty plainCallbacks (sysOf []) [1, 2, 3] rfl (by decide) (by decide)
    (by decide)
    (by
      intro p hp w
      refine ⟨?_, rfl, fun _ => rfl⟩
      simp only [List.mem_cons, List.mem_singleton, List.not_mem_nil, or_false] at hp
      rcases hp with h | h | h <;> subst h <;> rfl)
  exact ⟨⟨rfl, by decide⟩, h.2.1, h.2.2.1, h.2.2.2 1 (by decide), h.2.2.2 2 (by decide)⟩

/-! ## Pop -/

/-- Stack and tags after `popGameState(i)` with a quiet `onStop`. -/
theorem popEffect_schedule (cb : Callbacks) (s : Sys) (pre rest : List Ptr) (p : Ptr)
    (hs : s.w.gameStack = pre ++ p :: rest)
    (hquiet : s.w.sameSchedule (cb.onStop p s.w)) :
    (popEffect cb pre.length p s).w.gameStack = pre ++ rest ∧
    (popEffect cb pre.length p s).log = s.log ++ [Call.onStop p, Call.delete p] ∧
    ∀ q, (popEffect cb pre.length p s).w.getState q =
      if (pre ++ rest).getLast? = some q ∧ s.w.getState q = LS_GAME_PAUSED then LS_GAME_RUNNING
      else s.w.getState q := by
  obtain ⟨hst, htag⟩ := hquiet
  have he : (cb.onStop p s.w).gameStack.eraseIdx pre.length = pre ++ rest := by
    rw [hst, hs]
    simp [List.eraseIdx_append_of_length_le]
  refine ⟨?_, rfl, ?_⟩
  · simp only [popEffect, gameStack_resumeBack, he]
  · intro q
    simp only [popEffect, getState_resumeBack, he, getState_withStack, htag]

/-- C4: on a non-empty stack (of at most 2^32 entries, so that its last index
fits `unsigned`) whose top state's `onStop` leaves stack and tags alone,
`popGameState()` returns, having called `onStop` on the top and removed exactly
the last element; if the new last element had tag PAUSED it now has tag
RUNNING, and if it had any other tag its tag is unchanged, as is the tag of
every state that is not the new last element. -/
theorem popGameState_top (dbg : Bool) (cb : Callbacks) (s : Sys)
    (hne : s.w.gameStack ≠ [])
    (hlen : s.w.gameStack.length ≤ 2 ^ 32)
    (hquiet : s.w.sameSchedule (cb.onStop (s.w.gameStack.getLast hne) s.w)) :
    ∃ s1, popGameState dbg cb s = .ok s1 ∧
      s1.w.gameStack = s.w.gameStack.dropLast ∧
      s1.log = s.log ++ [Call.onStop (s.w.gameStack.getLast hne),
                         Call.delete (s.w.gameStack.getLast hne)] ∧
      (∀ b, s.w.gameStack.dropLast.getLast? = some b → s.w.getState b = LS_GAME_PAUSED →
        s1.w.getState b = LS_GAME_RUNNING) ∧
      (∀ b, s.w.gameStack.dropLast.getLast? = some b → s.w.getState b ≠ LS_GAME_PAUSED →
        s1.w.getState b = s.w.getState b) ∧
      (∀ q, s.w.gameStack.dropLast.getLast? ≠ some q → s1.w.getState q = s.w.getState q) := by
  have hsplit : s.w.gameStack = s.w.gameStack.dropLast ++ s.w.gameStack.getLast hne :: [] :=
    (List.dropLast_append_getLast hne).symm
  have hpos : s.w.gameStack.length > 0 := List.length_pos.2 hne
  have hidx : (s.w.gameStack.length - 1) % 2 ^ 32 = s.w.gameStack.dropLast.length := by
    rw [List.length_dropLast]
    apply Nat.mod_eq_of_lt
    omega
  have hpop := popGameState_index_eq_popEffect dbg cb s s.w.gameStack.dropLast []
    (s.w.gameStack.getLast hne) hsplit hquiet.1
  obtain ⟨h1, h2, h3⟩ := popEffect_schedule cb s s.w.gameStack.dropLast []
    (s.w.gameStack.getLast hne) hsplit hquiet
  simp only [List.append_nil] at h1 h3
  refine ⟨popEffect cb s.w.gameStack.dropLast.length (s.w.gameStack.getLast hne) s, ?_, h1, h2,
    ?_, ?_, ?_⟩
  · unfold popGameState
    simp only [hpos, if_true, hidx]
    exact hpop
  · intro b hb hp
    rw [h3]; simp [hb, hp]
  · intro b _ hp
    rw [h3]; simp [hp]
  · intro q hq
    rw [h3]; simp [hq]

/-- Witness for C4: popping the top of `[1 : PAUSED, 2 : RUNNING]`. -/
theorem popGameState_top_witness :
    ((sysOf [(1, LS_GAME_PAUSED), (2, LS_GAME_RUNNING)]).w.gameStack ≠ [] ∧
     (sysOf [(1, LS_GAME_PAUSED), (2, LS_GAME_RUNNING)]).w.gameStack.length ≤ 2 ^ 32) ∧
    ∃ s1, popGameState false plainCallbacks (sysOf [(1, LS_GAME_PAUSED), (2, LS_GAME_RUNNING)])
        = .ok s1 ∧
      s1.w.gameStack = [1] ∧ s1.log = [Call.onStop 2, Call.delete 2] ∧
      s1.w.getState 1 = LS_GAME_RUNNING := by
  obtain ⟨s1, h1, h2, h3, h4, _, _⟩ := popGameState_top false plainCallbacks
    (sysOf [(1, LS_GAME_PAUSED), (2, LS_GAME_RUNNING)]) (by decide) (by decide)
    ⟨rfl, fun _ => rfl⟩
  exact ⟨⟨by decide, by decide⟩, s1, h1, h2, h3, h4 1 rfl rfl⟩

/-! ## Stop -/

theorem foldl_setState_stack (t : game_state_t) (l : List Ptr) :
    ∀ w : World, (l.foldl (fun w state => w.setState state t) w).gameStack = w.gameStack := by
  induction l with
  | nil => intro w; rfl
  | cons a l ih => intro w; simp [List.foldl_cons, ih]

theorem foldl_setState_getState (t : game_state_t) (l : List Ptr) :
    ∀ (w : World) (q : Ptr), (l.foldl (fun w state => w.setState state t) w).getState q =
      if q ∈ l then t else w.getState q := by
  induction l with
  | nil => intro w q; simp
  | cons a l ih =>
    intro w q
    simp only [List.foldl_cons, ih, getState_setState, List.mem_cons]
    by_cases h1 : q ∈ l
    · simp [h1]
    · by_cases h2 : q = a <;> simp [h1, h2]

/-- Stack, tags and log after `stop()`. -/
theorem stop_schedule (s : Sys) :
    (stop s).w.gameStack = s.w.gameStack ∧ (stop s).log = s.log ∧
    ∀ q, (stop s).w.getState q = if q ∈ s.w.gameStack then LS_GAME_STOPPED else s.w.getState q := by
  refine ⟨?_, rfl, ?_⟩
  · simp [stop, foldl_setState_stack]
  · intro q
    simp only [stop, foldl_setState_getState]
    rfl

/-- C8: `stop()` sets the tag of every element of the stack, the one at index 0
included, to STOPPED, keeps the stack (length and order) as it was, and calls
no callback: the log is unchanged. -/
theorem stop_marks_all (s : Sys) :
    (∀ p ∈ s.w.gameStack, (stop s).w.getState p = LS_GAME_STOPPED) ∧
    (∀ p, s.w.gameStack[0]? = some p → (stop s).w.getState p = LS_GAME_STOPPED) ∧
    (stop s).w.gameStack = s.w.gameStack ∧
    (stop s).w.gameStack.length = s.w.gameStack.length ∧
    (stop s).log = s.log := by
  obtain ⟨h1, h2, h3⟩ := stop_schedule s
  refine ⟨?_, ?_, h1, by rw [h1], h2⟩
  · intro p hp
    simp [h3, hp]
  · intro p hp
    have : p ∈ s.w.gameStack := List.getElem?_mem hp
    simp [h3, this]

/-! ## Update -/

theorem advance_cons_stop (cb : Callbacks) (dt : float) (p : Ptr) (rest : List Ptr) (i : Nat)
    (s : Sys) (h : s.w.getState p = LS_GAME_STOPPED) :
    advance cb dt (p :: rest) i s = advance cb dt rest i (popEffect cb i p s) := by
  rw [advance]; simp [h]

/-- One visit of a state that is not STOPPED, when the callback it triggers
is inert. -/
theorem advance_cons_keep_local (cb : Callbacks) (dt : float) (p : Ptr)
    (rest : List Ptr) (i : Nat) (s : Sys) (h : s.w.getState p ≠ LS_GAME_STOPPED)
    (hr : s.w.getState p = LS_GAME_RUNNING → s.w.sameSchedule (cb.onRun p dt s.w))
    (hp : s.w.sameSchedule (cb.onPause p dt s.w)) :
    ∃ s1, advance cb dt (p :: rest) i s = advance cb dt rest (i + 1) s1 ∧
      s1.w.gameStack = s.w.gameStack ∧ (∀ q, s1.w.getState q = s.w.getState q) ∧
      s1.log = s.log ++ visitCalls dt (s.w.getState p) p := by
  rw [advance]
  cases ht : s.w.getState p with
  | LS_GAME_STOPPED => exact absurd ht h
  | LS_GAME_RUNNING =>
    exact ⟨_, rfl, (hr ht).1, (hr ht).2, by simp [visitCalls]⟩
  | LS_GAME_PAUSED =>
    exact ⟨_, rfl, hp.1, hp.2, by simp [visitCalls]⟩
  | LS_GAME_INVALID => exact ⟨s, rfl, rfl, fun _ => rfl, by simp [visitCalls]⟩
  | LS_GAME_INIT => exact ⟨s, rfl, rfl, fun _ => rfl, by simp [visitCalls]⟩

/-- One visit of a state that is not STOPPED, with inert callbacks. -/
theorem advance_cons_keep (cb : Callbacks) (dt : float) (hi : cb.Inert) (p : Ptr)
    (rest : List Ptr) (i : Nat) (s : Sys) (h : s.w.getState p ≠ LS_GAME_STOPPED) :
    ∃ s1, advance cb dt (p :: rest) i s = advance cb dt rest (i + 1) s1 ∧
      s1.w.gameStack = s.w.gameStack ∧ (∀ q, s1.w.getState q = s.w.getState q) ∧
      s1.log = s.log ++ visitCalls dt (s.w.getState p) p :=
  advance_cons_keep_local cb dt p rest i s h (fun _ => hi.2.1 p dt s.w) (hi.2.2 p dt s.w)

theorem stopped_iff_of_resumed {t1 t : game_state_t}
    (h : t1 = t ∨ (t = LS_GAME_PAUSED ∧ t1 = LS_GAME_RUNNING)) :
    t1 = LS_GAME_STOPPED ↔ t = LS_GAME_STOPPED := by
  rcases h with h | ⟨h1, h2⟩
  · rw [h]
  · rw [h1, h2]; simp

theorem visitCalls_not_stopped (dt : float) (t : game_state_t) (p : Ptr)
    (h : t ≠ LS_GAME_STOPPED) :
    (visitCalls dt t p).filter (fun c => !c.isRunOrPause) = [] ∧
    ∀ c ∈ visitCalls dt t p, c.target = p := by
  cases t <;> simp [visitCalls, Call.isRunOrPause, Call.target] at h ⊢

/-- The update loop with inert callbacks, from any point of the walk: the
stack it leaves, how tags can have changed, and what it has logged. -/
theorem advance_inert (cb : Callbacks) (dt : float) (hi : cb.Inert) :
    ∀ (rest pre : List Ptr) (s : Sys), s.w.gameStack = pre ++ rest →
      (advance cb dt rest pre.length s).w.gameStack =
        pre ++ rest.filter (fun p => decide (s.w.getState p ≠ LS_GAME_STOPPED)) ∧
      (∀ q, (advance cb dt rest pre.length s).w.getState q = s.w.getState q ∨
        (s.w.getState q = LS_GAME_PAUSED ∧
          (advance cb dt rest pre.length s).w.getState q = LS_GAME_RUNNING)) ∧
      ∃ delta, (advance cb dt rest pre.length s).log = s.log ++ delta ∧
        delta.filter (fun c => !c.isRunOrPause) =
          (rest.filter (fun p => decide (s.w.getState p = LS_GAME_STOPPED))).flatMap
            (fun p => [Call.onStop p, Call.delete p]) ∧
        ∀ c ∈ delta, c.isRunOrPause = true →
          c.target ∈ rest ∧ s.w.getState c.target ≠ LS_GAME_STOPPED := by
  intro rest
  induction rest with
  | nil =>
    intro pre s _
    refine ⟨by simpa [advance] using ‹s.w.gameStack = pre ++ []›, fun q => Or.inl rfl,
      [], by simp [advance], by simp, by simp⟩
  | cons p rest ih =>
    intro pre s hs
    by_cases h : s.w.getState p = LS_GAME_STOPPED
    · rw [advance_cons_stop cb dt p rest pre.length s h]
      obtain ⟨e1, e2, e3⟩ := popEffect_schedule cb s pre rest p hs (hi.1 p s.w)
      have hrel : ∀ q, (popEffect cb pre.length p s).w.getState q = s.w.getState q ∨
          (s.w.getState q = LS_GAME_PAUSED ∧
            (popEffect cb pre.length p s).w.getState q = LS_GAME_RUNNING) := by
        intro q
        rw [e3 q]
        by_cases hc : (pre ++ rest).getLast? = some q ∧ s.w.getState q = LS_GAME_PAUSED
        · rw [if_pos hc]; exact Or.inr ⟨hc.2, rfl⟩
        · rw [if_neg hc]; exact Or.inl rfl
      obtain ⟨i1, i2, delta, i3, i4, i5⟩ := ih pre (popEffect cb pre.length p s) e1
      have hfe : ∀ q, decide ((popEffect cb pre.length p s).w.getState q = LS_GAME_STOPPED)
          = decide (s.w.getState q = LS_GAME_STOPPED) := by
        intro q
        exact decide_eq_decide.2 (stopped_iff_of_resumed (hrel q))
      have hfn : ∀ q, decide ((popEffect cb pre.length p s).w.getState q ≠ LS_GAME_STOPPED)
          = decide (s.w.getState q ≠ LS_GAME_STOPPED) := by
        intro q
        exact decide_eq_decide.2 (not_congr (stopped_iff_of_resumed (hrel q)))
      refine ⟨?_, ?_, [Call.onStop p, Call.delete p] ++ delta, ?_, ?_, ?_⟩
      · rw [i1]
        simp only [hfn, List.filter_cons, h, ne_eq, not_true_eq_false, decide_False]
        simp
      · intro q
        rcases i2 q with a | ⟨a1, a2⟩
        · rw [a]; exact hrel q
        · rcases hrel q with b | ⟨b1, b2⟩
          · rw [b] at a1; exact Or.inr ⟨a1, a2⟩
          · rw [b2] at a1; cases a1
      · rw [i3, e2]; simp
      · rw [List.filter_append, i4]
        simp only [hfe, List.filter_cons, h, decide_True, if_true, List.flatMap_cons]
        simp [Call.isRunOrPause]
      · intro c hc hr
        rcases List.mem_append.1 hc with hc | hc
        · simp at hc
          rcases hc with hc | hc <;> subst hc <;> simp [Call.isRunOrPause] at hr
        · obtain ⟨m1, m2⟩ := i5 c hc hr
          exact ⟨List.mem_cons_of_mem _ m1,
            fun hh => m2 ((stopped_iff_of_resumed (hrel c.target)).2 hh)⟩
    · obtain ⟨s1, k1, k2, k3, k4⟩ := advance_cons_keep cb dt hi p rest pre.length s h
      rw [k1]
      have hs1 : s1.w.gameStack = (pre ++ [p]) ++ rest := by rw [k2, hs]; simp
      have hpl : (pre ++ [p]).length = pre.length + 1 := by simp
      obtain ⟨i1, i2, delta, i3, i4, i5⟩ := ih (pre ++ [p]) s1 hs1
      rw [hpl] at i1 i2 i3
      obtain ⟨v1, v2⟩ := visitCalls_not_stopped dt (s.w.getState p) p h
      refine ⟨?_, ?_, visitCalls dt (s.w.getState p) p ++ delta, ?_, ?_, ?_⟩
      · rw [i1]
        simp only [k3, List.filter_cons, h, ne_eq, not_false_eq_true, decide_True, if_true]
        simp
      · intro q
        have := i2 q
        rw [k3 q] at this
        exact this
      · rw [i3, k4]; simp
      · rw [List.filter_append, i4, v1]
        simp only [k3, List.filter_cons, h, decide_False]
        simp
      · intro c hc hr
        rcases List.mem_append.1 hc with hc | hc
        · rw [v2 c hc]
          exact ⟨List.mem_cons_self _ _, h⟩
        · obtain ⟨m1, m2⟩ := i5 c hc hr
          rw [k3] at m2
          exact ⟨List.mem_cons_of_mem _ m1, m2⟩

theorem flatMap_congr_mem {α β : Type} (l : List α) (f g : α → List β)
    (h : ∀ a ∈ l, f a = g a) : l.flatMap f = l.flatMap g := by
  induction l with
  | nil => rfl
  | cons a l ih =>
    simp only [List.flatMap_cons]
    rw [h a (List.mem_cons_self _ _), ih (fun b hb => h b (List.mem_cons_of_mem _ hb))]

theorem getLast?_cons_of_mem {q p : Ptr} {rest : List Ptr} (hq : q ∈ rest) :
    (p :: rest).getLast? = rest.getLast? ∧ (p :: rest).dropLast = p :: rest.dropLast := by
  cases rest with
  | nil => cases hq
  | cons a r => exact ⟨by simp [List.getLast?_cons_cons], by simp⟩

theorem tagAtVisit_head_keep (t : Ptr → game_state_t) (p : Ptr) (rest : List Ptr)
    (hnd : (p :: rest).Nodup) : tagAtVisit t (p :: rest) p = t p := by
  unfold tagAtVisit
  split
  · rename_i hc
    cases rest with
    | nil => simp at hc
    | cons a r =>
      exfalso
      have h1 : (a :: r).getLast? = some p := by
        rw [← (getLast?_cons_of_mem (List.mem_cons_self a r)).1]; exact hc.1
      exact (List.nodup_cons.1 hnd).1 (List.mem_of_getLast?_eq_some h1)
  · rfl

theorem tagAtVisit_head_stop (t : Ptr → game_state_t) (p : Ptr) (rest : List Ptr)
    (h : t p = LS_GAME_STOPPED) : tagAtVisit t (p :: rest) p = LS_GAME_STOPPED := by
  unfold tagAtVisit
  simp [h]

theorem tagAtVisit_tail_keep (t : Ptr → game_state_t) (p q : Ptr) (rest : List Ptr)
    (hq : q ∈ rest) (h : t p ≠ LS_GAME_STOPPED) :
    tagAtVisit t (p :: rest) q = tagAtVisit t rest q := by
  obtain ⟨h1, h2⟩ := getLast?_cons_of_mem (p := p) hq
  unfold tagAtVisit
  rw [h1, h2]
  simp [h]

theorem tagAtVisit_tail_stop (t t1 : Ptr → game_state_t) (p q : Ptr) (pre rest : List Ptr)
    (hq : q ∈ rest) (h : t p = LS_GAME_STOPPED)
    (ht1 : ∀ q, t1 q = if (pre ++ rest).getLast? = some q ∧ t q = LS_GAME_PAUSED
      then LS_GAME_RUNNING else t q) :
    tagAtVisit t1 rest q = tagAtVisit t (p :: rest) q := by
  obtain ⟨h1, h2⟩ := getLast?_cons_of_mem (p := p) hq
  have hne : rest ≠ [] := List.ne_nil_of_mem hq
  have hlast : (pre ++ rest).getLast? = rest.getLast? := by
    rw [List.getLast?_append]
    cases hr : rest.getLast? with
    | none => exact absurd (List.getLast?_eq_none_iff.1 hr) hne
    | some b => rfl
  unfold tagAtVisit
  rw [h1, h2, ht1 q, hlast]
  by_cases hl : rest.getLast? = some q
  · by_cases hp : t q = LS_GAME_PAUSED
    · simp [hl, hp, h]
    · simp [hl, hp]
  · simp [hl]

/-- The complete log of the update loop with inert callbacks on a stack of
distinct states. -/
theorem advance_log (cb : Callbacks) (dt : float) (hi : cb.Inert) :
    ∀ (rest pre : List Ptr) (s : Sys), s.w.gameStack = pre ++ rest → rest.Nodup →
      (advance cb dt rest pre.length s).log =
        s.log ++ rest.flatMap (fun p => visitCalls dt (tagAtVisit s.w.getState rest p) p) := by
  intro rest
  induction rest with
  | nil => intro pre s _ _; simp [advance]
  | cons p rest ih =>
    intro pre s hs hnd
    have hnd1 : rest.Nodup := (List.nodup_cons.1 hnd).2
    by_cases h : s.w.getState p = LS_GAME_STOPPED
    · rw [advance_cons_stop cb dt p rest pre.length s h]
      obtain ⟨e1, e2, e3⟩ := popEffect_schedule cb s pre rest p hs (hi.1 p s.w)
      rw [ih pre (popEffect cb pre.length p s) e1 hnd1, e2, List.flatMap_cons,
        tagAtVisit_head_stop _ p rest h]
      rw [flatMap_congr_mem rest _
        (fun q => visitCalls dt (tagAtVisit s.w.getState (p :: rest) q) q)
        (fun q hq => by simp only [tagAtVisit_tail_stop s.w.getState _ p q pre rest hq h e3])]
      simp [visitCalls]
    · obtain ⟨s1, k1, k2, k3, k4⟩ := advance_cons_keep cb dt hi p rest pre.length s h
      have hs1 : s1.w.gameStack = (pre ++ [p]) ++ rest := by rw [k2, hs]; simp
      have hpl : (pre ++ [p]).length = pre.length + 1 := by simp
      have hfun : s1.w.getState = s.w.getState := funext k3
      have := ih (pre ++ [p]) s1 hs1 hnd1
      rw [hpl] at this
      rw [k1, this, k4, hfun, List.flatMap_cons, tagAtVisit_head_keep _ p rest hnd]
      rw [flatMap_congr_mem rest _
        (fun q => visitCalls dt (tagAtVisit s.w.getState (p :: rest) q) q)
        (fun q hq => by simp only [tagAtVisit_tail_keep s.w.getState p q rest hq h])]
      simp

/-- With inert callbacks, on a stack of fewer than 2^32 entries, the update
loop returns once the fuel exceeds the stack length, and it is `advance`. -/
theorem updateGameStates_eq_advance (dbg : Bool) (cb : Callbacks) (fuel : Nat) (dt : float)
    (s : Sys) (hk : cb.KeepsStack) (hlen : s.w.gameStack.length < 2 ^ 32)
    (hfuel : s.w.gameStack.length < fuel) :
    updateGameStates dbg cb fuel dt s = .ok (advance cb dt s.w.gameStack 0 s) := by
  have := updateLoop_eq_advance dbg cb dt hk s.w.gameStack [] s fuel (by simp)
    (by simpa using hlen) hfuel
  simpa [updateGameStates] using this

theorem filter_isOnStop_stops (l : List Ptr) :
    (l.flatMap (fun p => [Call.onStop p, Call.delete p])).filter Call.isOnStop
      = l.map Call.onStop := by
  induction l with
  | nil => rfl
  | cons a l ih =>
    simp only [List.flatMap_cons, List.filter_append, ih, List.map_cons]
    simp [Call.isOnStop]

theorem filter_isOnStop_of_notRunOrPause (delta : List Call) :
    (delta.filter (fun c => !c.isRunOrPause)).filter Call.isOnStop
      = delta.filter Call.isOnStop := by
  rw [List.filter_filter]
  apply List.filter_congr
  intro c _
  cases c <;> rfl

/-- The claim C5 as stated fails on `[1 : STOPPED, 2 : PAUSED]`: with inert
callbacks, state 2 had tag PAUSED when the call began, yet the call invokes
`onRun` on it and never `onPause`. -/
theorem updateGameStates_paused_top_counterexample :
    plainCallbacks.Inert ∧
    (sysOf [(1, LS_GAME_STOPPED), (2, LS_GAME_PAUSED)]).w.getState 2 = LS_GAME_PAUSED ∧
    ∃ s1, updateGameStates false plainCallbacks 3 dt16
        (sysOf [(1, LS_GAME_STOPPED), (2, LS_GAME_PAUSED)]) = .ok s1 ∧
      s1.log = [Call.onStop 1, Call.delete 1, Call.onRun 2 dt16] ∧
      Call.onPause 2 dt16 ∉ s1.log ∧ Call.onRun 2 dt16 ∈ s1.log :=
  ⟨plainCallbacks_inert, by decide, _, rfl, by decide, by decide, by decide⟩

/-- C5 (amended): with inert callbacks, on a stack of distinct states (fewer
than 2^32 of them), one `updateGameStates(dt)` call returns and its log is, in
ascending index order, the calls of one visit per element: `onRun(dt)` once for
a tag RUNNING, `onPause(dt)` once for a tag PAUSED, `onStop` and `delete` for
STOPPED, nothing for INIT or INVALID.  The tag is the one the element had when
the call began, except for a PAUSED last element with a STOPPED element below
it, which has been resumed by then and gets `onRun(dt)`.  Elements tagged INIT
or INVALID stay on the stack. -/
theorem updateGameStates_calls (dbg : Bool) (cb : Callbacks) (fuel : Nat) (dt : float)
    (s : Sys) (hi : cb.Inert) (hnd : s.w.gameStack.Nodup)
    (hlen : s.w.gameStack.length < 2 ^ 32) (hfuel : s.w.gameStack.length < fuel) :
    ∃ s1, updateGameStates dbg cb fuel dt s = .ok s1 ∧
      s1.log = s.log ++ s.w.gameStack.flatMap
        (fun p => visitCalls dt (tagAtVisit s.w.getState s.w.gameStack p) p) ∧
      (∀ p, tagAtVisit s.w.getState s.w.gameStack p = s.w.getState p ∨
        (s.w.gameStack.getLast? = some p ∧ s.w.getState p = LS_GAME_PAUSED ∧
          (∃ q ∈ s.w.gameStack.dropLast, s.w.getState q = LS_GAME_STOPPED) ∧
          tagAtVisit s.w.getState s.w.gameStack p = LS_GAME_RUNNING)) ∧
      (∀ p ∈ s.w.gameStack, s.w.getState p = LS_GAME_INIT ∨ s.w.getState p = LS_GAME_INVALID →
        p ∈ s1.w.gameStack) := by
  refine ⟨_, updateGameStates_eq_advance dbg cb fuel dt s (inert_keepsStack hi) hlen hfuel,
    ?_, ?_, ?_⟩
  · have := advance_log cb dt hi s.w.gameStack [] s (by simp) hnd
    simpa using this
  · intro p
    unfold tagAtVisit
    split
    · rename_i hc
      refine Or.inr ⟨hc.1, hc.2.1, ?_, rfl⟩
      simpa using hc.2.2
    · exact Or.inl rfl
  · intro p hp ht
    have := (advance_inert cb dt hi s.w.gameStack [] s (by simp)).1
    simp only [List.length_nil, List.nil_append] at this
    rw [this, List.mem_filter]
    refine ⟨hp, ?_⟩
    rcases ht with ht | ht <;> simp [ht]

/-- Witness for C5 (amended): on `[1 : PAUSED, 2 : STOPPED, 3 : PAUSED, 4 : INIT]`
state 1 gets `onPause`, state 2 is removed, and the loop meets INIT at 4. -/
theorem updateGameStates_calls_witness :
    (plainCallbacks.Inert ∧
      (sysOf [(1, LS_GAME_PAUSED), (2, LS_GAME_STOPPED), (3, LS_GAME_PAUSED),
        (4, LS_GAME_INIT)]).w.gameStack.Nodup) ∧
    ∃ s1, updateGameStates false plainCallbacks 5 dt16
        (sysOf [(1, LS_GAME_PAUSED), (2, LS_GAME_STOPPED), (3, LS_GAME_PAUSED),
          (4, LS_GAME_INIT)]) = .ok s1 ∧
      s1.log = [Call.onPause 1 dt16, Call.onStop 2, Call.delete 2, Call.onPause 3 dt16] ∧
      4 ∈ s1.w.gameStack := by
  obtain ⟨s1, h1, h2, _, h4⟩ := updateGameStates_calls false plainCallbacks 5 dt16
    (sysOf [(1, LS_GAME_PAUSED), (2, LS_GAME_STOPPED), (3, LS_GAME_PAUSED), (4, LS_GAME_INIT)])
    plainCallbacks_inert (by decide) (by decide) (by decide)
  exact ⟨⟨plainCallbacks_inert, by decide⟩, s1, h1, h2.trans (by decide),
    h4 4 (by decide) (Or.inl (by decide))⟩

/-- C6: with inert callbacks, on a stack of fewer than 2^32 entries, one
`updateGameStates` call returns, removes every element whose tag was STOPPED
when the call began and no other (the survivors keep their relative order), and
its `onStop` calls are exactly one per removed element, in ascending order of
their original indices. -/
theorem updateGameStates_removes_stopped (dbg : Bool) (cb : Callbacks) (fuel : Nat)
    (dt : float) (s : Sys) (hi : cb.Inert)
    (hlen : s.w.gameStack.length < 2 ^ 32) (hfuel : s.w.gameStack.length < fuel) :
    ∃ s1, updateGameStates dbg cb fuel dt s = .ok s1 ∧
      s1.w.gameStack =
        s.w.gameStack.filter (fun p => decide (s.w.getState p ≠ LS_GAME_STOPPED)) ∧
      ∃ delta, s1.log = s.log ++ delta ∧
        delta.filter Call.isOnStop =
          (s.w.gameStack.filter (fun p => decide (s.w.getState p = LS_GAME_STOPPED))).map
            Call.onStop := by
  obtain ⟨a1, _, delta, a3, a4, _⟩ := advance_inert cb dt hi s.w.gameStack [] s (by simp)
  simp only [List.length_nil, List.nil_append] at a1 a3
  refine ⟨_, updateGameStates_eq_advance dbg cb fuel dt s (inert_keepsStack hi) hlen hfuel, a1, delta,
    a3, ?_⟩
  rw [← filter_isOnStop_of_notRunOrPause, a4, filter_isOnStop_stops]

/-- Witness for C6: `[1 : STOPPED, 2 : RUNNING, 3 : STOPPED, 4 : INIT]`. -/
theorem updateGameStates_removes_stopped_witness :
    (plainCallbacks.Inert ∧
      (sysOf [(1, LS_GAME_STOPPED), (2, LS_GAME_RUNNING), (3, LS_GAME_STOPPED),
        (4, LS_GAME_INIT)]).w.gameStack.length < 5) ∧
    ∃ s1, updateGameStates false plainCallbacks 5 dt16
        (sysOf [(1, LS_GAME_STOPPED), (2, LS_GAME_RUNNING), (3, LS_GAME_STOPPED),
          (4, LS_GAME_INIT)]) = .ok s1 ∧
      s1.w.gameStack = [2, 4] ∧
      s1.log.filter Call.isOnStop = [Call.onStop 1, Call.onStop 3] := by
  obtain ⟨s1, h1, h2, delta, h3, h4⟩ := updateGameStates_removes_stopped false plainCallbacks 5
    dt16 (sysOf [(1, LS_GAME_STOPPED), (2, LS_GAME_RUNNING), (3, LS_GAME_STOPPED),
      (4, LS_GAME_INIT)]) plainCallbacks_inert (by decide) (by decide)
  refine ⟨⟨plainCallbacks_inert, by decide⟩, s1, h1, h2.trans (by decide), ?_⟩
  rw [h3, List.filter_append, h4]
  decide

/-- C9: with inert callbacks, on a stack of fewer than 2^32 entries with any
tags, `stop()` followed by one `updateGameStates` call returns with the stack
empty; what that call logs is `onStop` (and `delete`) once for every element
that was present, in index order, and no `onRun` or `onPause`. -/
theorem stop_then_update (dbg : Bool) (cb : Callbacks) (fuel : Nat) (dt : float) (s : Sys)
    (hi : cb.Inert) (hlen : s.w.gameStack.length < 2 ^ 32)
    (hfuel : s.w.gameStack.length < fuel) :
    ∃ s1, updateGameStates dbg cb fuel dt (stop s) = .ok s1 ∧
      s1.w.gameStack = [] ∧
      s1.log = s.log ++ s.w.gameStack.flatMap (fun p => [Call.onStop p, Call.delete p]) ∧
      (s.w.gameStack.flatMap (fun p => [Call.onStop p, Call.delete p])).filter Call.isOnStop
        = s.w.gameStack.map Call.onStop ∧
      (s.w.gameStack.flatMap (fun p => [Call.onStop p, Call.delete p])).filter
        Call.isRunOrPause = [] := by
  obtain ⟨g1, g2, g3⟩ := stop_schedule s
  have hall : ∀ p ∈ (stop s).w.gameStack, (stop s).w.getState p = LS_GAME_STOPPED := by
    intro p hp
    rw [g1] at hp
    simp [g3, hp]
  obtain ⟨a1, _, delta, a3, a4, a5⟩ :=
    advance_inert cb dt hi (stop s).w.gameStack [] (stop s) (by simp)
  simp only [List.length_nil, List.nil_append] at a1 a3
  have hdelta : delta.filter (fun c => !c.isRunOrPause) = delta := by
    apply List.filter_eq_self.2
    intro c hc
    cases hr : c.isRunOrPause with
    | false => rfl
    | true =>
      obtain ⟨m1, m2⟩ := a5 c hc hr
      exact absurd (hall _ m1) m2
  have hstopped : (stop s).w.gameStack.filter
      (fun p => decide ((stop s).w.getState p = LS_GAME_STOPPED)) = (stop s).w.gameStack := by
    apply List.filter_eq_self.2
    intro p hp
    simp [hall p hp]
  refine ⟨_, updateGameStates_eq_advance dbg cb fuel dt (stop s) (inert_keepsStack hi)
    (by rw [g1]; exact hlen) (by rw [g1]; exact hfuel), ?_, ?_, filter_isOnStop_stops _, ?_⟩
  · rw [a1]
    apply List.filter_eq_nil_iff.2
    intro p hp
    simp [hall p hp]
  · rw [a3, g2, ← hdelta, a4, hstopped, g1]
  · apply List.filter_eq_nil_iff.2
    intro c hc
    simp only [List.mem_flatMap] at hc
    obtain ⟨p, _, hc⟩ := hc
    simp at hc
    rcases hc with hc | hc <;> subst hc <;> simp [Call.isRunOrPause]

/-- Witness for C9: `[1 : PAUSED, 2 : INIT, 3 : RUNNING]`. -/
theorem stop_then_update_witness :
    (plainCallbacks.Inert ∧
      (sysOf [(1, LS_GAME_PAUSED), (2, LS_GAME_INIT), (3, LS_GAME_RUNNING)]).w.gameStack.length
        < 4) ∧
    ∃ s1, updateGameStates false plainCallbacks 4 dt16
        (stop (sysOf [(1, LS_GAME_PAUSED), (2, LS_GAME_INIT), (3, LS_GAME_RUNNING)])) = .ok s1 ∧
      s1.w.gameStack = [] ∧
      s1.log = [Call.onStop 1, Call.delete 1, Call.onStop 2, Call.delete 2, Call.onStop 3,
        Call.delete 3] := by
  obtain ⟨s1, h1, h2, h3, _, _⟩ := stop_then_update false plainCallbacks 4 dt16
    (sysOf [(1, LS_GAME_PAUSED), (2, LS_GAME_INIT), (3, LS_GAME_RUNNING)])
    plainCallbacks_inert (by decide) (by decide)
  exact ⟨⟨plainCallbacks_inert, by decide⟩, s1, h1, h2, h3.trans (by decide)⟩

/-! ## A state that stops itself while running -/

theorem selfStopCallbacks_selfStops (p : Ptr) : (selfStopCallbacks p).SelfStops p := by
  refine ⟨fun _ _ => ⟨rfl, fun _ => rfl⟩, fun _ _ _ => ⟨rfl, fun _ => rfl⟩, ?_, ?_⟩
  · intro q dt w hq
    simp [selfStopCallbacks, hq, World.sameSchedule]
  · intro dt w
    simp [selfStopCallbacks]

theorem selfStops_keepsStack {cb : Callbacks} {p : Ptr} (h : cb.SelfStops p) :
    cb.KeepsStack := by
  refine ⟨fun q w => (h.1 q w).1, ?_, fun q dt w => (h.2.1 q dt w).1⟩
  intro q dt w
  by_cases hq : q = p
  · subst hq; exact (h.2.2.2 dt w).1
  · exact (h.2.2.1 q dt w hq).1

/-- The tag of a state that is not PAUSED survives a pop. -/
theorem popEffect_getState_of_ne_paused (cb : Callbacks) (s : Sys) (pre rest : List Ptr)
    (q p : Ptr) (hs : s.w.gameStack = pre ++ q :: rest)
    (hquiet : s.w.sameSchedule (cb.onStop q s.w)) (hp : s.w.getState p ≠ LS_GAME_PAUSED) :
    (popEffect cb pre.length q s).w.getState p = s.w.getState p := by
  rw [(popEffect_schedule cb s pre rest q hs hquiet).2.2 p]
  simp [hp]

/-- The update call in which the state at `p` stops itself: `p` stays on the
stack, ends with tag STOPPED, and gets no `onStop`. -/
theorem advance_selfStop_first (cb : Callbacks) (dt : float) (p : Ptr) (H : cb.SelfStops p) :
    ∀ (rest pre : List Ptr) (s : Sys), s.w.gameStack = pre ++ rest → (pre ++ rest).Nodup →
      (p ∈ rest → s.w.getState p = LS_GAME_RUNNING) →
      (p ∈ pre → s.w.getState p = LS_GAME_STOPPED) → p ∈ pre ++ rest →
      (advance cb dt rest pre.length s).w.gameStack.Sublist (pre ++ rest) ∧
      p ∈ (advance cb dt rest pre.length s).w.gameStack ∧
      (advance cb dt rest pre.length s).w.getState p = LS_GAME_STOPPED ∧
      ∃ d, (advance cb dt rest pre.length s).log = s.log ++ d ∧ Call.onStop p ∉ d ∧
        (p ∈ rest → Call.onRun p dt ∈ d) := by
  intro rest
  induction rest with
  | nil =>
    intro pre s hs _ _ hpre hmem
    simp only [List.append_nil] at hs hmem
    refine ⟨by simp [advance, hs], by simpa [advance, hs] using hmem, by simpa [advance] using hpre hmem,
      [], by simp [advance], by simp, by simp⟩
  | cons q rest ih =>
    intro pre s hs hnd hrest hpre hmem
    have hnd1 : ((pre ++ [q]) ++ rest).Nodup := by simpa using hnd
    have hnd2 : (pre ++ rest).Nodup := by
      have : (pre ++ rest).Sublist (pre ++ q :: rest) :=
        List.Sublist.append_left (List.sublist_cons_self q rest) pre
      exact hnd.sublist this
    have hqpre : q ∉ pre := by
      intro h
      exact (List.nodup_append.1 hnd).2.2 h (List.mem_cons_self q rest)
    have hqrest : q ∉ rest := by
      have := (List.nodup_append.1 hnd).2.1
      exact (List.nodup_cons.1 this).1
    have hpl : (pre ++ [q]).length = pre.length + 1 := by simp
    by_cases hqp : q = p
    · subst hqp
      have ht : s.w.getState q = LS_GAME_RUNNING := hrest (List.mem_cons_self _ _)
      obtain ⟨r1, r2⟩ := H.2.2.2 dt s.w
      have hstep : advance cb dt (q :: rest) pre.length s = advance cb dt rest (pre.length + 1)
          { w := cb.onRun q dt s.w, log := s.log ++ [Call.onRun q dt] } := by
        rw [advance]; simp [ht]
      rw [hstep]
      obtain ⟨i1, i2, i3, d, i4, i5, _⟩ := ih (pre ++ [q])
        { w := cb.onRun q dt s.w, log := s.log ++ [Call.onRun q dt] }
        (by simp [r1, hs]) hnd1 (fun h => absurd h hqrest) (fun _ => by simp [r2]) (by simp)
      rw [hpl] at i1 i2 i3 i4
      refine ⟨by simpa using i1, i2, i3, [Call.onRun q dt] ++ d, by simp [i4], ?_, ?_⟩
      · simp [i5]
      · intro _; simp
    · have hpq : p ≠ q := fun h => hqp h.symm
      by_cases h : s.w.getState q = LS_GAME_STOPPED
      · rw [advance_cons_stop cb dt q rest pre.length s h]
        obtain ⟨e1, e2, _⟩ := popEffect_schedule cb s pre rest q hs (H.1 q s.w)
        have hmem1 : p ∈ pre ++ rest := by
          rcases List.mem_append.1 hmem with hm | hm
          · exact List.mem_append_left _ hm
          · rcases List.mem_cons.1 hm with hm | hm
            · exact absurd hm hpq
            · exact List.mem_append_right _ hm
        have hkeep : ∀ t, s.w.getState p = t → t ≠ LS_GAME_PAUSED →
            (popEffect cb pre.length q s).w.getState p = t := by
          intro t ht hne
          rw [popEffect_getState_of_ne_paused cb s pre rest q p hs (H.1 q s.w) (by rw [ht]; exact hne)]
          exact ht
        obtain ⟨i1, i2, i3, d, i4, i5, i6⟩ := ih pre (popEffect cb pre.length q s) e1 hnd2
          (fun hm => hkeep _ (hrest (List.mem_cons_of_mem _ hm)) (by decide))
          (fun hm => hkeep _ (hpre hm) (by decide)) hmem1
        refine ⟨i1.trans (List.Sublist.append_left (List.sublist_cons_self q rest) pre), i2, i3,
          [Call.onStop q, Call.delete q] ++ d, by simp [i4, e2], ?_, ?_⟩
        · simp [i5, hpq]
        · intro hm
          rcases List.mem_cons.1 hm with hm | hm
          · exact absurd hm hpq
          · exact List.mem_append_right _ (i6 hm)
      · obtain ⟨s1, k1, k2, k3, k4⟩ := advance_cons_keep_local cb dt q rest pre.length s h
          (fun _ => H.2.2.1 q dt s.w hqp) (H.2.1 q dt s.w)
        rw [k1]
        obtain ⟨i1, i2, i3, d, i4, i5, i6⟩ := ih (pre ++ [q]) s1 (by rw [k2, hs]; simp) hnd1
          (fun hm => by rw [k3]; exact hrest (List.mem_cons_of_mem _ hm))
          (fun hm => by
            rw [k3]
            rcases List.mem_append.1 hm with hm | hm
            · exact hpre hm
            · exact absurd (List.mem_singleton.1 hm) hpq)
          (by simpa using hmem)
        rw [hpl] at i1 i2 i3 i4
        refine ⟨by simpa using i1, i2, i3, visitCalls dt (s.w.getState q) q ++ d,
          by simp [i4, k4], ?_, ?_⟩
        · intro hc
          rcases List.mem_append.1 hc with hc | hc
          · have := (visitCalls_not_stopped dt _ q h).2 _ hc
            exact hqp (by simpa [Call.target] using this.symm)
          · exact i5 hc
        · intro hm
          rcases List.mem_cons.1 hm with hm | hm
          · exact absurd hm hpq
          · exact List.mem_append_right _ (i6 hm)

/-- An update call entered with the state at `p` already STOPPED (and not yet
passed): `p` is removed, gets `onStop` exactly once if it is still ahead, and
gets neither `onRun` nor `onPause`. -/
theorem advance_selfStop_second (cb : Callbacks) (dt : float) (p : Ptr) (H : cb.SelfStops p) :
    ∀ (rest pre : List Ptr) (s : Sys), s.w.gameStack = pre ++ rest → (pre ++ rest).Nodup →
      s.w.getState p = LS_GAME_STOPPED → p ∉ pre →
      p ∉ (advance cb dt rest pre.length s).w.gameStack ∧
      ∃ d, (advance cb dt rest pre.length s).log = s.log ++ d ∧
        d.count (Call.onStop p) = (if p ∈ rest then 1 else 0) ∧
        ∀ c ∈ d, c.isRunOrPause = true → c.target ≠ p := by
  intro rest
  induction rest with
  | nil =>
    intro pre s hs _ _ hpre
    simp only [List.append_nil] at hs
    exact ⟨by simpa [advance, hs] using hpre, [], by simp [advance], by simp, by simp⟩
  | cons q rest ih =>
    intro pre s hs hnd ht hpre
    have hnd1 : ((pre ++ [q]) ++ rest).Nodup := by simpa using hnd
    have hnd2 : (pre ++ rest).Nodup := by
      have : (pre ++ rest).Sublist (pre ++ q :: rest) :=
        List.Sublist.append_left (List.sublist_cons_self q rest) pre
      exact hnd.sublist this
    have hqrest : q ∉ rest := by
      have := (List.nodup_append.1 hnd).2.1
      exact (List.nodup_cons.1 this).1
    have hpl : (pre ++ [q]).length = pre.length + 1 := by simp
    by_cases h : s.w.getState q = LS_GAME_STOPPED
    · rw [advance_cons_stop cb dt q rest pre.length s h]
      obtain ⟨e1, e2, _⟩ := popEffect_schedule cb s pre rest q hs (H.1 q s.w)
      have ht1 : (popEffect cb pre.length q s).w.getState p = LS_GAME_STOPPED := by
        rw [popEffect_getState_of_ne_paused cb s pre rest q p hs (H.1 q s.w)
          (by rw [ht]; decide)]
        exact ht
      obtain ⟨i1, d, i2, i3, i4⟩ := ih pre (popEffect cb pre.length q s) e1 hnd2 ht1 hpre
      refine ⟨i1, [Call.onStop q, Call.delete q] ++ d, by simp [i2, e2], ?_, ?_⟩
      · by_cases hqp : q = p
        · subst hqp
          simp [List.count_cons, i3, hqrest]
        · have hpq : ¬ p = q := fun hh => hqp hh.symm
          simp [List.count_cons, i3, hqp, hpq]
      · intro c hc hr
        rcases List.mem_append.1 hc with hc | hc
        · simp at hc
          rcases hc with hc | hc <;> subst hc <;> simp [Call.isRunOrPause] at hr
        · exact i4 c hc hr
    · have hqp : q ≠ p := by
        intro hh; subst hh; exact h ht
      have hpq : ¬ p = q := fun hh => hqp hh.symm
      obtain ⟨s1, k1, k2, k3, k4⟩ := advance_cons_keep_local cb dt q rest pre.length s h
        (fun _ => H.2.2.1 q dt s.w hqp) (H.2.1 q dt s.w)
      rw [k1]
      obtain ⟨i1, d, i2, i3, i4⟩ := ih (pre ++ [q]) s1 (by rw [k2, hs]; simp) hnd1
        (by rw [k3]; exact ht)
        (by
          intro hm
          rcases List.mem_append.1 hm with hm | hm
          · exact hpre hm
          · exact hpq (List.mem_singleton.1 hm))
      rw [hpl] at i1 i2
      obtain ⟨_, v2⟩ := visitCalls_not_stopped dt (s.w.getState q) q h
      have hcount : (visitCalls dt (s.w.getState q) q).count (Call.onStop p) = 0 := by
        apply List.count_eq_zero.2
        intro hc
        have := v2 _ hc
        exact hpq (by simpa [Call.target] using this)
      refine ⟨i1, visitCalls dt (s.w.getState q) q ++ d, by simp [i2, k4], ?_, ?_⟩
      · rw [List.count_append, hcount, i3]
        simp [hpq]
      · intro c hc hr
        rcases List.mem_append.1 hc with hc | hc
        · rw [v2 c hc]; exact hqp
        · exact i4 c hc hr

/-- The claim C7 as stated fails on `[1 : RUNNING]` when `onRun` of state 1
sets its own tag to STOPPED: at the end of the call in which that `onRun` ran,
state 1 is still on the stack and has had no `onStop`. -/
theorem updateGameStates_selfStop_counterexample :
    (selfStopCallbacks 1).SelfStops 1 ∧
    (sysOf [(1, LS_GAME_RUNNING)]).w.getState 1 = LS_GAME_RUNNING ∧
    ∃ s1, updateGameStates false (selfStopCallbacks 1) 2 dt16 (sysOf [(1, LS_GAME_RUNNING)])
        = .ok s1 ∧
      s1.log = [Call.onRun 1 dt16] ∧ s1.w.gameStack = [1] ∧
      s1.w.getState 1 = LS_GAME_STOPPED ∧ Call.onStop 1 ∉ s1.log :=
  ⟨selfStopCallbacks_selfStops 1, by decide, _, rfl, by decide, by decide, by decide, by decide⟩

/-- C7 (amended): on a stack of distinct states (fewer than 2^32) holding a
state `p` with tag RUNNING whose `onRun` sets its own tag to STOPPED, the other
callbacks being inert, the `updateGameStates` call in which that `onRun` runs
returns with `p` still on the stack, tagged STOPPED, and without any `onStop`
on `p`; the next `updateGameStates` call returns having called `onStop` on `p`
exactly once and removed it, with no `onRun` or `onPause` on `p`. -/
theorem updateGameStates_selfStop (dbg : Bool) (cb : Callbacks) (fuel : Nat) (dt : float)
    (s : Sys) (p : Ptr) (H : cb.SelfStops p) (hp : p ∈ s.w.gameStack)
    (ht : s.w.getState p = LS_GAME_RUNNING) (hnd : s.w.gameStack.Nodup)
    (hlen : s.w.gameStack.length < 2 ^ 32) (hfuel : s.w.gameStack.length < fuel) :
    ∃ s1, updateGameStates dbg cb fuel dt s = .ok s1 ∧
      p ∈ s1.w.gameStack ∧ s1.w.getState p = LS_GAME_STOPPED ∧
      (∃ d, s1.log = s.log ++ d ∧ Call.onRun p dt ∈ d ∧ Call.onStop p ∉ d) ∧
      ∀ dt2, ∃ s2, updateGameStates dbg cb fuel dt2 s1 = .ok s2 ∧
        p ∉ s2.w.gameStack ∧
        ∃ d2, s2.log = s1.log ++ d2 ∧ d2.count (Call.onStop p) = 1 ∧
          ∀ c ∈ d2, c.isRunOrPause = true → c.target ≠ p := by
  obtain ⟨a1, a2, a3, d, a4, a5, a6⟩ := advance_selfStop_first cb dt p H s.w.gameStack [] s
    (by simp) (by simpa using hnd) (fun _ => ht) (fun h => by cases h) (by simpa using hp)
  simp only [List.length_nil, List.nil_append] at a1 a2 a3 a4
  have hle : (advance cb dt s.w.gameStack 0 s).w.gameStack.length ≤ s.w.gameStack.length :=
    a1.length_le
  refine ⟨_, updateGameStates_eq_advance dbg cb fuel dt s (selfStops_keepsStack H) hlen hfuel, a2, a3,
    ⟨d, a4, a6 hp, a5⟩, ?_⟩
  intro dt2
  obtain ⟨b1, d2, b2, b3, b4⟩ := advance_selfStop_second cb dt2 p H
    (advance cb dt s.w.gameStack 0 s).w.gameStack [] (advance cb dt s.w.gameStack 0 s)
    (by simp) (by simpa using hnd.sublist a1) a3 (by simp)
  simp only [List.length_nil] at b1 b2
  refine ⟨_, updateGameStates_eq_advance dbg cb fuel dt2 _ (selfStops_keepsStack H)
    (lt_of_le_of_lt hle hlen) (lt_of_le_of_lt hle hfuel), b1, d2, b2, ?_, b4⟩
  rw [b3]; simp [a2]

/-- Witness for C7 (amended): `[1 : PAUSED, 2 : RUNNING]`, state 2 stopping
itself. -/
theorem updateGameStates_selfStop_witness :
    ((selfStopCallbacks 2).SelfStops 2 ∧
      (sysOf [(1, LS_GAME_PAUSED), (2, LS_GAME_RUNNING)]).w.getState 2 = LS_GAME_RUNNING ∧
      (sysOf [(1, LS_GAME_PAUSED), (2, LS_GAME_RUNNING)]).w.gameStack.Nodup) ∧
    ∃ s1, updateGameStates false (selfStopCallbacks 2) 3 dt16
        (sysOf [(1, LS_GAME_PAUSED), (2, LS_GAME_RUNNING)]) = .ok s1 ∧
      2 ∈ s1.w.gameStack ∧ s1.w.getState 2 = LS_GAME_STOPPED ∧
      ∃ s2, updateGameStates false (selfStopCallbacks 2) 3 dt16 s1 = .ok s2 ∧
        2 ∉ s2.w.gameStack := by
  obtain ⟨s1, h1, h2, h3, _, h5⟩ := updateGameStates_selfStop false (selfStopCallbacks 2) 3 dt16
    (sysOf [(1, LS_GAME_PAUSED), (2, LS_GAME_RUNNING)]) 2 (selfStopCallbacks_selfStops 2)
    (by decide) (by decide) (by decide) (by decide) (by decide)
  obtain ⟨s2, g1, g2, _⟩ := h5 dt16
  exact ⟨⟨selfStopCallbacks_selfStops 2, by decide, by decide⟩, s1, h1, h2, h3, s2, g1, g2⟩

/-! ## Hardware events -/

/-- One routed event logs at most one call, a hardware-event callback on the
state it was routed to. -/
theorem passHardwareEvents_log (cb : Callbacks) (e : SDL_Event) (pState : Ptr) (s : Sys) :
    ∃ d, (passHardwareEvents cb e pState s).log = s.log ++ d ∧ d.length ≤ 1 ∧
      ∀ c ∈ d, c.isHardware = true ∧ c.target = pState := by
  unfold passHardwareEvents
  cases e.type <;>
    first
    | (refine ⟨[_], rfl, ?_, ?_⟩ <;> simp [Call.isHardware, Call.target])
    | (refine ⟨[], ?_, ?_, ?_⟩ <;> simp [stop])

theorem passHardwareEvents_stack (cb : Callbacks) (hk : cb.EventsKeepStack) (e : SDL_Event)
    (pState : Ptr) (s : Sys) :
    (passHardwareEvents cb e pState s).w.gameStack = s.w.gameStack := by
  obtain ⟨h1, h2, h3, h4, h5, h6, h7, h8⟩ := hk
  unfold passHardwareEvents
  cases e.type <;> simp [(stop_schedule s).1, h1, h2, h3, h4, h5, h6, h7, h8]

/-- Draining a queue of events on a stack whose last element is `top`. -/
theorem pollEvents_top (cb : Callbacks) (hk : cb.EventsKeepStack) (top : Ptr) :
    ∀ (queue : List SDL_Event) (s : Sys), s.w.gameStack.getLast? = some top →
      ∃ s1, pollEvents cb queue s = .ok s1 ∧ s1.w.gameStack = s.w.gameStack ∧
        ∃ d, s1.log = s.log ++ d ∧ d.length ≤ queue.length ∧
          ∀ c ∈ d, c.isHardware = true ∧ c.target = top := by
  intro queue
  induction queue with
  | nil => intro s _; exact ⟨s, rfl, rfl, [], by simp, by simp, by simp⟩
  | cons e queue ih =>
    intro s hs
    have hst := passHardwareEvents_stack cb hk e top s
    obtain ⟨d0, l1, l2, l3⟩ := passHardwareEvents_log cb e top s
    obtain ⟨s1, i1, i2, d, i3, i4, i5⟩ := ih (passHardwareEvents cb e top s) (by rw [hst]; exact hs)
    refine ⟨s1, ?_, by rw [i2, hst], d0 ++ d, by rw [i3, l1]; simp, by simp; omega, ?_⟩
    · rw [pollEvents]; simp only [hs]; exact i1
    · intro c hc
      rcases List.mem_append.1 hc with hc | hc
      · exact l3 c hc
      · exact i5 c hc

/-- The log of one routed event is the call its kind selects, if any. -/
theorem passHardwareEvents_log_eq (cb : Callbacks) (e : SDL_Event) (pState : Ptr) (s : Sys) :
    (passHardwareEvents cb e pState s).log = s.log ++ (callbackFor e pState).toList := by
  unfold passHardwareEvents callbackFor
  cases e.type <;> simp [stop]

/-- Routing reads no tag.  On a stack whose last element is `top`, with any
tag (STOPPED included, as after an earlier quit event in the same drain),
routing an event of a kind the `switch` dispatches (window, key up, key down,
text input, mouse motion, mouse button up or down, mouse wheel) returns having
invoked exactly the callback of that kind, once, on `top`; a quit event and
the kinds without a `case` invoke nothing. -/
theorem pollEvents_stopped_top (cb : Callbacks) (e : SDL_Event) (s : Sys) (top : Ptr)
    (hs : s.w.gameStack.getLast? = some top) :
    ∃ s1, pollEvents cb [e] s = .ok s1 ∧
      s1.log = s.log ++ (callbackFor e top).toList ∧
      (∀ c, callbackFor e top = some c → c.isHardware = true ∧ c.target = top) ∧
      (e.type = .SDL_WINDOWEVENT ∨ e.type = .SDL_KEYUP ∨ e.type = .SDL_KEYDOWN ∨
        e.type = .SDL_TEXTINPUT ∨ e.type = .SDL_MOUSEMOTION ∨ e.type = .SDL_MOUSEBUTTONUP ∨
        e.type = .SDL_MOUSEBUTTONDOWN ∨ e.type = .SDL_MOUSEWHEEL →
        ∃ c, callbackFor e top = some c) ∧
      (e.type = .SDL_QUIT → callbackFor e top = none) := by
  refine ⟨passHardwareEvents cb e top s, ?_, passHardwareEvents_log_eq cb e top s, ?_, ?_, ?_⟩
  · simp [pollEvents, hs]
  · intro c hc
    unfold callbackFor at hc
    cases he : e.type <;> simp [he] at hc <;> subst hc <;> simp [Call.isHardware, Call.target]
  · intro he
    unfold callbackFor
    rcases he with he | he | he | he | he | he | he | he <;> simp [he]
  · intro he
    simp [callbackFor, he]

/-- C11, evaluated where the code departs from it: `run()` hands every polled
event to `gameStack.back()` and `passHardwareEvents` reads no tag.  On
`[1 : RUNNING]` a quit event alone leaves state 1 STOPPED with no callback, and
the following update tears it down (`onStop`, `delete`, empty stack).  With a
Space key-down behind the quit event in the same drain, the key callback is
still invoked on the STOPPED state; the key handler of `fbState` then sets the
tag back to RUNNING, so the following update runs the state (`onRun`) and
leaves it on the stack: the quit is lost. -/
theorem pollEvents_quit_then_key_revives :
    (∃ s1, pollEvents fbCallbacks [quitEvent] (sysOf [(1, LS_GAME_RUNNING)]) = .ok s1 ∧
      s1.w.gameStack.getLast? = some 1 ∧ s1.w.getState 1 = LS_GAME_STOPPED ∧ s1.log = [] ∧
      (∃ s2, pollEvents fbCallbacks [keyDownSpace] s1 = .ok s2 ∧
        s2.log = [Call.onKeyboardDownEvent 1 keyDownSpace] ∧
        s2.w.getState 1 = LS_GAME_RUNNING) ∧
      ∃ s3, updateGameStates false fbCallbacks 2 dt16 s1 = .ok s3 ∧
        s3.w.gameStack = [] ∧ s3.log = [Call.onStop 1, Call.delete 1]) ∧
    (∃ s1, pollEvents fbCallbacks [quitEvent, keyDownSpace] (sysOf [(1, LS_GAME_RUNNING)])
        = .ok s1 ∧
      s1.log = [Call.onKeyboardDownEvent 1 keyDownSpace] ∧
      s1.w.getState 1 = LS_GAME_RUNNING ∧
      ∃ s3, updateGameStates false fbCallbacks 2 dt16 s1 = .ok s3 ∧
        s3.w.gameStack = [1] ∧
        s3.log = [Call.onKeyboardDownEvent 1 keyDownSpace, Call.onRun 1 dt16]) ∧
    (∃ s1, pollEvents plainCallbacks [quitEvent, keyDownSpace] (sysOf [(1, LS_GAME_RUNNING)])
        = .ok s1 ∧
      s1.w.getState 1 = LS_GAME_STOPPED ∧
      s1.log = [Call.onKeyboardDownEvent 1 keyDownSpace]) :=
  ⟨⟨_, rfl, by decide, by decide, by decide, ⟨_, rfl, by decide, by decide⟩,
      _, rfl, by decide, by decide⟩,
    ⟨_, rfl, by decide, by decide, _, rfl, by decide, by decide⟩,
    ⟨_, rfl, by decide, by decide⟩⟩

/-! ## At most one RUNNING state -/

theorem getElem?_split {l : List Ptr} {i : Nat} {p : Ptr} (h : l[i]? = some p) :
    ∃ pre rest, l = pre ++ p :: rest ∧ pre.length = i := by
  induction l generalizing i with
  | nil => simp at h
  | cons a l ih =>
    cases i with
    | zero =>
      simp at h
      exact ⟨[], l, by simp [h], rfl⟩
    | succ i =>
      simp at h
      obtain ⟨pre, rest, h1, h2⟩ := ih h
      exact ⟨a :: pre, rest, by simp [h1], by simp [h2]⟩

/-- What an index pop that returns has done, when `onStop` leaves the stack
alone: nothing (out of range, in a build with `LS_DEBUG`), or the pop of the
entry at `index`. -/
theorem popGameState_index_ok (dbg : Bool) (cb : Callbacks) (index : Nat) (s s1 : Sys)
    (hk : ∀ p w, (cb.onStop p w).gameStack = w.gameStack)
    (h : popGameState_index dbg cb index s = .ok s1) :
    (s1 = s ∧ dbg = true ∧ s.w.gameStack.length ≤ index) ∨
    ∃ pre p rest, s.w.gameStack = pre ++ p :: rest ∧ pre.length = index ∧
      s1 = popEffect cb pre.length p s := by
  cases hget : s.w.gameStack[index]? with
  | none =>
    left
    unfold popGameState_index at h
    split at h
    · rename_i hg
      simp at hg
      exact ⟨by injection h with h; exact h.symm, hg.1, hg.2⟩
    · simp [hget] at h
  | some p =>
    obtain ⟨pre, rest, h1, h2⟩ := getElem?_split hget
    right
    subst h2
    rw [popGameState_index_eq_popEffect dbg cb s pre rest p h1 (hk p s.w)] at h
    injection h with h
    exact ⟨pre, p, rest, h1, rfl, h.symm⟩

theorem oneRunning_of_sameSchedule {w w1 : World} (h : w.sameSchedule w1)
    (hinv : w.oneRunning) : w1.oneRunning := by
  obtain ⟨h1, h2⟩ := h
  unfold World.oneRunning
  rw [h1]
  refine ⟨hinv.1, fun p hp ht => hinv.2 p hp ?_⟩
  rw [← h2 p]; exact ht

/-- A pop keeps the scheduling invariant. -/
theorem oneRunning_popEffect (cb : Callbacks) (s : Sys) (pre rest : List Ptr) (p : Ptr)
    (hs : s.w.gameStack = pre ++ p :: rest) (hquiet : s.w.sameSchedule (cb.onStop p s.w))
    (hinv : s.w.oneRunning) : (popEffect cb pre.length p s).w.oneRunning := by
  obtain ⟨e1, _, e3⟩ := popEffect_schedule cb s pre rest p hs hquiet
  obtain ⟨hnd, hrun⟩ := hinv
  rw [hs] at hnd hrun
  have hsub : (pre ++ rest).Sublist (pre ++ p :: rest) :=
    List.Sublist.append_left (List.sublist_cons_self p rest) pre
  unfold World.oneRunning
  rw [e1]
  refine ⟨hnd.sublist hsub, ?_⟩
  intro q hq ht
  rw [e3 q] at ht
  by_cases hc : (pre ++ rest).getLast? = some q ∧ s.w.getState q = LS_GAME_PAUSED
  · exact hc.1
  · rw [if_neg hc] at ht
    have hlast := hrun q (hsub.subset hq) ht
    cases rest with
    | nil =>
      exfalso
      simp at hlast
      subst hlast
      simp at hq
      exact (List.nodup_append.1 hnd).2.2 hq (List.mem_singleton_self _)
    | cons a r =>
      rw [List.getLast?_append] at hlast ⊢
      simpa [List.getLast?_cons_cons] using hlast

theorem oneRunning_popGameState_index (dbg : Bool) (cb : Callbacks) (hi : cb.Inert)
    (index : Nat) (s s1 : Sys) (h : popGameState_index dbg cb index s = .ok s1)
    (hinv : s.w.oneRunning) : s1.w.oneRunning := by
  rcases popGameState_index_ok dbg cb index s s1 (inert_keepsStack hi).1 h with
    ⟨h1, _, _⟩ | ⟨pre, p, rest, h1, _, h3⟩
  · rw [h1]; exact hinv
  · rw [h3]; exact oneRunning_popEffect cb s pre rest p h1 (hi.1 p s.w) hinv

theorem oneRunning_updateLoop (dbg : Bool) (cb : Callbacks) (hi : cb.Inert) (dt : float) :
    ∀ (fuel i : Nat) (s s1 : Sys), updateLoop dbg cb dt fuel i s = .ok s1 →
      s.w.oneRunning → s1.w.oneRunning := by
  intro fuel
  induction fuel with
  | zero => intro i s s1 h; simp [updateLoop] at h
  | succ fuel ih =>
    intro i s s1 h hinv
    rw [updateLoop] at h
    split at h
    · cases hget : s.w.gameStack[i]? with
      | none => simp [hget] at h
      | some p =>
        simp only [hget] at h
        cases ht : s.w.getState p with
        | LS_GAME_RUNNING =>
          simp only [ht] at h
          exact ih _ _ _ h (oneRunning_of_sameSchedule (hi.2.1 p dt s.w) hinv)
        | LS_GAME_PAUSED =>
          simp only [ht] at h
          exact ih _ _ _ h (oneRunning_of_sameSchedule (hi.2.2 p dt s.w) hinv)
        | LS_GAME_STOPPED =>
          simp only [ht] at h
          cases hpop : popGameState_index dbg cb i s with
          | error f => simp [hpop] at h
          | ok s2 =>
            simp only [hpop] at h
            exact ih _ _ _ h (oneRunning_popGameState_index dbg cb hi i s s2 hpop hinv)
        | LS_GAME_INVALID =>
          simp only [ht] at h
          exact ih _ _ _ h hinv
        | LS_GAME_INIT =>
          simp only [ht] at h
          exact ih _ _ _ h hinv
    · injection h with h
      rw [← h]; exact hinv

theorem oneRunning_popPtrLoop (dbg : Bool) (cb : Callbacks) (hi : cb.Inert) (pState : Ptr) :
    ∀ (fuel i : Nat) (s s1 : Sys), popPtrLoop dbg cb pState fuel i s = .ok s1 →
      s.w.oneRunning → s1.w.oneRunning := by
  intro fuel
  induction fuel with
  | zero => intro i s s1 h; simp [popPtrLoop] at h
  | succ fuel ih =>
    intro i s s1 h hinv
    rw [popPtrLoop] at h
    split at h
    · cases hget : s.w.gameStack[i]? with
      | none => simp [hget] at h
      | some q =>
        simp only [hget] at h
        split at h
        · exact oneRunning_popGameState_index dbg cb hi i s s1 h hinv
        · exact ih _ _ _ h hinv
    · injection h with h
      rw [← h]; exact hinv

theorem oneRunning_pushGameState (cb : Callbacks) (hq : cb.StartQuiet) (x : Ptr) (s : Sys)
    (hnew : x ∉ s.w.gameStack) (hinv : s.w.oneRunning) :
    (pushGameState cb x s).2.w.oneRunning := by
  by_cases hx : x = nullptr
  · simp [pushGameState, hx]; exact hinv
  · cases hstart : (cb.onStart x s.w).1 with
    | false =>
      have : (pushGameState cb x s).2.w = (cb.onStart x s.w).2 := by
        unfold pushGameState; simp [hx, hstart]
      rw [this]
      exact oneRunning_of_sameSchedule (hq x s.w) hinv
    | true =>
      obtain ⟨_, h2, h3⟩ := pushGameState_schedule cb x s hx hstart (hq x s.w)
      unfold World.oneRunning
      rw [h2]
      refine ⟨?_, ?_⟩
      · exact List.nodup_append.2 ⟨hinv.1, List.nodup_singleton x,
          fun a ha hb => hnew (by rw [List.mem_singleton] at hb; rw [← hb]; exact ha)⟩
      · intro p hp ht
        rw [h3 p] at ht
        by_cases hpx : p = x
        · simp [hpx]
        · rw [if_neg hpx] at ht
          have hps : p ∈ s.w.gameStack := by
            rcases List.mem_append.1 hp with h | h
            · exact h
            · exact absurd (List.mem_singleton.1 h) hpx
          by_cases hl : s.w.gameStack.getLast? = some p
          · rw [if_pos hl] at ht; cases ht
          · rw [if_neg hl] at ht
            exact absurd (hinv.2 p hps ht) hl

theorem oneRunning_stop (s : Sys) (hinv : s.w.oneRunning) : (stop s).w.oneRunning := by
  obtain ⟨h1, _, h3⟩ := stop_schedule s
  unfold World.oneRunning
  rw [h1]
  refine ⟨hinv.1, ?_⟩
  intro p hp ht
  rw [h3 p, if_pos hp] at ht
  cases ht

/-- Every reachable system satisfies the scheduling invariant. -/
theorem reachable_oneRunning (dbg : Bool) (cb : Callbacks) (hq : cb.StartQuiet)
    (hi : cb.Inert) (s : Sys) (h : Reachable dbg cb s) : s.w.oneRunning := by
  induction h with
  | empty s hs => simp [World.oneRunning, hs]
  | push s x _ hnew ih => exact oneRunning_pushGameState cb hq x s hnew ih
  | pop s s1 _ hpop ih =>
    unfold popGameState at hpop
    split at hpop
    · exact oneRunning_popGameState_index dbg cb hi _ s s1 hpop ih
    · injection hpop with hpop
      rw [← hpop]; exact ih
  | popIndex s s1 index _ hpop ih =>
    exact oneRunning_popGameState_index dbg cb hi index s s1 hpop ih
  | popState s s1 fuel pState _ hpop ih =>
    exact oneRunning_popPtrLoop dbg cb hi pState fuel 0 s s1 hpop ih
  | stopAll s _ ih => exact oneRunning_stop s ih
  | update s s1 fuel dt _ hupd ih =>
    exact oneRunning_updateLoop dbg cb hi dt fuel 0 s s1 hupd ih

theorem length_le_one_of_all_eq {l : List Ptr} (hnd : l.Nodup) (b : Ptr)
    (h : ∀ a ∈ l, a = b) : l.length ≤ 1 := by
  match l, hnd, h with
  | [], _, _ => simp
  | [_], _, _ => simp
  | a :: c :: r, hnd, h =>
    exfalso
    have h1 := h a (by simp)
    have h2 := h c (by simp)
    rw [h1, h2] at hnd
    simp at hnd

/-- C12: in every system reachable from an empty stack by pushes (of states
the scheduler does not hold yet), the three forms of pop, `stop()` and
`updateGameStates`, with callbacks that change neither tags nor the stack, at
most one element of the stack has tag RUNNING, and an element with tag RUNNING
is the last element of the stack. -/
theorem reachable_one_running (dbg : Bool) (cb : Callbacks) (s : Sys)
    (hq : cb.StartQuiet) (hi : cb.Inert) (h : Reachable dbg cb s) :
    (s.w.gameStack.filter (fun p => decide (s.w.getState p = LS_GAME_RUNNING))).length ≤ 1 ∧
    (∀ p ∈ s.w.gameStack, s.w.getState p = LS_GAME_RUNNING →
      s.w.gameStack.getLast? = some p) ∧
    s.w.gameStack.Nodup := by
  obtain ⟨hnd, hrun⟩ := reachable_oneRunning dbg cb hq hi s h
  refine ⟨?_, hrun, hnd⟩
  cases hl : s.w.gameStack.getLast? with
  | none =>
    rw [List.getLast?_eq_none_iff.1 hl]; simp
  | some b =>
    apply length_le_one_of_all_eq (hnd.filter _) b
    intro a ha
    rw [List.mem_filter] at ha
    have := hrun a ha.1 (by simpa using ha.2)
    rw [hl] at this
    injection this with this
    exact this.symm

theorem plainCallbacks_startQuiet : plainCallbacks.StartQuiet :=
  fun _ _ => ⟨rfl, fun _ => rfl⟩

/-- Witness for C12: push 1, push 2, `stop()`, push 3, then pop index 0. -/
theorem reachable_one_running_witness :
    ∃ s, popGameState_index false plainCallbacks 0
        (pushGameState plainCallbacks 3 (stop (pushGameState plainCallbacks 2
          (pushGameState plainCallbacks 1 (sysOf [])).2).2)).2 = .ok s ∧
      Reachable false plainCallbacks s ∧ s.w.gameStack = [2, 3] ∧
      s.w.getState 3 = LS_GAME_RUNNING ∧
      (s.w.gameStack.filter (fun p => decide (s.w.getState p = LS_GAME_RUNNING))).length ≤ 1 := by
  have r0 : Reachable false plainCallbacks (sysOf []) := Reachable.empty _ rfl
  have r1 := Reachable.push (sysOf []) 1 r0 (by decide)
  have r2 := Reachable.push _ 2 r1 (by decide)
  have r3 := Reachable.stopAll _ r2
  have r4 := Reachable.push _ 3 r3 (by decide)
  have hr := Reachable.popIndex _ (popEffect plainCallbacks 0 1
      (pushGameState plainCallbacks 3 (stop (pushGameState plainCallbacks 2
        (pushGameState plainCallbacks 1 (sysOf [])).2).2)).2) 0 r4 rfl
  exact ⟨_, rfl, hr, by decide, by decide,
    (reachable_one_running false plainCallbacks _ plainCallbacks_startQuiet
      plainCallbacks_inert hr).1⟩

/-! ## Terminate -/

/-- The loop of `terminate` entered with `1 ≤ i ≤ size`: it returns, having
set to STOPPED exactly the states at the indices `1 .. i-1`. -/
theorem terminateLoop_tags :
    ∀ (fuel i : Nat) (w : World), 1 ≤ i → i ≤ w.gameStack.length →
      w.gameStack.length < 2 ^ 32 → i ≤ fuel →
      ∃ w1, terminateLoop fuel i w = .ok w1 ∧ w1.gameStack = w.gameStack ∧
        w1.prevTime = w.prevTime ∧
        (∀ j p, 1 ≤ j → j < i → w.gameStack[j]? = some p → w1.getState p = LS_GAME_STOPPED) ∧
        (∀ q, (∀ j, 1 ≤ j → j < i → w.gameStack[j]? ≠ some q) →
          w1.getState q = w.getState q) := by
  intro fuel
  induction fuel with
  | zero => intro i w h1 _ _ h0; omega
  | succ fuel ih =>
    intro i w h1 hle hlen hf
    have hdec : (i + 2 ^ 32 - 1) % 2 ^ 32 = i - 1 := by omega
    rw [terminateLoop, hdec]
    by_cases h0 : i - 1 = 0
    · simp only [h0, ne_eq, not_true_eq_false, if_false]
      refine ⟨w, rfl, rfl, rfl, ?_, fun _ _ => rfl⟩
      intro j p hj1 hj2; omega
    · simp only [h0, ne_eq, not_false_eq_true, if_true]
      have hlt : i - 1 < w.gameStack.length := by omega
      obtain ⟨p, hp⟩ : ∃ p, w.gameStack[i - 1]? = some p :=
        ⟨w.gameStack[i - 1], List.getElem?_eq_getElem hlt⟩
      simp only [hp]
      obtain ⟨w1, e1, e2, e3, e4, e5⟩ := ih (i - 1) (w.setState p LS_GAME_STOPPED) (by omega)
        (by simpa using le_of_lt hlt) (by simpa using hlen) (by omega)
      simp only [gameStack_setState] at e2 e4 e5
      refine ⟨w1, e1, e2, e3, ?_, ?_⟩
      · intro j q hj1 hj2 hq
        by_cases hj : j < i - 1
        · exact e4 j q hj1 hj hq
        · have hji : j = i - 1 := by omega
          subst hji
          have hqp : p = q := Option.some.inj (hp.symm.trans hq)
          subst hqp
          by_cases hex : ∃ k, 1 ≤ k ∧ k < i - 1 ∧ w.gameStack[k]? = some p
          · obtain ⟨k, k1, k2, k3⟩ := hex
            exact e4 k p k1 k2 k3
          · rw [e5 p (fun k k1 k2 k3 => hex ⟨k, k1, k2, k3⟩)]
            simp
      · intro q hq
        have hqp : q ≠ p := by
          intro h
          subst h
          exact hq (i - 1) (by omega) (by omega) hp
        rw [e5 q (fun k k1 k2 => hq k k1 (by omega))]
        simp [hqp]

/-- C14: on a stack of fewer than 2^32 states `terminate()` returns with the
stack empty and the previous-tick time reset to 0, having called nothing; the
state at every index `1 .. n-1` has tag STOPPED, and a state at no such index
keeps its tag, so with distinct states the one at index 0 keeps its tag.  On
an empty stack it leaves the stack empty. -/
theorem terminate_tags (fuel : Nat) (s : Sys)
    (hlen : s.w.gameStack.length < 2 ^ 32) (hfuel : s.w.gameStack.length ≤ fuel) :
    ∃ s1, terminate fuel s = .ok s1 ∧ s1.w.gameStack = [] ∧ s1.w.prevTime = float.zero ∧
      s1.log = s.log ∧
      (∀ j p, 1 ≤ j → s.w.gameStack[j]? = some p → s1.w.getState p = LS_GAME_STOPPED) ∧
      (∀ q, (∀ j, 1 ≤ j → s.w.gameStack[j]? ≠ some q) → s1.w.getState q = s.w.getState q) ∧
      (s.w.gameStack.Nodup → ∀ p, s.w.gameStack[0]? = some p →
        s1.w.getState p = s.w.getState p) := by
  by_cases h0 : s.w.gameStack.length = 0
  · have hnil : s.w.gameStack = [] := List.length_eq_zero.1 h0
    refine ⟨{ s with w := { s.w with prevTime := float.zero } }, by simp [terminate, h0], hnil,
      rfl, rfl, ?_, fun _ _ => rfl, fun _ _ _ => rfl⟩
    intro j p _ hp
    simp [hnil] at hp
  · obtain ⟨w1, e1, _, e3, e4, e5⟩ := terminateLoop_tags fuel s.w.gameStack.length
      { s.w with prevTime := float.zero } (by omega) (le_refl _) hlen hfuel
    have hmod : s.w.gameStack.length % 2 ^ 32 = s.w.gameStack.length := Nat.mod_eq_of_lt hlen
    have key : ∀ q, (∀ j, 1 ≤ j → s.w.gameStack[j]? ≠ some q) →
        w1.getState q = s.w.getState q := by
      intro q hq
      exact e5 q (fun j hj _ => hq j hj)
    refine ⟨{ s with w := { w1 with gameStack := [] } }, ?_, rfl, e3, rfl, ?_, key, ?_⟩
    · simp only [terminate, h0, if_false, hmod, e1]
    · intro j p hj hp
      have hjl : j < s.w.gameStack.length := by
        by_contra hc
        rw [List.getElem?_eq_none (by omega)] at hp
        cases hp
      exact e4 j p hj hjl hp
    · intro hnd p hp
      apply key
      intro j hj hjp
      have hjl : j < s.w.gameStack.length := by
        by_contra hc
        rw [List.getElem?_eq_none (by omega)] at hjp
        cases hjp
      have h0l : 0 < s.w.gameStack.length := by omega
      rw [List.getElem?_eq_getElem hjl] at hjp
      rw [List.getElem?_eq_getElem h0l] at hp
      injection hjp with hjp
      injection hp with hp
      have := (List.Nodup.getElem_inj_iff hnd).1 (hjp.trans hp.symm)
      omega

/-- Witness for C14: `terminate()` on `[1 : RUNNING, 2 : PAUSED, 3 : RUNNING]`. -/
theorem terminate_tags_witness :
    ((sysOf [(1, LS_GAME_RUNNING), (2, LS_GAME_PAUSED), (3, LS_GAME_RUNNING)]).w.gameStack.length
      < 2 ^ 32) ∧
    ∃ s1, terminate 3 (sysOf [(1, LS_GAME_RUNNING), (2, LS_GAME_PAUSED), (3, LS_GAME_RUNNING)])
        = .ok s1 ∧
      s1.w.gameStack = [] ∧ s1.w.getState 2 = LS_GAME_STOPPED ∧
      s1.w.getState 3 = LS_GAME_STOPPED ∧ s1.w.getState 1 = LS_GAME_RUNNING := by
  obtain ⟨s1, h1, h2, _, _, h5, _, h7⟩ := terminate_tags 3
    (sysOf [(1, LS_GAME_RUNNING), (2, LS_GAME_PAUSED), (3, LS_GAME_RUNNING)])
    (by decide) (by decide)
  exact ⟨by decide, s1, h1, h2, h5 1 2 (by decide) rfl, h5 2 3 (by decide) rfl,
    h7 (by decide) 1 rfl⟩

/-- C13, evaluated where the code departs from it: after state 1 has been
pushed, `terminate()` empties the stack and the log holds no `onStop` (and no
`delete`) of state 1, whereas the sibling path `popGameState()` discards the
same state after `onStop` and `delete`. -/
theorem terminate_discards_without_onStop :
    (∃ s1, terminate 1 (pushGameState plainCallbacks 1 (sysOf [])).2 = .ok s1 ∧
      s1.w.gameStack = [] ∧ s1.log = [Call.onStart 1] ∧
      Call.onStop 1 ∉ s1.log ∧ Call.delete 1 ∉ s1.log) ∧
    (∃ s2, popGameState false plainCallbacks (pushGameState plainCallbacks 1 (sysOf [])).2
        = .ok s2 ∧
      s2.w.gameStack = [] ∧ s2.log = [Call.onStart 1, Call.onStop 1, Call.delete 1]) :=
  ⟨⟨_, rfl, by decide, by decide, by decide, by decide⟩, _, rfl, by decide, by decide⟩

/-! ## Malformed input -/

/-- C15: `pushGameState(nullptr)` returns false and leaves the system as it
was: same stack (length, elements, order), same tags, and nothing logged, so
no callback was invoked. -/
theorem pushGameState_null (cb : Callbacks) (s : Sys) :
    pushGameState cb nullptr s = (false, s) ∧
    (pushGameState cb nullptr s).1 = false ∧
    (pushGameState cb nullptr s).2.w.gameStack = s.w.gameStack ∧
    (∀ q, (pushGameState cb nullptr s).2.w.getState q = s.w.getState q) ∧
    (pushGameState cb nullptr s).2.log = s.log := by
  have h : pushGameState cb nullptr s = (false, s) := by simp [pushGameState]
  rw [h]
  exact ⟨rfl, rfl, rfl, fun _ => rfl, rfl⟩

/-- The claim C16 as stated fails in a build without `LS_DEBUG`: the range
check is compiled out, and `popGameState(0)` on an empty stack (or
`popGameState(5)` on a stack of one) indexes the vector out of range. -/
theorem popGameState_index_range_counterexample :
    popGameState_index false plainCallbacks 0 (sysOf []) = .error .undefinedBehaviour ∧
    popGameState_index false plainCallbacks 5 (sysOf [(1, LS_GAME_RUNNING)])
      = .error .undefinedBehaviour :=
  ⟨rfl, rfl⟩

/-- C16 (amended): in a build that defines `LS_DEBUG`, `popGameState(index)`
with `index` at or beyond the length of the stack returns the system as it
was: nothing logged (no `onStop`), no element removed, no tag changed.  In a
build without `LS_DEBUG` the same call is undefined behaviour. -/
theorem popGameState_index_out_of_range (cb : Callbacks) (index : Nat) (s : Sys)
    (h : s.w.gameStack.length ≤ index) :
    popGameState_index true cb index s = .ok s ∧
    popGameState_index false cb index s = .error .undefinedBehaviour := by
  constructor
  · simp [popGameState_index, h]
  · have : s.w.gameStack[index]? = none := List.getElem?_eq_none h
    simp [popGameState_index, this]

/-- Witness for C16 (amended): index 1 on the stack `[1 : RUNNING]`. -/
theorem popGameState_index_out_of_range_witness :
    (sysOf [(1, LS_GAME_RUNNING)]).w.gameStack.length ≤ 1 ∧
    popGameState_index true plainCallbacks 1 (sysOf [(1, LS_GAME_RUNNING)])
      = .ok (sysOf [(1, LS_GAME_RUNNING)]) :=
  ⟨by decide,
    (popGameState_index_out_of_range plainCallbacks 1 (sysOf [(1, LS_GAME_RUNNING)])
      (by decide)).1⟩

/-! ## Push then pop -/

/-- C17: on a stack (of fewer than 2^32 states) that is empty or whose last
element has tag RUNNING, pushing a non-null state `x` the scheduler does not
hold yet, whose `onStart` returns true, and then calling `popGameState()`
(callbacks of `x` leaving stack and tags alone) yields the stack it started
from: same elements in the same order, each with the tag it had. -/
theorem push_then_pop (dbg : Bool) (cb : Callbacks) (x : Ptr) (s : Sys)
    (hx : x ≠ nullptr) (hnew : x ∉ s.w.gameStack)
    (hstart : (cb.onStart x s.w).1 = true)
    (hquiet : s.w.sameSchedule (cb.onStart x s.w).2)
    (hstop : ∀ w : World, w.sameSchedule (cb.onStop x w))
    (htop : s.w.gameStack = [] ∨
      ∃ b, s.w.gameStack.getLast? = some b ∧ s.w.getState b = LS_GAME_RUNNING)
    (hlen : s.w.gameStack.length < 2 ^ 32) :
    (pushGameState cb x s).1 = true ∧
    ∃ s2, popGameState dbg cb (pushGameState cb x s).2 = .ok s2 ∧
      s2.w.gameStack = s.w.gameStack ∧
      (∀ q ∈ s.w.gameStack, s2.w.getState q = s.w.getState q) ∧
      s2.log = s.log ++ [Call.onStart x, Call.onStop x, Call.delete x] := by
  obtain ⟨p1, p2, p3⟩ := pushGameState_schedule cb x s hx hstart hquiet
  have hlog : (pushGameState cb x s).2.log = s.log ++ [Call.onStart x] := by
    rw [pushGameState_started cb x s hx hstart]
  have hsplit : (pushGameState cb x s).2.w.gameStack = s.w.gameStack ++ x :: [] := p2
  have hpop := popGameState_index_eq_popEffect dbg cb (pushGameState cb x s).2 s.w.gameStack []
    x hsplit (hstop _).1
  obtain ⟨e1, e2, e3⟩ := popEffect_schedule cb (pushGameState cb x s).2 s.w.gameStack [] x
    hsplit (hstop _)
  simp only [List.append_nil] at e1 e3
  refine ⟨p1, popEffect cb s.w.gameStack.length x (pushGameState cb x s).2, ?_, e1, ?_, ?_⟩
  · unfold popGameState
    have hpos : (pushGameState cb x s).2.w.gameStack.length > 0 := by rw [p2]; simp
    have hidx : ((pushGameState cb x s).2.w.gameStack.length - 1) % 2 ^ 32
        = s.w.gameStack.length := by
      rw [p2]
      simp only [List.length_append, List.length_singleton, Nat.add_sub_cancel]
      exact Nat.mod_eq_of_lt hlen
    simp only [hpos, if_true, hidx]
    exact hpop
  · intro q hq
    have hqx : q ≠ x := fun h => hnew (h ▸ hq)
    rw [e3 q, p3 q]
    simp only [hqx, if_false]
    rcases htop with h0 | ⟨b, hb, hrun⟩
    · rw [h0] at hq; cases hq
    · by_cases hqb : s.w.gameStack.getLast? = some q
      · have : b = q := Option.some.inj (hb.symm.trans hqb)
        subst this
        simp [hqb, hrun]
      · simp [hqb]
  · rw [e2, hlog]; simp

/-- Witness for C17: push 1, push 2 gives `[1 : PAUSED, 2 : RUNNING]`, and
popping 2 gives back `[1 : RUNNING]`. -/
theorem push_then_pop_witness :
    ((pushGameState plainCallbacks 1 (sysOf [])).2.w.gameStack = [1] ∧
      (pushGameState plainCallbacks 1 (sysOf [])).2.w.getState 1 = LS_GAME_RUNNING ∧
      (pushGameState plainCallbacks 2 (pushGameState plainCallbacks 1 (sysOf [])).2).2.w.getState 1
        = LS_GAME_PAUSED) ∧
    ∃ s2, popGameState false plainCallbacks
        (pushGameState plainCallbacks 2 (pushGameState plainCallbacks 1 (sysOf [])).2).2 = .ok s2 ∧
      s2.w.gameStack = [1] ∧ s2.w.getState 1 = LS_GAME_RUNNING := by
  obtain ⟨_, s2, h1, h2, h3, _⟩ := push_then_pop false plainCallbacks 2
    (pushGameState plainCallbacks 1 (sysOf [])).2 (by decide) (by decide) rfl
    ⟨rfl, fun _ => rfl⟩ (fun _ => ⟨rfl, fun _ => rfl⟩) (Or.inr ⟨1, by decide, by decide⟩)
    (by decide)
  exact ⟨⟨by decide, by decide, by decide⟩, s2, h1, h2.trans (by decide),
    (h3 1 (by decide)).trans (by decide)⟩

/-! ## A state that stops itself on a key press -/

/-- C18: a single state `a`, pushed successfully on an empty stack (so tagged
RUNNING), whose `onKeyboardDownEvent` sets its own tag to STOPPED.  Routing one
key-down event calls that callback and leaves `a` on the stack with tag
STOPPED and no `onStop`; the next `updateGameStates` call (update callbacks
inert) calls `onStop` on `a` exactly once, neither `onRun` nor `onPause`, and
leaves the stack empty. -/
theorem key_stop_then_update (dbg : Bool) (cb : Callbacks) (fuel : Nat) (dt : float)
    (a : Ptr) (e : SDL_Event) (s0 : Sys)
    (hempty : s0.w.gameStack = []) (ha : a ≠ nullptr)
    (hstart : (cb.onStart a s0.w).1 = true)
    (hquiet : s0.w.sameSchedule (cb.onStart a s0.w).2)
    (hkey : ∀ w : World, (cb.onKeyboardDownEvent a e w).gameStack = w.gameStack ∧
      ∀ q, (cb.onKeyboardDownEvent a e w).getState q =
        if q = a then LS_GAME_STOPPED else w.getState q)
    (hi : cb.Inert) (he : e.type = .SDL_KEYDOWN) (hfuel : 2 ≤ fuel) :
    (pushGameState cb a s0).1 = true ∧
    (pushGameState cb a s0).2.w.gameStack = [a] ∧
    (pushGameState cb a s0).2.w.getState a = LS_GAME_RUNNING ∧
    ∃ s1, pollEvents cb [e] (pushGameState cb a s0).2 = .ok s1 ∧
      s1.w.gameStack = [a] ∧ s1.w.getState a = LS_GAME_STOPPED ∧
      s1.log = (pushGameState cb a s0).2.log ++ [Call.onKeyboardDownEvent a e] ∧
      ∃ s2, updateGameStates dbg cb fuel dt s1 = .ok s2 ∧
        s2.w.gameStack = [] ∧ s2.log = s1.log ++ [Call.onStop a, Call.delete a] := by
  obtain ⟨p1, p2, p3⟩ := pushGameState_schedule cb a s0 ha hstart hquiet
  rw [hempty] at p2
  simp only [List.nil_append] at p2
  have hlast : (pushGameState cb a s0).2.w.gameStack.getLast? = some a := by rw [p2]; rfl
  have hs1 : pollEvents cb [e] (pushGameState cb a s0).2 =
      .ok { w := cb.onKeyboardDownEvent a e (pushGameState cb a s0).2.w,
            log := (pushGameState cb a s0).2.log ++ [Call.onKeyboardDownEvent a e] } := by
    simp [pollEvents, hlast, passHardwareEvents, he]
  obtain ⟨k1, k2⟩ := hkey (pushGameState cb a s0).2.w
  have hst1 : (cb.onKeyboardDownEvent a e (pushGameState cb a s0).2.w).gameStack = [] ++ a :: [] := by
    rw [k1, p2]; rfl
  have htag1 : (cb.onKeyboardDownEvent a e (pushGameState cb a s0).2.w).getState a
      = LS_GAME_STOPPED := by rw [k2]; simp
  refine ⟨p1, p2, by rw [p3]; simp, _, hs1, by rw [k1, p2], htag1, rfl, ?_⟩
  have hupd := updateGameStates_eq_advance dbg cb fuel dt
    { w := cb.onKeyboardDownEvent a e (pushGameState cb a s0).2.w,
      log := (pushGameState cb a s0).2.log ++ [Call.onKeyboardDownEvent a e] }
    (inert_keepsStack hi) (by rw [hst1]; simp) (by rw [hst1]; simpa using hfuel)
  rw [hupd]
  obtain ⟨e1, e2, _⟩ := popEffect_schedule cb
    { w := cb.onKeyboardDownEvent a e (pushGameState cb a s0).2.w,
      log := (pushGameState cb a s0).2.log ++ [Call.onKeyboardDownEvent a e] }
    [] [] a hst1 (hi.1 a _)
  refine ⟨_, rfl, ?_, ?_⟩
  · rw [hst1]
    simp only [List.nil_append]
    rw [advance_cons_stop cb dt a [] 0 _ htag1]
    simpa [advance] using e1
  · rw [hst1]
    simp only [List.nil_append]
    rw [advance_cons_stop cb dt a [] 0 _ htag1]
    simpa [advance] using e2

/-- Witness for C18: state 1 with `keyStopCallbacks 1`. -/
theorem key_stop_then_update_witness :
    ((sysOf []).w.gameStack = [] ∧ keyDownSpace.type = .SDL_KEYDOWN) ∧
    ∃ s1, pollEvents (keyStopCallbacks 1) [keyDownSpace]
        (pushGameState (keyStopCallbacks 1) 1 (sysOf [])).2 = .ok s1 ∧
      s1.w.gameStack = [1] ∧ s1.w.getState 1 = LS_GAME_STOPPED ∧
      ∃ s2, updateGameStates false (keyStopCallbacks 1) 2 dt16 s1 = .ok s2 ∧
        s2.w.gameStack = [] ∧
        s2.log = [Call.onStart 1, Call.onKeyboardDownEvent 1 keyDownSpace, Call.onStop 1,
          Call.delete 1] := by
  obtain ⟨_, _, _, s1, h1, h2, h3, h4, s2, h5, h6, h7⟩ := key_stop_then_update false
    (keyStopCallbacks 1) 2 dt16 1 keyDownSpace (sysOf []) rfl (by decide) rfl
    ⟨rfl, fun _ => rfl⟩ (fun w => by simp [keyStopCallbacks])
    ⟨fun _ _ => ⟨rfl, fun _ => rfl⟩, fun _ _ _ => ⟨rfl, fun _ => rfl⟩,
      fun _ _ _ => ⟨rfl, fun _ => rfl⟩⟩ rfl (by decide)
  refine ⟨⟨rfl, rfl⟩, s1, h1, h2, h3, s2, h5, h6, ?_⟩
  rw [h7, h4]
  decide

/-! ## Pop by index -/

/-- C20: `popGameState(index)` with a valid index (the popped state's `onStop`
leaving stack and tags alone) returns with that entry erased, the remaining
elements in their relative order, and every state other than the new last
element with exactly the tag it had; the new last element changes only from
PAUSED to RUNNING. -/
theorem popGameState_index_frame (dbg : Bool) (cb : Callbacks) (index : Nat) (s : Sys)
    (hidx : index < s.w.gameStack.length)
    (hquiet : ∀ p (w : World), w.sameSchedule (cb.onStop p w)) :
    ∃ s1, popGameState_index dbg cb index s = .ok s1 ∧
      s1.w.gameStack = s.w.gameStack.eraseIdx index ∧
      s1.w.gameStack.Sublist s.w.gameStack ∧
      (∀ q, s1.w.gameStack.getLast? ≠ some q → s1.w.getState q = s.w.getState q) ∧
      (∀ q, s1.w.getState q = s.w.getState q ∨
        (s1.w.gameStack.getLast? = some q ∧ s.w.getState q = LS_GAME_PAUSED ∧
          s1.w.getState q = LS_GAME_RUNNING)) := by
  obtain ⟨p, hp⟩ : ∃ p, s.w.gameStack[index]? = some p := ⟨_, List.getElem?_eq_getElem hidx⟩
  obtain ⟨pre, rest, h1, h2⟩ := getElem?_split hp
  subst h2
  obtain ⟨e1, _, e3⟩ := popEffect_schedule cb s pre rest p h1 (hquiet _ _)
  have herase : s.w.gameStack.eraseIdx pre.length = pre ++ rest := by
    rw [h1]; simp [List.eraseIdx_append_of_length_le]
  refine ⟨_, popGameState_index_eq_popEffect dbg cb s pre rest _ h1 (hquiet _ _).1, ?_, ?_, ?_, ?_⟩
  · rw [e1, herase]
  · rw [e1, ← herase]; exact List.eraseIdx_sublist _ _
  · intro q hq
    rw [e1] at hq
    rw [e3 q, if_neg (fun hc => hq hc.1)]
  · intro q
    rw [e3 q, e1]
    by_cases hc : (pre ++ rest).getLast? = some q ∧ s.w.getState q = LS_GAME_PAUSED
    · rw [if_pos hc]; exact Or.inr ⟨hc.1, hc.2, rfl⟩
    · rw [if_neg hc]; exact Or.inl rfl

/-- Witness for C20: popping index 2 of `[1 : PAUSED, 2 : PAUSED, 3 : RUNNING]`
resumes 2 and leaves 1 PAUSED. -/
theorem popGameState_index_frame_witness :
    (2 < (sysOf [(1, LS_GAME_PAUSED), (2, LS_GAME_PAUSED), (3, LS_GAME_RUNNING)]).w.gameStack.length)
    ∧ ∃ s1, popGameState_index false plainCallbacks 2
        (sysOf [(1, LS_GAME_PAUSED), (2, LS_GAME_PAUSED), (3, LS_GAME_RUNNING)]) = .ok s1 ∧
      s1.w.gameStack = [1, 2] ∧ s1.w.getState 1 = LS_GAME_PAUSED := by
  obtain ⟨s1, h1, h2, _, h4, _⟩ := popGameState_index_frame false plainCallbacks 2
    (sysOf [(1, LS_GAME_PAUSED), (2, LS_GAME_PAUSED), (3, LS_GAME_RUNNING)]) (by decide)
    (fun _ _ => ⟨rfl, fun _ => rfl⟩)
  refine ⟨by decide, s1, h1, h2.trans (by decide), (h4 1 ?_).trans (by decide)⟩
  rw [h2]
  decide

/-! ## The update loop examines every state once -/

/-- The instrumented loop computes the same system as `updateLoop`. -/
theorem updateLoopTrace_fst (dbg : Bool) (cb : Callbacks) (dt : float) :
    ∀ (fuel i : Nat) (s : Sys) (seen : List Ptr),
      (updateLoopTrace dbg cb dt fuel i s seen).map Prod.fst = updateLoop dbg cb dt fuel i s := by
  intro fuel
  induction fuel with
  | zero => intro i s seen; rfl
  | succ fuel ih =>
    intro i s seen
    rw [updateLoopTrace, updateLoop]
    split
    · cases s.w.gameStack[i]? with
      | none => rfl
      | some p =>
        simp only []
        cases s.w.getState p with
        | LS_GAME_STOPPED =>
          simp only []
          cases popGameState_index dbg cb i s with
          | error f => rfl
          | ok s1 => exact ih _ _ _
        | _ => exact ih _ _ _
    · rfl

theorem updateLoopTrace_eq_advance (dbg : Bool) (cb : Callbacks) (dt : float)
    (hk : cb.KeepsStack) :
    ∀ (rest pre : List Ptr) (s : Sys) (fuel : Nat) (seen : List Ptr),
      s.w.gameStack = pre ++ rest → (pre ++ rest).length < 2 ^ 32 → rest.length < fuel →
      updateLoopTrace dbg cb dt fuel pre.length s seen =
        .ok (advance cb dt rest pre.length s, seen ++ rest) := by
  intro rest
  induction rest with
  | nil =>
    intro pre s fuel seen hs _ hf
    cases fuel with
    | zero => omega
    | succ fuel => simp [updateLoopTrace, advance, hs]
  | cons p rest ih =>
    intro pre s fuel seen hs hlen hf
    cases fuel with
    | zero => omega
    | succ fuel =>
      have hget : s.w.gameStack[pre.length]? = some p := by
        rw [hs]; exact getElem?_at_length _ _ _
      have hlt : pre.length < s.w.gameStack.length := by simp [hs]
      have hw : (pre.length + 1) % 2 ^ 32 = pre.length + 1 := by
        apply wrap_succ _ _ _ hlen; simp
      have hpl : (pre ++ [p]).length = pre.length + 1 := by simp
      have hf1 : rest.length < fuel := by simp at hf; omega
      have hlen1 : ((pre ++ [p]) ++ rest).length < 2 ^ 32 := by simpa using hlen
      have hseen : seen ++ p :: rest = (seen ++ [p]) ++ rest := by simp
      rw [updateLoopTrace, advance, hseen]
      simp only [hlt, if_true, hget, hw]
      cases ht : s.w.getState p with
      | LS_GAME_RUNNING =>
        simp only []
        rw [← hpl]
        apply ih (pre ++ [p]) _ fuel _ _ hlen1 hf1
        simp [hk.2.1, hs]
      | LS_GAME_PAUSED =>
        simp only []
        rw [← hpl]
        apply ih (pre ++ [p]) _ fuel _ _ hlen1 hf1
        simp [hk.2.2, hs]
      | LS_GAME_STOPPED =>
        simp only []
        rw [popGameState_index_eq_popEffect dbg cb s pre rest p hs (hk.1 p s.w)]
        simp only []
        have hi : pre.length < 2 ^ 32 := by simp at hlen; omega
        rw [wrap_pred_succ _ hi]
        apply ih pre _ fuel _ _ _ hf1
        · simp [popEffect, gameStack_resumeBack, hk.1, hs, List.eraseIdx_append_of_length_le]
        · simp at hlen ⊢; omega
      | LS_GAME_INVALID =>
        simp only []
        rw [← hpl]
        exact ih (pre ++ [p]) _ fuel _ (by simp [hs]) hlen1 hf1
      | LS_GAME_INIT =>
        simp only []
        rw [← hpl]
        exact ih (pre ++ [p]) _ fuel _ (by simp [hs]) hlen1 hf1

/-- C19: with callbacks that leave the stack alone, on a stack of fewer than
2^32 states, `updateGameStates` returns (fuel above the stack length), and the
states whose tag its loop reads are exactly the states present when the call
began, each once, in index order.  When the loop removes the STOPPED state at
index `i`, the next round runs at index `i` again (`i - 1` then `i + 1` modulo
2^32, so `0` goes to `2^32 - 1` and back to `0`), where the state that was at
index `i + 1` now stands; the entries below `i` are as they were. -/
theorem updateLoop_examines_each_once (dbg : Bool) (cb : Callbacks) (fuel : Nat) (dt : float)
    (s : Sys) (hk : cb.KeepsStack) (hlen : s.w.gameStack.length < 2 ^ 32)
    (hfuel : s.w.gameStack.length < fuel) :
    (∃ s1, updateLoopTrace dbg cb dt fuel 0 s [] = .ok (s1, s.w.gameStack) ∧
      updateGameStates dbg cb fuel dt s = .ok s1) ∧
    (∀ i p, s.w.gameStack[i]? = some p → s.w.getState p = LS_GAME_STOPPED →
      ∃ s1, popGameState_index dbg cb i s = .ok s1 ∧
        (∀ fuel1 seen, updateLoopTrace dbg cb dt (fuel1 + 1) i s seen =
          updateLoopTrace dbg cb dt fuel1 i s1 (seen ++ [p])) ∧
        (∀ fuel1, updateLoop dbg cb dt (fuel1 + 1) i s = updateLoop dbg cb dt fuel1 i s1) ∧
        ((i + 2 ^ 32 - 1) % 2 ^ 32 + 1) % 2 ^ 32 = i ∧
        s1.w.gameStack[i]? = s.w.gameStack[i + 1]? ∧
        ∀ j, j < i → s1.w.gameStack[j]? = s.w.gameStack[j]?) ∧
    ((0 + 2 ^ 32 - 1) % 2 ^ 32 = 2 ^ 32 - 1 ∧ (2 ^ 32 - 1 + 1) % 2 ^ 32 = 0) := by
  refine ⟨?_, ?_, by decide⟩
  · refine ⟨advance cb dt s.w.gameStack 0 s, ?_,
      updateGameStates_eq_advance dbg cb fuel dt s hk hlen hfuel⟩
    have := updateLoopTrace_eq_advance dbg cb dt hk s.w.gameStack [] s fuel [] (by simp)
      (by simpa using hlen) hfuel
    simpa using this
  · intro i p hp ht
    obtain ⟨pre, rest, h1, h2⟩ := getElem?_split hp
    subst h2
    have hi : pre.length < 2 ^ 32 := by
      have : pre.length < s.w.gameStack.length := by rw [h1]; simp
      omega
    have hlt : pre.length < s.w.gameStack.length := by rw [h1]; simp
    have hpop := popGameState_index_eq_popEffect dbg cb s pre rest p h1 (hk.1 p s.w)
    have hst : (popEffect cb pre.length p s).w.gameStack = pre ++ rest := by
      simp [popEffect, gameStack_resumeBack, hk.1, h1, List.eraseIdx_append_of_length_le]
    refine ⟨_, hpop, ?_, ?_, wrap_pred_succ _ hi, ?_, ?_⟩
    · intro fuel1 seen
      rw [updateLoopTrace]
      simp only [hlt, if_true, hp, ht, hpop, wrap_pred_succ _ hi]
    · intro fuel1
      rw [updateLoop]
      simp only [hlt, if_true, hp, ht, hpop, wrap_pred_succ _ hi]
    · rw [hst, h1]
      rw [List.getElem?_append_right (le_refl _), List.getElem?_append_right (by omega)]
      simp
    · intro j hj
      rw [hst, h1, List.getElem?_append_left hj, List.getElem?_append_left hj]

/-- Witness for C19: on `[1 : STOPPED, 2 : STOPPED, 3 : RUNNING]` the loop
reads the tags of 1, 2 and 3, once each. -/
theorem updateLoop_examines_each_once_witness :
    (plainCallbacks.KeepsStack ∧
      (sysOf [(1, LS_GAME_STOPPED), (2, LS_GAME_STOPPED), (3, LS_GAME_RUNNING)]).w.gameStack.length
        < 4) ∧
    ∃ s1, updateLoopTrace false plainCallbacks dt16 4 0
        (sysOf [(1, LS_GAME_STOPPED), (2, LS_GAME_STOPPED), (3, LS_GAME_RUNNING)]) []
        = .ok (s1, [1, 2, 3]) ∧
      updateGameStates false plainCallbacks 4 dt16
        (sysOf [(1, LS_GAME_STOPPED), (2, LS_GAME_STOPPED), (3, LS_GAME_RUNNING)]) = .ok s1 := by
  obtain ⟨⟨s1, h1, h2⟩, _⟩ := updateLoop_examines_each_once false plainCallbacks 4 dt16
    (sysOf [(1, LS_GAME_STOPPED), (2, LS_GAME_STOPPED), (3, LS_GAME_RUNNING)])
    (inert_keepsStack plainCallbacks_inert) (by decide) (by decide)
  exact ⟨⟨inert_keepsStack plainCallbacks_inert, by decide⟩, s1, h1, h2⟩

/-! ## Frame time -/

theorem prevTime_setState (w : World) (p : Ptr) (t : game_state_t) :
    (w.setState p t).prevTime = w.prevTime := rfl

theorem prevTime_resumeBack (w : World) : (resumeBack w).prevTime = w.prevTime := by
  unfold resumeBack
  split
  · split <;> rfl
  · rfl

theorem prevTime_stop (s : Sys) : (stop s).w.prevTime = s.w.prevTime := by
  have : ∀ (l : List Ptr) (w : World),
      (l.foldl (fun w state => w.setState state LS_GAME_STOPPED) w).prevTime = w.prevTime := by
    intro l
    induction l with
    | nil => intro w; rfl
    | cons a l ih => intro w; simp [List.foldl_cons, ih, prevTime_setState]
  simp [stop, this]

theorem plainCallbacks_keepsClock : plainCallbacks.KeepsClock := by
  simp [Callbacks.KeepsClock, plainCallbacks]

theorem passHardwareEvents_prevTime (cb : Callbacks) (hc : cb.KeepsClock) (e : SDL_Event)
    (pState : Ptr) (s : Sys) : (passHardwareEvents cb e pState s).w.prevTime = s.w.prevTime := by
  obtain ⟨_, _, _, h1, h2, h3, h4, h5, h6, h7, h8⟩ := hc
  unfold passHardwareEvents
  cases e.type <;> simp [prevTime_stop, h1, h2, h3, h4, h5, h6, h7, h8]

theorem pollEvents_prevTime (cb : Callbacks) (hc : cb.KeepsClock) :
    ∀ (queue : List SDL_Event) (s s1 : Sys), pollEvents cb queue s = .ok s1 →
      s1.w.prevTime = s.w.prevTime := by
  intro queue
  induction queue with
  | nil => intro s s1 h; injection h with h; rw [← h]
  | cons e queue ih =>
    intro s s1 h
    rw [pollEvents] at h
    cases hl : s.w.gameStack.getLast? with
    | none => simp [hl] at h
    | some top =>
      simp only [hl] at h
      rw [ih _ _ h, passHardwareEvents_prevTime cb hc]

/-- What an index pop that returns has logged and done to the clock. -/
theorem popGameState_index_log (dbg : Bool) (cb : Callbacks) (index : Nat) (s s1 : Sys)
    (h : popGameState_index dbg cb index s = .ok s1) :
    (∃ d, s1.log = s.log ++ d ∧ ∀ c ∈ d, c.tickOf = none) ∧
    ((∀ p w, (cb.onStop p w).prevTime = w.prevTime) → s1.w.prevTime = s.w.prevTime) := by
  unfold popGameState_index at h
  split at h
  · injection h with h
    subst h
    exact ⟨⟨[], by simp, by simp⟩, fun _ => rfl⟩
  · cases hget : s.w.gameStack[index]? with
    | none => simp [hget] at h
    | some p =>
      simp only [hget] at h
      cases hget2 : (cb.onStop p s.w).gameStack[index]? with
      | none => simp [hget2] at h
      | some q =>
        simp only [hget2] at h
        injection h with h
        subst h
        refine ⟨⟨[Call.onStop p, Call.delete q], rfl, ?_⟩, ?_⟩
        · intro c hc
          simp at hc
          rcases hc with hc | hc <;> subst hc <;> rfl
        · intro hk
          simp only [prevTime_resumeBack]
          exact hk p s.w

theorem updateLoop_ticks (dbg : Bool) (cb : Callbacks) (dt : float) :
    ∀ (fuel i : Nat) (s s1 : Sys), updateLoop dbg cb dt fuel i s = .ok s1 →
      (∃ d, s1.log = s.log ++ d ∧ ∀ c ∈ d, ∀ t, c.tickOf = some t → t = dt) ∧
      (cb.KeepsClock → s1.w.prevTime = s.w.prevTime) := by
  intro fuel
  induction fuel with
  | zero => intro i s s1 h; simp [updateLoop] at h
  | succ fuel ih =>
    intro i s s1 h
    rw [updateLoop] at h
    split at h
    · cases hget : s.w.gameStack[i]? with
      | none => simp [hget] at h
      | some p =>
        simp only [hget] at h
        cases ht : s.w.getState p with
        | LS_GAME_RUNNING =>
          simp only [ht] at h
          obtain ⟨⟨d, h1, h2⟩, h3⟩ := ih _ _ _ h
          refine ⟨⟨[Call.onRun p dt] ++ d, by rw [h1]; simp, ?_⟩, fun hc => ?_⟩
          · intro c hc t hct
            rcases List.mem_append.1 hc with hc | hc
            · simp at hc; subst hc
              simp [Call.tickOf] at hct; exact hct.symm
            · exact h2 c hc t hct
          · rw [h3 hc]; exact hc.2.1 p dt s.w
        | LS_GAME_PAUSED =>
          simp only [ht] at h
          obtain ⟨⟨d, h1, h2⟩, h3⟩ := ih _ _ _ h
          refine ⟨⟨[Call.onPause p dt] ++ d, by rw [h1]; simp, ?_⟩, fun hc => ?_⟩
          · intro c hc t hct
            rcases List.mem_append.1 hc with hc | hc
            · simp at hc; subst hc
              simp [Call.tickOf] at hct; exact hct.symm
            · exact h2 c hc t hct
          · rw [h3 hc]; exact hc.2.2.1 p dt s.w
        | LS_GAME_STOPPED =>
          simp only [ht] at h
          cases hpop : popGameState_index dbg cb i s with
          | error f => simp [hpop] at h
          | ok s2 =>
            simp only [hpop] at h
            obtain ⟨⟨d, h1, h2⟩, h3⟩ := ih _ _ _ h
            obtain ⟨⟨d0, g1, g2⟩, g3⟩ := popGameState_index_log dbg cb i s s2 hpop
            refine ⟨⟨d0 ++ d, by rw [h1, g1]; simp, ?_⟩, fun hc => ?_⟩
            · intro c hc t hct
              rcases List.mem_append.1 hc with hc | hc
              · rw [g2 c hc] at hct; cases hct
              · exact h2 c hc t hct
            · rw [h3 hc, g3 hc.1]
        | LS_GAME_INVALID =>
          simp only [ht] at h
          exact ih _ _ _ h
        | LS_GAME_INIT =>
          simp only [ht] at h
          exact ih _ _ _ h
    · injection h with h
      subst h
      exact ⟨⟨[], by simp, by simp⟩, fun _ => rfl⟩

theorem selfStopCallbacks_keepsClock (victim : Ptr) : (selfStopCallbacks victim).KeepsClock := by
  refine ⟨?_, ?_, ?_, ?_, ?_, ?_, ?_, ?_, ?_, ?_, ?_⟩ <;>
    simp [selfStopCallbacks, plainCallbacks]
  intro p _ w
  split <;> rfl

theorem selfStopCallbacks_eventsKeepStack (victim : Ptr) :
    (selfStopCallbacks victim).EventsKeepStack := by
  simp [Callbacks.EventsKeepStack, selfStopCallbacks, plainCallbacks]

/-- C21: in every `run()` iteration (a `run()` call on a non-empty stack; the
states cannot write the scheduler's `prevTime`), whatever else the callbacks do
to tags and stack: once the events are drained, the call is
`updateGameStates(tickTime)` with `tickTime` the float difference
`currTime - prevTime` of the clock reading and the previous-tick time stored
before the iteration, and with `prevTime = currTime` already stored; when the
iteration returns, the stored previous-tick time is `currTime` and every
`onRun` and `onPause` invoked by it carries that difference.  The iteration
returns whenever no callback changes the stack (fewer than 2^32 states, fuel
above their number). -/
theorem run_tick (dbg : Bool) (cb : Callbacks) (fuel : Nat) (fsub : float → float → float)
    (queue : List SDL_Event) (currTime : float) (s : Sys)
    (hne : s.w.gameStack ≠ []) (hc : cb.KeepsClock) :
    (∀ s1, pollEvents cb queue s = .ok s1 →
      run dbg cb fuel fsub queue currTime s =
        updateGameStates dbg cb fuel (fsub currTime s.w.prevTime)
          { s1 with w := { s1.w with tickTime := fsub currTime s.w.prevTime,
                                     prevTime := currTime } }) ∧
    (∀ s2, run dbg cb fuel fsub queue currTime s = .ok s2 →
      s2.w.prevTime = currTime ∧
      ∃ s1 d, pollEvents cb queue s = .ok s1 ∧ s2.log = s1.log ++ d ∧
        ∀ c ∈ d, ∀ t, c.tickOf = some t → t = fsub currTime s.w.prevTime) ∧
    (cb.EventsKeepStack → cb.KeepsStack → s.w.gameStack.length < 2 ^ 32 →
      s.w.gameStack.length < fuel →
      ∃ s2, run dbg cb fuel fsub queue currTime s = .ok s2) := by
  have hlen0 : s.w.gameStack.length ≠ 0 := fun h => hne (List.length_eq_zero.1 h)
  have hrun : ∀ s1, pollEvents cb queue s = .ok s1 →
      run dbg cb fuel fsub queue currTime s =
        updateGameStates dbg cb fuel (fsub currTime s.w.prevTime)
          { s1 with w := { s1.w with tickTime := fsub currTime s.w.prevTime,
                                     prevTime := currTime } } := by
    intro s1 h1
    have hp := pollEvents_prevTime cb hc queue s s1 h1
    rw [run]
    simp only [hlen0, if_false, h1, hp]
  refine ⟨hrun, ?_, ?_⟩
  · intro s2 h2
    cases h1 : pollEvents cb queue s with
    | error f =>
      rw [run] at h2
      simp [hlen0, h1] at h2
    | ok s1 =>
      rw [hrun s1 h1] at h2
      obtain ⟨⟨d, t1, t2⟩, t3⟩ :=
        updateLoop_ticks dbg cb (fsub currTime s.w.prevTime) fuel 0 _ _ h2
      exact ⟨t3 hc, s1, d, rfl, t1, t2⟩
  · intro hk hks hlen hfuel
    obtain ⟨top, htop⟩ : ∃ top, s.w.gameStack.getLast? = some top :=
      ⟨s.w.gameStack.getLast hne, List.getLast?_eq_getLast _ hne⟩
    obtain ⟨s1, h1, h2, _⟩ := pollEvents_top cb hk top queue s htop
    have hupd := updateGameStates_eq_advance dbg cb fuel (fsub currTime s.w.prevTime)
      { s1 with w := { s1.w with tickTime := fsub currTime s.w.prevTime, prevTime := currTime } }
      hks (by simpa [h2] using hlen) (by simpa [h2] using hfuel)
    exact ⟨_, (hrun s1 h1).trans hupd⟩

/-- Witness for C21: a frame at clock 116 after a frame at 100, on
`[1 : PAUSED, 2 : RUNNING]`, where state 2 stops itself in its `onRun`. -/
theorem run_tick_witness :
    ({ sysOf [(1, LS_GAME_PAUSED), (2, LS_GAME_RUNNING)] with
        w := { (sysOf [(1, LS_GAME_PAUSED), (2, LS_GAME_RUNNING)]).w with
                prevTime := ⟨100⟩ } } : Sys).w.gameStack ≠ [] ∧
    ∃ s2, run false (selfStopCallbacks 2) 3 sampleSub [keyDownSpace] ⟨116⟩
        { sysOf [(1, LS_GAME_PAUSED), (2, LS_GAME_RUNNING)] with
          w := { (sysOf [(1, LS_GAME_PAUSED), (2, LS_GAME_RUNNING)]).w with
                  prevTime := ⟨100⟩ } } = .ok s2 ∧
      s2.w.prevTime = ⟨116⟩ ∧
      s2.log = [Call.onKeyboardDownEvent 2 keyDownSpace, Call.onPause 1 ⟨16⟩,
        Call.onRun 2 ⟨16⟩] := by
  obtain ⟨_, h2, h3⟩ := run_tick false (selfStopCallbacks 2) 3 sampleSub
    [keyDownSpace] ⟨116⟩
    { sysOf [(1, LS_GAME_PAUSED), (2, LS_GAME_RUNNING)] with
      w := { (sysOf [(1, LS_GAME_PAUSED), (2, LS_GAME_RUNNING)]).w with prevTime := ⟨100⟩ } }
    (by decide) (selfStopCallbacks_keepsClock 2)
  obtain ⟨s2, hs2⟩ := h3 (selfStopCallbacks_eventsKeepStack 2)
    (selfStops_keepsStack (selfStopCallbacks_selfStops 2)) (by decide) (by decide)
  have hval : Except.ok _ = Except.ok s2 := hs2
  exact ⟨by decide, s2, hs2, (h2 s2 hs2).1,
    (congrArg Sys.log (Except.ok.inj hval)).symm.trans (by decide)⟩

/-! ## Tag accessors -/

/-- C22: `getState()` after `setState(t)` returns `t`, and `setState` is
idempotent: calling `setState(t)` twice leaves the state exactly as calling it
once; the same through a pointer into the heap. -/
theorem getState_after_setState (g : lsGameState) (t : game_state_t) :
    (g.setState t).getState = t ∧
    (g.setState t).setState t = g.setState t ∧
    (g.setState t).pSystem = g.pSystem ∧
    (∀ (w : World) (p : Ptr), (w.setState p t).getState p = t ∧
      (w.setState p t).getState p = ((w.heap p).setState t).getState ∧
      (w.setState p t).setState p t = w.setState p t) := by
  refine ⟨rfl, rfl, rfl, fun w p => ⟨by simp, by simp [lsGameState.setState,
    lsGameState.getState], ?_⟩⟩
  unfold World.setState
  congr 1
  funext q
  by_cases h : q = p <;> simp [h]

/-! ## Events without a `case` -/

/-- C23, evaluated where the code departs from it: on the stack `[1 : RUNNING]`
a joystick-hat event, a controller-button event and a joystick-added event are
dropped by `passHardwareEvents` (nothing is logged, so no callback ran on the
top state), whereas a key-down event invokes `onKeyboardDownEvent` once. -/
theorem passHardwareEvents_joystick_dropped :
    (passHardwareEvents plainCallbacks ⟨.SDL_JOYHATMOTION, 0⟩ 1
      (sysOf [(1, LS_GAME_RUNNING)])).log = [] ∧
    (passHardwareEvents plainCallbacks ⟨.SDL_CONTROLLERBUTTONDOWN, 0⟩ 1
      (sysOf [(1, LS_GAME_RUNNING)])).log = [] ∧
    (passHardwareEvents plainCallbacks ⟨.SDL_JOYDEVICEADDED, 0⟩ 1
      (sysOf [(1, LS_GAME_RUNNING)])).log = [] ∧
    callbackFor ⟨.SDL_JOYHATMOTION, 0⟩ 1 = none ∧
    (passHardwareEvents plainCallbacks keyDownSpace 1 (sysOf [(1, LS_GAME_RUNNING)])).log
      = [Call.onKeyboardDownEvent 1 keyDownSpace] :=
  ⟨rfl, rfl, rfl, rfl, rfl⟩

/-- C24: on a non-empty stack, routing a quit event is `stop()`: the system
after the event is `stop s`, in which every element has tag STOPPED, the stack
(length and order) is as before, and the log is unchanged, so no callback of
any state was invoked. -/
theorem quit_is_stop (cb : Callbacks) (e : SDL_Event) (s : Sys) (top : Ptr)
    (he : e.type = .SDL_QUIT) (hs : s.w.gameStack.getLast? = some top) :
    pollEvents cb [e] s = .ok (stop s) ∧
    passHardwareEvents cb e top s = stop s ∧
    (∀ p ∈ s.w.gameStack, (stop s).w.getState p = LS_GAME_STOPPED) ∧
    (stop s).w.gameStack = s.w.gameStack ∧
    (stop s).w.gameStack.length = s.w.gameStack.length ∧
    (stop s).log = s.log := by
  obtain ⟨h1, h2, h3⟩ := stop_schedule s
  have hp : passHardwareEvents cb e top s = stop s := by simp [passHardwareEvents, he]
  refine ⟨by simp [pollEvents, hs, hp], hp, ?_, h1, by rw [h1], h2⟩
  intro p hp
  rw [h3 p, if_pos hp]

/-- Witness for C24: a quit event on `[1 : PAUSED, 2 : RUNNING]`. -/
theorem quit_is_stop_witness :
    (quitEvent.type = .SDL_QUIT ∧
      (sysOf [(1, LS_GAME_PAUSED), (2, LS_GAME_RUNNING)]).w.gameStack.getLast? = some 2) ∧
    pollEvents plainCallbacks [quitEvent] (sysOf [(1, LS_GAME_PAUSED), (2, LS_GAME_RUNNING)])
      = .ok (stop (sysOf [(1, LS_GAME_PAUSED), (2, LS_GAME_RUNNING)])) ∧
    (stop (sysOf [(1, LS_GAME_PAUSED), (2, LS_GAME_RUNNING)])).w.getState 1 = LS_GAME_STOPPED ∧
    (stop (sysOf [(1, LS_GAME_PAUSED), (2, LS_GAME_RUNNING)])).w.getState 2 = LS_GAME_STOPPED := by
  have h := quit_is_stop plainCallbacks quitEvent
    (sysOf [(1, LS_GAME_PAUSED), (2, LS_GAME_RUNNING)]) 2 rfl (by decide)
  exact ⟨⟨rfl, by decide⟩, h.1, h.2.2.1 1 (by decide), h.2.2.1 2 (by decide)⟩

/-! ## Pop by pointer -/

theorem getElem?_append_mid (pre0 mid rest : List Ptr) (q : Ptr) :
    (pre0 ++ (q :: mid) ++ rest)[pre0.length]? = some q := by
  rw [List.append_assoc, List.cons_append]
  exact getElem?_at_length _ _ _

/-- The search loop of pop-by-pointer, started before a run `mid` of entries
other than `p` that is followed by `p`: it pops at the index of that `p`. -/
theorem popPtrLoop_find (dbg : Bool) (cb : Callbacks) (p : Ptr) (rest : List Ptr) :
    ∀ (mid pre0 : List Ptr) (fuel : Nat) (s : Sys),
      s.w.gameStack = pre0 ++ mid ++ p :: rest → p ∉ mid →
      s.w.gameStack.length < 2 ^ 32 → mid.length < fuel →
      popPtrLoop dbg cb p fuel pre0.length s
        = popGameState_index dbg cb (pre0 ++ mid).length s := by
  intro mid
  induction mid with
  | nil =>
    intro pre0 fuel s hs _ _ hf
    cases fuel with
    | zero => simp at hf
    | succ fuel =>
      simp only [List.append_nil] at hs ⊢
      have hget : s.w.gameStack[pre0.length]? = some p := by
        rw [hs]; exact getElem?_at_length _ _ _
      have hlt : pre0.length < s.w.gameStack.length := by rw [hs]; simp
      rw [popPtrLoop]
      simp only [hlt, if_true, hget]
  | cons q mid ih =>
    intro pre0 fuel s hs hp hlen hf
    cases fuel with
    | zero => simp at hf
    | succ fuel =>
      have hget : s.w.gameStack[pre0.length]? = some q := by
        rw [hs]; exact getElem?_append_mid _ _ _ _
      have hlt : pre0.length < s.w.gameStack.length := by rw [hs]; simp
      have hqp : q ≠ p := fun h => hp (by simp [h])
      have hw : (pre0.length + 1) % 2 ^ 32 = pre0.length + 1 :=
        wrap_succ _ _ hlt hlen
      rw [popPtrLoop]
      simp only [hlt, if_true, hget, hqp, if_false, hw]
      have h1 := ih (pre0 ++ [q]) fuel s (by rw [hs]; simp)
        (fun h => hp (List.mem_cons_of_mem _ h)) hlen (by simp at hf; omega)
      have e1 : (pre0 ++ [q]).length = pre0.length + 1 := by simp
      have e2 : ((pre0 ++ [q]) ++ mid).length = (pre0 ++ q :: mid).length := by simp
      rw [e1, e2] at h1
      exact h1

/-- The search loop of pop-by-pointer over a stack tail without `p`: it falls
out of the loop and returns the system as it was. -/
theorem popPtrLoop_absent (dbg : Bool) (cb : Callbacks) (p : Ptr) :
    ∀ (mid pre0 : List Ptr) (fuel : Nat) (s : Sys),
      s.w.gameStack = pre0 ++ mid → p ∉ mid →
      s.w.gameStack.length < 2 ^ 32 → mid.length < fuel →
      popPtrLoop dbg cb p fuel pre0.length s = .ok s := by
  intro mid
  induction mid with
  | nil =>
    intro pre0 fuel s hs _ _ hf
    cases fuel with
    | zero => simp at hf
    | succ fuel =>
      simp only [List.append_nil] at hs
      rw [popPtrLoop]
      simp [hs]
  | cons q mid ih =>
    intro pre0 fuel s hs hp hlen hf
    cases fuel with
    | zero => simp at hf
    | succ fuel =>
      have hget : s.w.gameStack[pre0.length]? = some q := by
        rw [hs]; exact getElem?_at_length _ _ _
      have hlt : pre0.length < s.w.gameStack.length := by rw [hs]; simp
      have hqp : q ≠ p := fun h => hp (by simp [h])
      have hw : (pre0.length + 1) % 2 ^ 32 = pre0.length + 1 :=
        wrap_succ _ _ hlt hlen
      rw [popPtrLoop]
      simp only [hlt, if_true, hget, hqp, if_false, hw]
      have h1 := ih (pre0 ++ [q]) fuel s (by rw [hs]; simp)
        (fun h => hp (List.mem_cons_of_mem _ h)) hlen (by simp at hf; omega)
      have e1 : (pre0 ++ [q]).length = pre0.length + 1 := by simp
      rw [e1] at h1
      exact h1

/-- C25: on a stack of fewer than 2^32 states, `popGameState(pointer)` returns
what `popGameState(i)` returns for the least index `i` holding that pointer
(`onStop` on it, removal, resume-on-pop of the new top) when the pointer is on
the stack, and is a no-op when it is not, in particular on an empty stack;
`popGameState()` on an empty stack is a no-op. -/
theorem popGameState_pState_spec (dbg : Bool) (cb : Callbacks) (fuel : Nat) (p : Ptr) (s : Sys)
    (hlen : s.w.gameStack.length < 2 ^ 32) (hfuel : s.w.gameStack.length < fuel) :
    (∀ pre rest, s.w.gameStack = pre ++ p :: rest → p ∉ pre →
      popGameState_pState dbg cb fuel p s = popGameState_index dbg cb pre.length s ∧
      s.w.gameStack[pre.length]? = some p ∧
      ∀ j, j < pre.length → s.w.gameStack[j]? ≠ some p) ∧
    (p ∉ s.w.gameStack → popGameState_pState dbg cb fuel p s = .ok s) ∧
    (s.w.gameStack = [] →
      popGameState_pState dbg cb fuel p s = .ok s ∧ popGameState dbg cb s = .ok s) := by
  refine ⟨?_, ?_, ?_⟩
  · intro pre rest hs hp
    refine ⟨?_, by rw [hs]; exact getElem?_at_length _ _ _, ?_⟩
    · have := popPtrLoop_find dbg cb p rest pre [] fuel s (by simpa using hs) hp hlen
        (by rw [hs] at hfuel; simp at hfuel; omega)
      simpa [popGameState_pState] using this
    · intro j hj hjp
      rw [hs, List.getElem?_append_left hj] at hjp
      exact hp (List.getElem?_mem hjp)
  · intro hp
    have := popPtrLoop_absent dbg cb p s.w.gameStack [] fuel s (by simp) hp hlen hfuel
    simpa [popGameState_pState] using this
  · intro h0
    constructor
    · have := popPtrLoop_absent dbg cb p [] [] fuel s (by simp [h0]) (by simp) hlen
        (by rw [h0] at hfuel; simpa using hfuel)
      simpa [popGameState_pState] using this
    · simp [popGameState, h0]

/-- Witness for C25: popping state 2 by pointer from
`[1 : PAUSED, 2 : PAUSED, 3 : RUNNING]` is `popGameState(1)`. -/
theorem popGameState_pState_spec_witness :
    ((sysOf [(1, LS_GAME_PAUSED), (2, LS_GAME_PAUSED), (3, LS_GAME_RUNNING)]).w.gameStack.length
      < 4) ∧
    popGameState_pState false plainCallbacks 4 2
        (sysOf [(1, LS_GAME_PAUSED), (2, LS_GAME_PAUSED), (3, LS_GAME_RUNNING)])
      = popGameState_index false plainCallbacks 1
        (sysOf [(1, LS_GAME_PAUSED), (2, LS_GAME_PAUSED), (3, LS_GAME_RUNNING)]) ∧
    ∃ s1, popGameState_pState false plainCallbacks 4 2
        (sysOf [(1, LS_GAME_PAUSED), (2, LS_GAME_PAUSED), (3, LS_GAME_RUNNING)]) = .ok s1 ∧
      s1.w.gameStack = [1, 3] ∧ s1.log = [Call.onStop 2, Call.delete 2] := by
  have h := (popGameState_pState_spec false plainCallbacks 4 2
    (sysOf [(1, LS_GAME_PAUSED), (2, LS_GAME_PAUSED), (3, LS_GAME_RUNNING)])
    (by decide) (by decide)).1 [1] [3] rfl (by decide)
  exact ⟨by decide, h.1, _, rfl, by decide, by decide⟩

/-! ## The space bar in `fbState` -/

/-- C26: in `fbState::onKeyboardDownEvent`, a Space key-down (Space being a key
code within `0..511`) leaves the tag PAUSED exactly when it was RUNNING before,
and RUNNING for every other prior tag; so two Space presses in a row restore a
tag that was RUNNING or PAUSED, and one Space press on a STOPPED state makes it
RUNNING.  A key code outside `0..511` changes nothing. -/
theorem fbState_space_toggle (space : Int) (st : fbState)
    (hsp : 0 ≤ space ∧ space < 512) :
    ((fbState.onKeyboardDownEvent space space st).base.getState = LS_GAME_PAUSED ↔
      st.base.getState = LS_GAME_RUNNING) ∧
    (st.base.getState ≠ LS_GAME_RUNNING →
      (fbState.onKeyboardDownEvent space space st).base.getState = LS_GAME_RUNNING) ∧
    (st.base.getState = LS_GAME_RUNNING ∨ st.base.getState = LS_GAME_PAUSED →
      (fbState.onKeyboardDownEvent space space
        (fbState.onKeyboardDownEvent space space st)).base.getState = st.base.getState) ∧
    (st.base.getState = LS_GAME_STOPPED →
      (fbState.onKeyboardDownEvent space space st).base.getState = LS_GAME_RUNNING) ∧
    (∀ key : Int, key < 0 ∨ 512 ≤ key → fbState.onKeyboardDownEvent space key st = st) := by
  have hin : ¬ (space < 0 ∨ space.toNat ≥ TEST_MAX_KEYBORD_STATES) := by
    unfold TEST_MAX_KEYBORD_STATES
    omega
  have hstep : ∀ st1 : fbState, (fbState.onKeyboardDownEvent space space st1).base.getState =
      if st1.base.getState = LS_GAME_RUNNING then LS_GAME_PAUSED else LS_GAME_RUNNING := by
    intro st1
    unfold fbState.onKeyboardDownEvent
    simp only [hin, if_false, if_true]
    simp only [lsGameState.getState]
    by_cases h : st1.base.currentState = LS_GAME_RUNNING
    · simp [h, lsGameState.setState]
    · simp [h, lsGameState.setState]
  refine ⟨?_, ?_, ?_, ?_, ?_⟩
  · rw [hstep]
    by_cases h : st.base.getState = LS_GAME_RUNNING <;> simp [h]
  · intro h
    rw [hstep, if_neg h]
  · intro h
    rw [hstep, hstep]
    rcases h with h | h <;> simp [h]
  · intro h
    rw [hstep, h]
    simp
  · intro key hkey
    have hout : key < 0 ∨ key.toNat ≥ TEST_MAX_KEYBORD_STATES := by
      unfold TEST_MAX_KEYBORD_STATES
      omega
    unfold fbState.onKeyboardDownEvent
    rw [if_pos hout]

/-- Witness for C26: Space is key code 32; one press pauses a RUNNING state. -/
theorem fbState_space_toggle_witness :
    ((0 : Int) ≤ 32 ∧ (32 : Int) < 512) ∧
    (fbState.onKeyboardDownEvent 32 32 (fbOf LS_GAME_RUNNING)).base.getState = LS_GAME_PAUSED ∧
    (fbState.onKeyboardDownEvent 32 32 (fbOf LS_GAME_STOPPED)).base.getState
      = LS_GAME_RUNNING := by
  have h := fbState_space_toggle 32 (fbOf LS_GAME_RUNNING) (by decide)
  have g := fbState_space_toggle 32 (fbOf LS_GAME_STOPPED) (by decide)
  exact ⟨by decide, h.1.2 rfl, g.2.2.2.1 rfl⟩

/-! ## A paused top resumed during the update -/

/-- If the last entry `top` ahead of the loop is RUNNING, or PAUSED with a
STOPPED entry ahead of it, the loop ends with `top` RUNNING and still last. -/
theorem advance_resumed_top (cb : Callbacks) (dt : float) (hi : cb.Inert) (top : Ptr) :
    ∀ (rest pre : List Ptr) (s : Sys), s.w.gameStack = pre ++ rest → rest.Nodup →
      rest.getLast? = some top →
      (s.w.getState top = LS_GAME_RUNNING ∨
        (s.w.getState top = LS_GAME_PAUSED ∧
          ∃ q ∈ rest.dropLast, s.w.getState q = LS_GAME_STOPPED)) →
      (advance cb dt rest pre.length s).w.getState top = LS_GAME_RUNNING ∧
      (advance cb dt rest pre.length s).w.gameStack.getLast? = some top := by
  intro rest
  induction rest with
  | nil => intro pre s _ _ hl; simp at hl
  | cons p rest ih =>
    intro pre s hs hnd hl htag
    have hnd1 : rest.Nodup := (List.nodup_cons.1 hnd).2
    have hpl : (pre ++ [p]).length = pre.length + 1 := by simp
    cases rest with
    | nil =>
      simp at hl
      subst hl
      have hrun : s.w.getState p = LS_GAME_RUNNING := by
        rcases htag with h | ⟨_, q, hq, _⟩
        · exact h
        · simp at hq
      obtain ⟨s1, k1, k2, k3, _⟩ := advance_cons_keep cb dt hi p [] pre.length s
        (by rw [hrun]; decide)
      rw [k1]
      simp only [advance]
      rw [k3, k2, hs]
      exact ⟨hrun, by simp⟩
    | cons a r =>
      have hl1 : (a :: r).getLast? = some top := by
        rw [← (getLast?_cons_of_mem (p := p) (List.mem_cons_self a r)).1]; exact hl
      have hdl : (p :: a :: r).dropLast = p :: (a :: r).dropLast :=
        (getLast?_cons_of_mem (p := p) (List.mem_cons_self a r)).2
      have htop_mem : top ∈ a :: r := List.mem_of_getLast?_eq_some hl1
      have hpt : p ≠ top := fun h => (List.nodup_cons.1 hnd).1 (h ▸ htop_mem)
      by_cases h : s.w.getState p = LS_GAME_STOPPED
      · rw [advance_cons_stop cb dt p (a :: r) pre.length s h]
        obtain ⟨e1, _, e3⟩ := popEffect_schedule cb s pre (a :: r) p hs (hi.1 p s.w)
        have hlast : (pre ++ a :: r).getLast? = some top := by
          rw [List.getLast?_append, hl1]; rfl
        apply ih pre _ e1 hnd1 hl1
        left
        rw [e3 top, hlast]
        rcases htag with h1 | ⟨h1, _⟩
        · simp [h1]
        · simp [h1]
      · obtain ⟨s1, k1, k2, k3, _⟩ := advance_cons_keep cb dt hi p (a :: r) pre.length s h
        rw [k1, ← hpl]
        apply ih (pre ++ [p]) s1 (by rw [k2, hs]; simp) hnd1 hl1
        rw [k3 top]
        rcases htag with h1 | ⟨h1, q, hq, hq2⟩
        · exact Or.inl h1
        · right
          refine ⟨h1, q, ?_, by rw [k3 q]; exact hq2⟩
          rw [hdl] at hq
          rcases List.mem_cons.1 hq with hq | hq
          · subst hq; exact absurd hq2 h
          · exact hq

/-- C27: with inert callbacks, on a stack of distinct states (fewer than 2^32)
whose top is PAUSED while some element below it is STOPPED, one
`updateGameStates(dt)` call returns with the top still last and tagged RUNNING;
what the call logs ends with `onRun(dt)` on the top, its only call on the top,
so the top gets `onRun(dt)` once and no `onPause`. -/
theorem updateGameStates_resumes_top (dbg : Bool) (cb : Callbacks) (fuel : Nat) (dt : float)
    (s : Sys) (top : Ptr) (hi : cb.Inert) (hnd : s.w.gameStack.Nodup)
    (hlen : s.w.gameStack.length < 2 ^ 32) (hfuel : s.w.gameStack.length < fuel)
    (hlast : s.w.gameStack.getLast? = some top)
    (hpaused : s.w.getState top = LS_GAME_PAUSED)
    (hstopped : ∃ q ∈ s.w.gameStack.dropLast, s.w.getState q = LS_GAME_STOPPED) :
    ∃ s1, updateGameStates dbg cb fuel dt s = .ok s1 ∧
      s1.w.getState top = LS_GAME_RUNNING ∧ s1.w.gameStack.getLast? = some top ∧
      ∃ d, s1.log = s.log ++ d ++ [Call.onRun top dt] ∧
        (∀ c ∈ d, c.target ≠ top) ∧ (∀ t, Call.onPause top t ∉ d ++ [Call.onRun top dt]) := by
  obtain ⟨r1, r2⟩ := advance_resumed_top cb dt hi top s.w.gameStack [] s (by simp) hnd hlast
    (Or.inr ⟨hpaused, hstopped⟩)
  simp only [List.length_nil] at r1 r2
  have hlog := advance_log cb dt hi s.w.gameStack [] s (by simp) hnd
  simp only [List.length_nil] at hlog
  have hsplit : s.w.gameStack = s.w.gameStack.dropLast ++ [top] :=
    (List.dropLast_append_getLast? top hlast).symm
  have htopnot : top ∉ s.w.gameStack.dropLast := by
    intro hm
    rw [hsplit] at hnd
    exact (List.nodup_append.1 hnd).2.2 hm (List.mem_singleton_self top)
  have htv : tagAtVisit s.w.getState s.w.gameStack top = LS_GAME_RUNNING := by
    unfold tagAtVisit
    rw [if_pos]
    refine ⟨hlast, hpaused, ?_⟩
    obtain ⟨q, hq, hq2⟩ := hstopped
    exact List.any_eq_true.2 ⟨q, hq, by simp [hq2]⟩
  have hd : s.w.gameStack.flatMap
      (fun p => visitCalls dt (tagAtVisit s.w.getState s.w.gameStack p) p) =
      s.w.gameStack.dropLast.flatMap
        (fun p => visitCalls dt (tagAtVisit s.w.getState s.w.gameStack p) p) ++
      [Call.onRun top dt] := by
    conv_lhs => rw [hsplit]
    rw [List.flatMap_append]
    simp only [List.flatMap_cons, List.flatMap_nil, List.append_nil]
    rw [← hsplit, htv]
    rfl
  have hdt : ∀ c ∈ s.w.gameStack.dropLast.flatMap
      (fun p => visitCalls dt (tagAtVisit s.w.getState s.w.gameStack p) p), c.target ≠ top := by
    intro c hc
    rw [List.mem_flatMap] at hc
    obtain ⟨p, hp, hcp⟩ := hc
    have : c.target = p := by
      cases htg : tagAtVisit s.w.getState s.w.gameStack p <;>
        simp [htg, visitCalls] at hcp <;>
        first
        | (rcases hcp with hcp | hcp <;> subst hcp <;> rfl)
        | (subst hcp; rfl)
    rw [this]
    intro hpt
    exact htopnot (hpt ▸ hp)
  refine ⟨_, updateGameStates_eq_advance dbg cb fuel dt s (inert_keepsStack hi) hlen hfuel, r1, r2,
    _, by rw [hlog, hd, List.append_assoc], hdt, ?_⟩
  intro t hc
  rcases List.mem_append.1 hc with hc | hc
  · exact hdt _ hc rfl
  · simp at hc

/-- Witness for C27: `[1 : STOPPED, 2 : PAUSED]` ends as `[2 : RUNNING]` after
`onStop` on 1 and then `onRun` on 2. -/
theorem updateGameStates_resumes_top_witness :
    (plainCallbacks.Inert ∧
      (sysOf [(1, LS_GAME_STOPPED), (2, LS_GAME_PAUSED)]).w.getState 2 = LS_GAME_PAUSED ∧
      ∃ q ∈ (sysOf [(1, LS_GAME_STOPPED), (2, LS_GAME_PAUSED)]).w.gameStack.dropLast,
        (sysOf [(1, LS_GAME_STOPPED), (2, LS_GAME_PAUSED)]).w.getState q = LS_GAME_STOPPED) ∧
    ∃ s1, updateGameStates false plainCallbacks 3 dt16
        (sysOf [(1, LS_GAME_STOPPED), (2, LS_GAME_PAUSED)]) = .ok s1 ∧
      s1.w.getState 2 = LS_GAME_RUNNING ∧ s1.w.gameStack.getLast? = some 2 := by
  have hq : ∃ q ∈ (sysOf [(1, LS_GAME_STOPPED), (2, LS_GAME_PAUSED)]).w.gameStack.dropLast,
      (sysOf [(1, LS_GAME_STOPPED), (2, LS_GAME_PAUSED)]).w.getState q = LS_GAME_STOPPED :=
    ⟨1, by decide, by decide⟩
  obtain ⟨s1, h1, h2, h3, _⟩ := updateGameStates_resumes_top false plainCallbacks 3 dt16
    (sysOf [(1, LS_GAME_STOPPED), (2, LS_GAME_PAUSED)]) 2 plainCallbacks_inert (by decide)
    (by decide) (by decide) (by decide) (by decide) hq
  exact ⟨⟨plainCallbacks_inert, by decide, hq⟩, s1, h1, h2, h3⟩

/-! ## `onStart` runs before the push changes anything -/

/-- C28: `pushGameState` of a non-null state logs `onStart` exactly once, and
that call is its first step: the world `onStart` runs in is the world as it
was before the call (the back-reference of the new state not yet bound, the
previous top with its old tag), so that the whole push is determined by what
`onStart` returns on that world.  If `onStart` returns false the push ends
there, world as `onStart` left it, back-reference not bound by the call; if it
returns true, the back-reference is bound afterwards, to this scheduler. -/
theorem pushGameState_onStart_first (cb : Callbacks) (x : Ptr) (s : Sys) (hx : x ≠ nullptr) :
    (pushGameState cb x s).2.log = s.log ++ [Call.onStart x] ∧
    ((pushGameState cb x s).2.log.filter (fun c => decide (c = Call.onStart x))).length
      = (s.log.filter (fun c => decide (c = Call.onStart x))).length + 1 ∧
    (∀ cb1 : Callbacks, cb1.onStart x s.w = cb.onStart x s.w →
      pushGameState cb1 x s = pushGameState cb x s) ∧
    ((cb.onStart x s.w).1 = false →
      (pushGameState cb x s).1 = false ∧
      (pushGameState cb x s).2.w = (cb.onStart x s.w).2 ∧
      ((pushGameState cb x s).2.w.heap x).pSystem = ((cb.onStart x s.w).2.heap x).pSystem) ∧
    ((cb.onStart x s.w).1 = true →
      (pushGameState cb x s).1 = true ∧
      ((pushGameState cb x s).2.w.heap x).pSystem = (cb.onStart x s.w).2.self) := by
  have hlog : (pushGameState cb x s).2.log = s.log ++ [Call.onStart x] := by
    unfold pushGameState
    simp only [hx, if_false]
    split <;> rfl
  refine ⟨hlog, by rw [hlog]; simp, ?_, ?_, ?_⟩
  · intro cb1 h
    unfold pushGameState
    simp only [hx, if_false, h]
  · intro hf
    have : pushGameState cb x s =
        (false, { w := (cb.onStart x s.w).2, log := s.log ++ [Call.onStart x] }) := by
      unfold pushGameState
      simp [hx, hf]
    rw [this]
    exact ⟨rfl, rfl, rfl⟩
  · intro ht
    rw [pushGameState_started cb x s hx ht]
    refine ⟨rfl, ?_⟩
    cases (cb.onStart x s.w).2.gameStack.getLast? <;>
      simp [World.setState, World.setParentSystem]

/-- Witness for C28: pushing the fresh state 2 on `[1 : RUNNING]`. -/
theorem pushGameState_onStart_first_witness :
    (2 ≠ nullptr ∧ ((sysOf [(1, LS_GAME_RUNNING)]).w.heap 2).pSystem = 0) ∧
    (pushGameState plainCallbacks 2 (sysOf [(1, LS_GAME_RUNNING)])).2.log = [Call.onStart 2] ∧
    ((pushGameState plainCallbacks 2 (sysOf [(1, LS_GAME_RUNNING)])).2.w.heap 2).pSystem
      = 9000 := by
  have h := pushGameState_onStart_first plainCallbacks 2 (sysOf [(1, LS_GAME_RUNNING)])
    (by decide)
  exact ⟨⟨by decide, rfl⟩, h.1, (h.2.2.2.2 rfl).2⟩

/-! ## Index of a state -/

theorem getGameStateIndexLoop_find (p : Ptr) (rest : List Ptr) :
    ∀ (mid pre0 : List Ptr) (fuel : Nat) (w : World),
      w.gameStack = pre0 ++ mid ++ p :: rest → p ∉ mid →
      w.gameStack.length < 2 ^ 32 → mid.length < fuel →
      getGameStateIndexLoop p fuel pre0.length w = .ok (pre0 ++ mid).length := by
  intro mid
  induction mid with
  | nil =>
    intro pre0 fuel w hs _ _ hf
    cases fuel with
    | zero => simp at hf
    | succ fuel =>
      simp only [List.append_nil] at hs ⊢
      have hget : w.gameStack[pre0.length]? = some p := by
        rw [hs]; exact getElem?_at_length _ _ _
      have hlt : pre0.length < w.gameStack.length := by rw [hs]; simp
      rw [getGameStateIndexLoop]
      simp only [hlt, if_true, hget]
  | cons q mid ih =>
    intro pre0 fuel w hs hp hlen hf
    cases fuel with
    | zero => simp at hf
    | succ fuel =>
      have hget : w.gameStack[pre0.length]? = some q := by
        rw [hs]; exact getElem?_append_mid _ _ _ _
      have hlt : pre0.length < w.gameStack.length := by rw [hs]; simp
      have hqp : q ≠ p := fun h => hp (by simp [h])
      have hw : (pre0.length + 1) % 2 ^ 32 = pre0.length + 1 :=
        wrap_succ _ _ hlt hlen
      rw [getGameStateIndexLoop]
      simp only [hlt, if_true, hget, hqp, if_false, hw]
      have h1 := ih (pre0 ++ [q]) fuel w (by rw [hs]; simp)
        (fun h => hp (List.mem_cons_of_mem _ h)) hlen (by simp at hf; omega)
      have e1 : (pre0 ++ [q]).length = pre0.length + 1 := by simp
      have e2 : ((pre0 ++ [q]) ++ mid).length = (pre0 ++ q :: mid).length := by simp
      rw [e1, e2] at h1
      exact h1

theorem getGameStateIndexLoop_absent (p : Ptr) :
    ∀ (mid pre0 : List Ptr) (fuel : Nat) (w : World),
      w.gameStack = pre0 ++ mid → p ∉ mid →
      w.gameStack.length < 2 ^ 32 → mid.length < fuel →
      getGameStateIndexLoop p fuel pre0.length w = .ok LS_GAME_INVALID.toUnsigned := by
  intro mid
  induction mid with
  | nil =>
    intro pre0 fuel w hs _ _ hf
    cases fuel with
    | zero => simp at hf
    | succ fuel =>
      simp only [List.append_nil] at hs
      rw [getGameStateIndexLoop]
      simp [hs]
  | cons q mid ih =>
    intro pre0 fuel w hs hp hlen hf
    cases fuel with
    | zero => simp at hf
    | succ fuel =>
      have hget : w.gameStack[pre0.length]? = some q := by
        rw [hs]; exact getElem?_at_length _ _ _
      have hlt : pre0.length < w.gameStack.length := by rw [hs]; simp
      have hqp : q ≠ p := fun h => hp (by simp [h])
      have hw : (pre0.length + 1) % 2 ^ 32 = pre0.length + 1 :=
        wrap_succ _ _ hlt hlen
      rw [getGameStateIndexLoop]
      simp only [hlt, if_true, hget, hqp, if_false, hw]
      have h1 := ih (pre0 ++ [q]) fuel w (by rw [hs]; simp)
        (fun h => hp (List.mem_cons_of_mem _ h)) hlen (by simp at hf; omega)
      have e1 : (pre0 ++ [q]).length = pre0.length + 1 := by simp
      rw [e1] at h1
      exact h1

/-- C29: on a stack of fewer than 2^32 states, `getGameStateIndex(p)` returns
the least index holding `p` when `p` is on the stack, and `getGameState` of
that index returns `p`; when `p` is not on the stack it returns
`LS_GAME_INVALID`, which is 2^32 - 1 and not an index of the stack. -/
theorem getGameStateIndex_spec (dbg : Bool) (fuel : Nat) (p : Ptr) (w : World)
    (hlen : w.gameStack.length < 2 ^ 32) (hfuel : w.gameStack.length < fuel) :
    (∀ pre rest, w.gameStack = pre ++ p :: rest → p ∉ pre →
      getGameStateIndex fuel p w = .ok pre.length ∧
      getGameState dbg pre.length w = .ok p ∧
      ∀ j, j < pre.length → w.gameStack[j]? ≠ some p) ∧
    (p ∉ w.gameStack →
      getGameStateIndex fuel p w = .ok LS_GAME_INVALID.toUnsigned ∧
      LS_GAME_INVALID.toUnsigned = 2 ^ 32 - 1 ∧
      ¬ LS_GAME_INVALID.toUnsigned < w.gameStack.length) := by
  refine ⟨?_, ?_⟩
  · intro pre rest hs hp
    refine ⟨?_, ?_, ?_⟩
    · have := getGameStateIndexLoop_find p rest pre [] fuel w (by simpa using hs) hp hlen
        (by rw [hs] at hfuel; simp at hfuel; omega)
      simpa [getGameStateIndex] using this
    · have hget : w.gameStack[pre.length]? = some p := by
        rw [hs]; exact getElem?_at_length _ _ _
      have hlt : ¬ (pre.length ≥ w.gameStack.length) := by rw [hs]; simp
      simp [getGameState, hlt, hget]
    · intro j hj hjp
      rw [hs, List.getElem?_append_left hj] at hjp
      exact hp (List.getElem?_mem hjp)
  · intro hp
    refine ⟨?_, rfl, ?_⟩
    · have := getGameStateIndexLoop_absent p w.gameStack [] fuel w (by simp) hp hlen hfuel
      simpa [getGameStateIndex] using this
    · have : LS_GAME_INVALID.toUnsigned = 2 ^ 32 - 1 := rfl
      omega

/-- Witness for C29: state 3 sits at index 2 of `[1, 2, 3]`. -/
theorem getGameStateIndex_spec_witness :
    ((sysOf [(1, LS_GAME_PAUSED), (2, LS_GAME_PAUSED), (3, LS_GAME_RUNNING)]).w.gameStack.length
      < 4) ∧
    getGameStateIndex 4 3
      (sysOf [(1, LS_GAME_PAUSED), (2, LS_GAME_PAUSED), (3, LS_GAME_RUNNING)]).w = .ok 2 ∧
    getGameState false 2
      (sysOf [(1, LS_GAME_PAUSED), (2, LS_GAME_PAUSED), (3, LS_GAME_RUNNING)]).w = .ok 3 := by
  have h := (getGameStateIndex_spec false 4 3
    (sysOf [(1, LS_GAME_PAUSED), (2, LS_GAME_PAUSED), (3, LS_GAME_RUNNING)]).w
    (by decide) (by decide)).1 [1, 2] [] rfl (by decide)
  exact ⟨by decide, h.1, h.2.1⟩

/-! ## Procedural meshes -/

/-- Writing `k` vertices through a running pointer writes `k` consecutive
offsets. -/
theorem putVertex_iterate (k : Nat) :
    ∀ st : Nat × List Nat, putVertex^[k] st = (st.1 + k, st.2 ++ List.range' st.1 k) := by
  induction k with
  | zero => intro st; simp
  | succ k ih =>
    intro st
    rw [Function.iterate_succ_apply', ih]
    simp only [putVertex, List.range'_concat, Nat.one_mul]
    simp [Nat.add_assoc]

theorem coneRound_iterate (n : Nat) (st : Nat × List Nat) :
    coneRound^[n] st = putVertex^[3 * n] st := by
  have : coneRound = putVertex^[3] := rfl
  rw [this, ← Function.iterate_mul]

theorem sphereRound_iterate (k j : Nat) (st : Nat × List Nat) :
    (sphereRound^[k])^[j] st = putVertex^[2 * k * j] st := by
  have : sphereRound = putVertex^[2] := rfl
  rw [this, ← Function.iterate_mul, ← Function.iterate_mul, Nat.mul_assoc]

theorem cylinderRound_iterate (n : Nat) :
    ∀ st : (Nat × List Nat) × (Nat × List Nat),
      cylinderRound^[n] st = (putVertex^[3 * n] st.1, putVertex^[3 * n] st.2) := by
  induction n with
  | zero => intro st; rfl
  | succ n ih =>
    intro st
    rw [Function.iterate_succ_apply', ih]
    have h3 : 3 * (n + 1) = 3 * n + 1 + 1 + 1 := by ring
    simp only [cylinderRound, h3, Function.iterate_succ_apply']

theorem toInt_small (m : Nat) (h : m < 2 ^ 31) : toInt m = (m : Int) := by
  unfold toInt
  have h1 : m % 2 ^ 32 = m := Nat.mod_eq_of_lt (by omega)
  rw [h1, if_pos h]

theorem rounds_two_sided (m : Nat) : ((m : Int) - (-(m : Int))).toNat = 2 * m := by
  omega

/-- C30: in the procedural mesh loaders the vertices written are exactly the
vertices `initVertices` allocated, provided the count fits 32 bits:
`loadPolygon(n)` allocates `max(n,3)` and writes offsets `0 .. max(n,3)-1`;
`loadCylinder(n)`, with `m = max(n,2)`, allocates `12*m` and writes the cap
vertices at offsets `0 .. 6m-1` and the side vertices at `6m .. 12m-1`;
`loadCone(n)` allocates `6*m` and writes offsets `0 .. 6m-1`; `loadSphere(res)`,
with `r` = `res` rounded up to even, allocates `r*(r+1)` and writes offsets
`0 .. r*(r+1)-1`, which is `2*(r/2)*(r+1)` of them.  Every written offset is
below the allocated count.  When the allocation fails nothing is written. -/
theorem mesh_writes_fit (n : Nat) :
    (loadPolygon true n = ⟨true, max n 3, List.range (max n 3), []⟩) ∧
    (12 * max n 2 < 2 ^ 32 →
      loadCylinder true n = ⟨true, 12 * max n 2, List.range (6 * max n 2),
        List.range' (6 * max n 2) (6 * max n 2)⟩) ∧
    (6 * max n 2 < 2 ^ 32 →
      loadCone true n = ⟨true, 6 * max n 2, List.range (6 * max n 2), []⟩) ∧
    ((n + n % 2) * (n + n % 2 + 1) < 2 ^ 32 →
      loadSphere true n = ⟨true, (n + n % 2) * (n + n % 2 + 1),
        List.range ((n + n % 2) * (n + n % 2 + 1)), []⟩ ∧
      2 * ((n + n % 2) / 2) * (n + n % 2 + 1) = (n + n % 2) * (n + n % 2 + 1)) ∧
    (∀ o ∈ (loadPolygon true n).capWrites ++ (loadPolygon true n).sideWrites,
      o < (loadPolygon true n).numVertices) ∧
    (12 * max n 2 < 2 ^ 32 →
      ∀ o ∈ (loadCylinder true n).capWrites ++ (loadCylinder true n).sideWrites,
        o < (loadCylinder true n).numVertices) ∧
    (6 * max n 2 < 2 ^ 32 →
      ∀ o ∈ (loadCone true n).capWrites ++ (loadCone true n).sideWrites,
        o < (loadCone true n).numVertices) ∧
    ((n + n % 2) * (n + n % 2 + 1) < 2 ^ 32 →
      ∀ o ∈ (loadSphere true n).capWrites ++ (loadSphere true n).sideWrites,
        o < (loadSphere true n).numVertices) ∧
    (loadPolygon false n = ⟨false, 0, [], []⟩ ∧ loadCylinder false n = ⟨false, 0, [], []⟩ ∧
      loadCone false n = ⟨false, 0, [], []⟩ ∧ loadSphere false n = ⟨false, 0, [], []⟩) := by
  have hm2 : (if n < 2 then 2 else n) = max n 2 := by
    by_cases h : n < 2
    · rw [if_pos h]; omega
    · rw [if_neg h]; omega
  have hm3 : (if n < 3 then 3 else n) = max n 3 := by
    by_cases h : n < 3
    · rw [if_pos h]; omega
    · rw [if_neg h]; omega
  have hpoly : loadPolygon true n = ⟨true, max n 3, List.range (max n 3), []⟩ := by
    simp [loadPolygon, hm3]
  have hcyl : 12 * max n 2 < 2 ^ 32 →
      loadCylinder true n = ⟨true, 12 * max n 2, List.range (6 * max n 2),
        List.range' (6 * max n 2) (6 * max n 2)⟩ := by
    intro h
    have hi : toInt (max n 2) = ((max n 2 : Nat) : Int) := toInt_small _ (by omega)
    have h12 : (max n 2 * 12) % 2 ^ 32 = 12 * max n 2 := by
      rw [Nat.mod_eq_of_lt (by omega)]; ring
    have h6 : (max n 2 * 6) % 2 ^ 32 = 6 * max n 2 := by
      rw [Nat.mod_eq_of_lt (by omega)]; ring
    have h36 : 3 * (2 * max n 2) = 6 * max n 2 := by ring
    simp only [loadCylinder, hm2, Bool.not_true, Bool.false_eq_true, if_false, hi,
      rounds_two_sided, cylinderRound_iterate, putVertex_iterate, h12, h6, h36,
      List.nil_append, Nat.zero_add, List.range_eq_range']
  have hcone : 6 * max n 2 < 2 ^ 32 →
      loadCone true n = ⟨true, 6 * max n 2, List.range (6 * max n 2), []⟩ := by
    intro h
    have hi : toInt (max n 2) = ((max n 2 : Nat) : Int) := toInt_small _ (by omega)
    have h6 : (max n 2 * 6) % 2 ^ 32 = 6 * max n 2 := by
      rw [Nat.mod_eq_of_lt (by omega)]; ring
    have h36 : 3 * (2 * max n 2) = 6 * max n 2 := by ring
    simp only [loadCone, hm2, Bool.not_true, Bool.false_eq_true, if_false, hi,
      rounds_two_sided, coneRound_iterate, putVertex_iterate, h6, h36,
      List.nil_append, Nat.zero_add, List.range_eq_range']
  have heven : 2 * ((n + n % 2) / 2) = n + n % 2 := by omega
  have hcount : 2 * ((n + n % 2) / 2) * (n + n % 2 + 1) = (n + n % 2) * (n + n % 2 + 1) := by
    rw [heven]
  have hsph : (n + n % 2) * (n + n % 2 + 1) < 2 ^ 32 →
      loadSphere true n = ⟨true, (n + n % 2) * (n + n % 2 + 1),
        List.range ((n + n % 2) * (n + n % 2 + 1)), []⟩ := by
    intro h
    have hr : n + n % 2 < 2 ^ 16 := by
      by_contra hc
      have : 2 ^ 16 * 2 ^ 16 ≤ (n + n % 2) * (n + n % 2 + 1) :=
        Nat.mul_le_mul (by omega) (by omega)
      omega
    have hres : (if n % 2 = 1 then (n + 1) % 2 ^ 32 else n) = n + n % 2 := by
      by_cases h1 : n % 2 = 1
      · rw [if_pos h1, h1, Nat.mod_eq_of_lt (by omega)]
      · rw [if_neg h1]; omega
    have hi : toInt (n + n % 2) = ((n + n % 2 : Nat) : Int) := toInt_small _ (by omega)
    have hp1 : (n + n % 2 + 1) % 2 ^ 32 = n + n % 2 + 1 := Nat.mod_eq_of_lt (by omega)
    have htot : ((n + n % 2) * (n + n % 2 + 1)) % 2 ^ 32 = (n + n % 2) * (n + n % 2 + 1) :=
      Nat.mod_eq_of_lt h
    have hinner : (((n + n % 2 : Nat) : Int) + 1).toNat = n + n % 2 + 1 := by omega
    have houter : (Int.tdiv ((n + n % 2 : Nat) : Int) 2).toNat = (n + n % 2) / 2 := by
      have : Int.tdiv ((n + n % 2 : Nat) : Int) 2 = (((n + n % 2) / 2 : Nat) : Int) :=
        (Int.ofNat_tdiv _ 2).symm
      rw [this]; rfl
    have hk : 2 * (n + n % 2 + 1) * ((n + n % 2) / 2) = (n + n % 2) * (n + n % 2 + 1) := by
      rw [← hcount]; ring
    simp only [loadSphere, hres, Bool.not_true, Bool.false_eq_true, if_false, hi, hp1, htot,
      hinner, houter, sphereRound_iterate, putVertex_iterate, hk, List.nil_append,
      Nat.zero_add, List.range_eq_range']
  refine ⟨hpoly, hcyl, hcone, fun h => ⟨hsph h, hcount⟩, ?_, ?_, ?_, ?_, ?_⟩
  · rw [hpoly]
    intro o ho
    simpa using ho
  · intro h o ho
    rw [hcyl h] at ho ⊢
    simp only [List.mem_append, List.mem_range, List.mem_range'_1] at ho
    simp only
    omega
  · intro h o ho
    rw [hcone h] at ho ⊢
    simpa using ho
  · intro h o ho
    rw [hsph h] at ho ⊢
    simpa using ho
  · simp [loadPolygon, loadCylinder, loadCone, loadSphere]

/-- Witness for C30: a 3-sided cylinder and a sphere of resolution 3. -/
theorem mesh_writes_fit_witness :
    (12 * max 3 2 < 2 ^ 32 ∧ (3 + 3 % 2) * (3 + 3 % 2 + 1) < 2 ^ 32) ∧
    loadCylinder true 3 = ⟨true, 36, List.range 18, List.range' 18 18⟩ ∧
    loadSphere true 3 = ⟨true, 20, List.range 20, []⟩ := by
  have h := mesh_writes_fit 3
  exact ⟨⟨by decide, by decide⟩, h.2.1 (by decide), (h.2.2.2.1 (by decide)).1⟩

end LightSky
